import Mathlib

/-!
# Fintech dashboard: the application state layer

A shallow embedding of `src/context/AppContext.js` (the `AppProvider` state and
its actions) together with the theorems that settle the contract of the
provider.  The second part, `Derived views`, embeds the helpers of
`src/components/dashboard/Dashboard.js` and `Transactions.js`.

Conventions of the embedding

* A JavaScript primitive value is a `Val`; `===` is `strictEq`.
* A JavaScript plain object is an `Obj`: its own properties in insertion order,
  no key twice.  Property read `o.k` is `Obj.get`, the literal `{ ...o, k: v }`
  is `Obj.set`, and `{ ...a, ...b }` is `Obj.spread`.
* A `useState` cell is a field of `AppState`; a setter call is a function
  `AppState → AppState`; an action defined in the provider body reads the
  fields of the state it was rendered with and calls setters.  Two calls in
  succession are two transitions: the second is the action of the render that
  followed the first.
* `Date.now()` is an argument of the action that reads it, and the outcome of
  each awaited fetch is an argument of `initializeApp`.
-/

namespace Fintech

/-! ## JavaScript values and objects -/

/-- Primitive JavaScript values.  Numbers are exact rationals, with the one
non-number `NaN` kept apart because `===` treats it specially. -/
inductive Val where
  | undefined
  | null
  | bool (b : Bool)
  | num (q : Rat)
  | nan
  | str (s : String)
  deriving DecidableEq

/-- Strict equality `a === b` on primitives: same type and same value, and
`NaN` is equal to nothing, itself included. -/
def strictEq : Val → Val → Bool
  | Val.undefined, Val.undefined => true
  | Val.null, Val.null => true
  | Val.bool a, Val.bool b => decide (a = b)
  | Val.num a, Val.num b => decide (a = b)
  | Val.str a, Val.str b => decide (a = b)
  | _, _ => false

/-- Property read on a raw property list: the value bound to `k`, or
`undefined` when `k` is not a property. -/
def getRaw (k : String) : List (String × Val) → Val
  | [] => Val.undefined
  | (k', v') :: rest => if k' = k then v' else getRaw k rest

/-- Membership test `k in o` on a raw property list. -/
def hasRaw (k : String) : List (String × Val) → Bool
  | [] => false
  | (k', _) :: rest => if k' = k then true else hasRaw k rest

/-- Property write on a raw property list: an existing property keeps its
position and takes the new value, a new property goes last. -/
def setRaw (k : String) (v : Val) : List (String × Val) → List (String × Val)
  | [] => [(k, v)]
  | (k', v') :: rest => if k' = k then (k, v) :: rest else (k', v') :: setRaw k v rest

theorem keys_setRaw (k : String) (v : Val) (l : List (String × Val)) :
    (setRaw k v l).map Prod.fst =
      if k ∈ l.map Prod.fst then l.map Prod.fst else l.map Prod.fst ++ [k] := by
  induction l with
  | nil => simp [setRaw]
  | cons hd tl ih =>
    obtain ⟨k', v'⟩ := hd
    by_cases h : k' = k
    · subst h; simp [setRaw]
    · have h' : ¬ k = k' := fun e => h e.symm
      simp only [setRaw, h, if_false, List.map_cons, ih, List.mem_cons, h', false_or]
      split_ifs <;> simp

theorem nodup_setRaw (k : String) (v : Val) (l : List (String × Val))
    (h : (l.map Prod.fst).Nodup) : ((setRaw k v l).map Prod.fst).Nodup := by
  rw [keys_setRaw]
  split_ifs with hk
  · exact h
  · rw [List.nodup_append]
    refine ⟨h, List.nodup_singleton k, ?_⟩
    intro a ha hb
    simp only [List.mem_singleton] at hb
    subst hb
    exact hk ha

/-- A plain JavaScript object: its own properties in insertion order, each key
once. -/
structure Obj where
  entries : List (String × Val)
  nodup : (entries.map Prod.fst).Nodup
  deriving DecidableEq

namespace Obj

/-- The empty object literal `{}`. -/
def empty : Obj := ⟨[], List.nodup_nil⟩

/-- Property read `o.k` (or `o[k]`). -/
def get (o : Obj) (k : String) : Val := getRaw k o.entries

/-- Own-property test: `k in o`. -/
def has (o : Obj) (k : String) : Bool := hasRaw k o.entries

/-- The object `{ ...o, k: v }`. -/
def set (o : Obj) (k : String) (v : Val) : Obj :=
  ⟨setRaw k v o.entries, nodup_setRaw k v o.entries o.nodup⟩

/-- The object `{ ...a, ...b }`: the properties of `a`, then each property of
`b` written over them in the order `b` lists them. -/
def spread (a b : Obj) : Obj :=
  b.entries.foldl (fun acc kv => acc.set kv.1 kv.2) a

end Obj

/-! ## The provider state (`AppProvider`, lines 8-23) -/

/-- The ten `useState` cells of `AppProvider`.  A cell that starts as `null`
holds `none`. -/
structure AppState where
  user : Option Obj
  isAuthenticated : Bool
  loading : Bool
  balance : Option Obj
  transactions : List Obj
  savingsGoals : List Obj
  investments : List Obj
  sidebarOpen : Bool
  darkMode : Bool
  notifications : List Obj
  deriving DecidableEq

/-- The state at mount: the initial values passed to `useState`. -/
def initialState : AppState where
  user := none
  isAuthenticated := false
  loading := true
  balance := none
  transactions := []
  savingsGoals := []
  investments := []
  sidebarOpen := true
  darkMode := false
  notifications := []

/-- The setter `setUser`. -/
def setUser (v : Option Obj) (s : AppState) : AppState := { s with user := v }

/-- The setter `setIsAuthenticated`. -/
def setIsAuthenticated (v : Bool) (s : AppState) : AppState := { s with isAuthenticated := v }

/-- The setter `setLoading`. -/
def setLoading (v : Bool) (s : AppState) : AppState := { s with loading := v }

/-- The setter `setBalance`. -/
def setBalance (v : Option Obj) (s : AppState) : AppState := { s with balance := v }

/-- The setter `setTransactions`. -/
def setTransactions (v : List Obj) (s : AppState) : AppState := { s with transactions := v }

/-- The setter `setSavingsGoals`. -/
def setSavingsGoals (v : List Obj) (s : AppState) : AppState := { s with savingsGoals := v }

/-- The setter `setInvestments`. -/
def setInvestments (v : List Obj) (s : AppState) : AppState := { s with investments := v }

/-- The setter `setSidebarOpen`. -/
def setSidebarOpen (v : Bool) (s : AppState) : AppState := { s with sidebarOpen := v }

/-- The setter `setDarkMode`. -/
def setDarkMode (v : Bool) (s : AppState) : AppState := { s with darkMode := v }

/-! ## Actions (lines 58-100)

Each action is the closure built while rendering state `s`; calling it gives the
next state. -/

/-- The action `toggleSidebar`: `setSidebarOpen(!sidebarOpen)`. -/
def toggleSidebar (s : AppState) : AppState := setSidebarOpen (!s.sidebarOpen) s

/-- The action `toggleDarkMode`: `setDarkMode(!darkMode)`. -/
def toggleDarkMode (s : AppState) : AppState := setDarkMode (!s.darkMode) s

/-- The action `addSavingsGoal`:
`setSavingsGoals([...savingsGoals, { ...goal, id: Date.now() }])`.
The argument `now` is the integer number of milliseconds that `Date.now()`
returns at the call. -/
def addSavingsGoal (now : Int) (goal : Obj) (s : AppState) : AppState :=
  setSavingsGoals (s.savingsGoals ++ [goal.set "id" (Val.num now)]) s

/-- The action `updateSavingsGoal`:
`savingsGoals.map(goal => goal.id === id ? { ...goal, ...updates } : goal)`. -/
def updateSavingsGoal (id : Val) (updates : Obj) (s : AppState) : AppState :=
  setSavingsGoals
    (s.savingsGoals.map
      (fun goal => if strictEq (goal.get "id") id then Obj.spread goal updates else goal)) s

/-- The action `deleteSavingsGoal`:
`savingsGoals.filter(goal => goal.id !== id)`. -/
def deleteSavingsGoal (id : Val) (s : AppState) : AppState :=
  setSavingsGoals (s.savingsGoals.filter (fun goal => !strictEq (goal.get "id") id)) s

/-- The action `logout`: `setUser(null); setIsAuthenticated(false)`. -/
def logout (s : AppState) : AppState := setIsAuthenticated false (setUser none s)

/-- Reading a goal back by id, `savingsGoals.find(goal => goal.id === id)`:
the first record of the collection whose id is `id`. -/
def findGoal (id : Val) (goals : List Obj) : Option Obj :=
  goals.find? (fun goal => strictEq (goal.get "id") id)

/-- The ids of a collection are pairwise distinct: no two records at different
positions have ids that `===` identifies. -/
def DistinctIds (goals : List Obj) : Prop :=
  goals.Pairwise (fun a b => strictEq (a.get "id") (b.get "id") = false)

instance (goals : List Obj) : Decidable (DistinctIds goals) := by
  unfold DistinctIds
  infer_instance

/-! ## Startup (`initializeApp`, lines 26-56)

Each awaited fetch either resolves with a value or rejects; a rejection is the
exception that leaves the `try` body. -/

/-- The outcome of the five awaited calls, in the order the `try` body issues
them. -/
structure Fetches where
  fetchUserData : Except String Obj
  fetchAccountBalance : Except String Obj
  fetchTransactions : Except String (List Obj)
  fetchSavingsGoals : Except String (List Obj)
  fetchInvestments : Except String (List Obj)

/-- What running a block has done to the provider: `seen` lists the state after
each setter call, oldest first; `cur` is the state now; `thrown` is the
exception the block ended with, if it did. -/
structure Progress where
  seen : List AppState
  cur : AppState
  thrown : Option String

/-- The `try` body of `initializeApp` (lines 29-46), started in state `s`. -/
def tryBody (f : Fetches) (s : AppState) : Progress :=
  let s1 := setLoading true s
  match f.fetchUserData with
  | Except.error e => ⟨[s1], s1, some e⟩
  | Except.ok userData =>
    let s2 := setUser (some userData) s1
    let s3 := setIsAuthenticated true s2
    match f.fetchAccountBalance with
    | Except.error e => ⟨[s1, s2, s3], s3, some e⟩
    | Except.ok balanceData =>
      let s4 := setBalance (some balanceData) s3
      match f.fetchTransactions with
      | Except.error e => ⟨[s1, s2, s3, s4], s4, some e⟩
      | Except.ok transactionsData =>
        let s5 := setTransactions transactionsData s4
        match f.fetchSavingsGoals with
        | Except.error e => ⟨[s1, s2, s3, s4, s5], s5, some e⟩
        | Except.ok savingsData =>
          let s6 := setSavingsGoals savingsData s5
          match f.fetchInvestments with
          | Except.error e => ⟨[s1, s2, s3, s4, s5, s6], s6, some e⟩
          | Except.ok investmentsData =>
            let s7 := setInvestments investmentsData s6
            ⟨[s1, s2, s3, s4, s5, s6, s7], s7, none⟩

/-- A finished run of `initializeApp`: the states the provider went through
while it ran, the lines written with `console.error`, and the state it ends
in. -/
structure InitRun where
  during : List AppState
  console : List String
  final : AppState

/-- The function `initializeApp`: the `try` body, then the `catch` clause that
logs the exception when there is one, then the `finally` clause
`setLoading(false)`. -/
def initializeApp (f : Fetches) (s : AppState) : InitRun :=
  let p := tryBody f s
  let console :=
    match p.thrown with
    | some e => ["Error initializing app: " ++ e]
    | none => []
  ⟨p.seen, console, setLoading false p.cur⟩

/-- Whether an awaited call resolved. -/
def resolved {α : Type} : Except String α → Bool
  | Except.ok _ => true
  | Except.error _ => false

/-- The value an awaited call resolved with, if it did. -/
def resolvedValue {α : Type} : Except String α → Option α
  | Except.ok v => some v
  | Except.error _ => none

/-! ## Sample records used to evaluate the actions -/

/-- A goal as the form builds it (no id yet): `{ name: 'Car', targetAmount: 9000 }`. -/
def sampleGoal : Obj := (Obj.empty.set "name" (Val.str "Car")).set "targetAmount" (Val.num 9000)

/-- A stored goal `{ id: 1, name: 'Car', targetAmount: 9000 }`. -/
def storedGoal1 : Obj := sampleGoal.set "id" (Val.num 1)

/-- A stored goal `{ id: 2, name: 'Trip', targetAmount: 500 }`. -/
def storedGoal2 : Obj :=
  ((Obj.empty.set "id" (Val.num 2)).set "name" (Val.str "Trip")).set "targetAmount" (Val.num 500)

/-- A stored goal with a fixture-style string id,
`{ id: 'goal_1', name: 'Emergency Fund' }`. -/
def storedGoalStr : Obj :=
  (Obj.empty.set "id" (Val.str "goal_1")).set "name" (Val.str "Emergency Fund")

/-- The patch `{ targetAmount: 9500 }`. -/
def patchTarget : Obj := Obj.empty.set "targetAmount" (Val.num 9500)

/-- The patch `{ id: 2 }`, which renames the record it is merged into. -/
def patchId : Obj := Obj.empty.set "id" (Val.num 2)

/-- A provider state holding the two numbered goals. -/
def sampleState : AppState := setSavingsGoals [storedGoal1, storedGoal2] initialState

/-- A startup in which the user and balance fetches resolve and the
transactions fetch rejects. -/
def sampleFetches : Fetches where
  fetchUserData := Except.ok (Obj.empty.set "id" (Val.str "usr_12345"))
  fetchAccountBalance := Except.ok (Obj.empty.set "total" (Val.num 24850))
  fetchTransactions := Except.error "timeout"
  fetchSavingsGoals := Except.ok [storedGoalStr]
  fetchInvestments := Except.ok []

/-! ## Lemmas on values and objects -/

theorem strictEq_eq {a b : Val} (h : strictEq a b = true) : a = b := by
  cases a <;> cases b <;> simp_all [strictEq]

theorem hasRaw_iff_mem (k : String) (l : List (String × Val)) :
    hasRaw k l = true ↔ k ∈ l.map Prod.fst := by
  induction l with
  | nil => simp [hasRaw]
  | cons hd tl ih =>
    obtain ⟨k', v'⟩ := hd
    by_cases h : k' = k
    · simp [hasRaw, h]
    · have h' : ¬ k = k' := fun e => h e.symm
      simp [hasRaw, h, h', ih]

theorem getRaw_setRaw_same (k : String) (v : Val) (l : List (String × Val)) :
    getRaw k (setRaw k v l) = v := by
  induction l with
  | nil => simp [setRaw, getRaw]
  | cons hd tl ih =>
    obtain ⟨k', v'⟩ := hd
    by_cases h : k' = k
    · simp [setRaw, getRaw, h]
    · simp [setRaw, getRaw, h, ih]

theorem getRaw_setRaw_ne (k k' : String) (v : Val) (l : List (String × Val)) (h : k' ≠ k) :
    getRaw k' (setRaw k v l) = getRaw k' l := by
  induction l with
  | nil => simp [setRaw, getRaw, h.symm]
  | cons hd tl ih =>
    obtain ⟨k0, v0⟩ := hd
    by_cases h0 : k0 = k
    · subst h0
      simp [setRaw, getRaw, h.symm]
    · by_cases h1 : k0 = k'
      · subst h1
        simp [setRaw, getRaw, h0]
      · simp [setRaw, getRaw, h0, h1, ih]

theorem hasRaw_setRaw_ne (k k' : String) (v : Val) (l : List (String × Val)) (h : k' ≠ k) :
    hasRaw k' (setRaw k v l) = hasRaw k' l := by
  induction l with
  | nil => simp [setRaw, hasRaw, h.symm]
  | cons hd tl ih =>
    obtain ⟨k0, v0⟩ := hd
    by_cases h0 : k0 = k
    · subst h0
      simp [setRaw, hasRaw, h.symm]
    · by_cases h1 : k0 = k'
      · subst h1
        simp [setRaw, hasRaw, h0]
      · simp [setRaw, hasRaw, h0, h1, ih]

theorem Obj.get_set_same (o : Obj) (k : String) (v : Val) : (o.set k v).get k = v :=
  getRaw_setRaw_same k v o.entries

theorem Obj.get_set_ne (o : Obj) (k k' : String) (v : Val) (h : k' ≠ k) :
    (o.set k v).get k' = o.get k' :=
  getRaw_setRaw_ne k k' v o.entries h

theorem Obj.has_set_ne (o : Obj) (k k' : String) (v : Val) (h : k' ≠ k) :
    (o.set k v).has k' = o.has k' :=
  hasRaw_setRaw_ne k k' v o.entries h

theorem get_foldl_set (l : List (String × Val)) (hl : (l.map Prod.fst).Nodup) (a : Obj)
    (k : String) :
    (l.foldl (fun acc kv => acc.set kv.1 kv.2) a).get k =
      if hasRaw k l = true then getRaw k l else a.get k := by
  induction l generalizing a with
  | nil => simp [hasRaw]
  | cons hd tl ih =>
    obtain ⟨k0, v0⟩ := hd
    simp only [List.map_cons, List.nodup_cons] at hl
    rw [List.foldl_cons, ih hl.2]
    by_cases h : k0 = k
    · subst h
      have hno : hasRaw k0 tl = false := by
        cases hh : hasRaw k0 tl
        · rfl
        · exact absurd ((hasRaw_iff_mem k0 tl).1 hh) hl.1
      simp [hasRaw, getRaw, hno, Obj.get_set_same]
    · have h' : k ≠ k0 := fun e => h e.symm
      simp [hasRaw, getRaw, h, Obj.get_set_ne _ _ _ _ h']

/-- Reading a property of `{ ...a, ...b }`: the value in `b` when `b` has the
property, the value in `a` otherwise. -/
theorem Obj.get_spread (a b : Obj) (k : String) :
    (Obj.spread a b).get k = if b.has k = true then b.get k else a.get k :=
  get_foldl_set b.entries b.nodup a k

/-- A patch that does not rename (it has no `id`, or its `id` is the id it is
applied under) leaves the id of every record as it was. -/
theorem get_id_update (id : Val) (updates : Obj)
    (hid : updates.has "id" = false ∨ updates.get "id" = id) (g : Obj) :
    (if strictEq (g.get "id") id then Obj.spread g updates else g).get "id" = g.get "id" := by
  by_cases hm : strictEq (g.get "id") id = true
  · rw [if_pos hm, Obj.get_spread]
    rcases hid with h | h
    · simp [h]
    · split_ifs
      · rw [h, strictEq_eq hm]
      · rfl
  · rw [if_neg hm]

theorem strictEq_id_update (id : Val) (updates : Obj)
    (hid : updates.has "id" = false ∨ updates.get "id" = id) (g : Obj) :
    strictEq ((if strictEq (g.get "id") id then Obj.spread g updates else g).get "id") id =
      strictEq (g.get "id") id := by
  rw [get_id_update id updates hid g]

/-! ## Savings-goal actions: update, delete, add -/

/-- C1 as stated fails: merging the patch `{ id: 2 }` into the goal with id `1`
renames it, so the collection that held a goal with id `1` before the call holds
none after it and the read-back finds nothing. -/
theorem updateSavingsGoal_rename_loses_goal :
    (∃ g ∈ sampleState.savingsGoals, strictEq (g.get "id") (Val.num 1) = true) ∧
      findGoal (Val.num 1)
        (updateSavingsGoal (Val.num 1) patchId sampleState).savingsGoals = none := by
  decide

/-- C1 (amended): when the collection holds a goal with id `id` and the patch
does not rename (it has no `id` property, or its `id` is `id` itself), the goal
read back by `id` after `updateSavingsGoal(id, patch)` is the goal read back
before, with the value of the patch in every property the patch names and its
prior value in every other property. -/
theorem updateSavingsGoal_read_back (s : AppState) (id : Val) (updates : Obj)
    (hid : updates.has "id" = false ∨ updates.get "id" = id)
    (hmem : ∃ g ∈ s.savingsGoals, strictEq (g.get "id") id = true) :
    ∃ before after : Obj,
      findGoal id s.savingsGoals = some before ∧
      findGoal id (updateSavingsGoal id updates s).savingsGoals = some after ∧
      ∀ k : String,
        (updates.has k = true → after.get k = updates.get k) ∧
        (updates.has k = false → after.get k = before.get k) := by
  obtain ⟨g, hg, hgid⟩ := hmem
  have hsome : (findGoal id s.savingsGoals).isSome = true := by
    unfold findGoal
    rw [List.find?_isSome]
    exact ⟨g, hg, hgid⟩
  obtain ⟨before, hb⟩ := Option.isSome_iff_exists.1 hsome
  have hbid : strictEq (before.get "id") id = true := by
    unfold findGoal at hb
    have h := List.find?_some hb
    exact h
  refine ⟨before, Obj.spread before updates, hb, ?_, ?_⟩
  · have hcomp : ((fun goal : Obj => strictEq (goal.get "id") id) ∘
        (fun goal : Obj => if strictEq (goal.get "id") id then Obj.spread goal updates else goal))
        = (fun goal : Obj => strictEq (goal.get "id") id) := by
      funext goal
      exact strictEq_id_update id updates hid goal
    unfold findGoal at hb
    simp only [updateSavingsGoal, setSavingsGoals, findGoal, List.find?_map, hcomp, hb,
      Option.map_some', hbid, if_true]
  · intro k
    rw [Obj.get_spread]
    constructor
    · intro hk
      simp [hk]
    · intro hk
      simp [hk]

/-- Witness of C1 (amended): the patch `{ targetAmount: 9500 }` applied to the
goal with id `1` of the sample state. -/
theorem updateSavingsGoal_read_back_witness :
    ∃ before after : Obj,
      findGoal (Val.num 1) sampleState.savingsGoals = some before ∧
      findGoal (Val.num 1)
        (updateSavingsGoal (Val.num 1) patchTarget sampleState).savingsGoals = some after ∧
      ∀ k : String,
        (patchTarget.has k = true → after.get k = patchTarget.get k) ∧
        (patchTarget.has k = false → after.get k = before.get k) :=
  updateSavingsGoal_read_back sampleState (Val.num 1) patchTarget (Or.inl (by decide))
    ⟨storedGoal1, by decide, by decide⟩

/-- C2: `updateSavingsGoal(id, patch)` keeps the length of the collection,
leaves every record whose id differs from `id` unchanged at its position, and
when no record has that id returns a collection equal to the one before; no
other state cell changes. -/
theorem updateSavingsGoal_frame (s : AppState) (id : Val) (updates : Obj) :
    (updateSavingsGoal id updates s).savingsGoals.length = s.savingsGoals.length ∧
    (∀ (i : Nat) (g : Obj), s.savingsGoals[i]? = some g → strictEq (g.get "id") id = false →
      (updateSavingsGoal id updates s).savingsGoals[i]? = some g) ∧
    ((∀ g ∈ s.savingsGoals, strictEq (g.get "id") id = false) →
      (updateSavingsGoal id updates s).savingsGoals = s.savingsGoals) ∧
    updateSavingsGoal id updates s =
      { s with savingsGoals := (updateSavingsGoal id updates s).savingsGoals } := by
  refine ⟨?_, ?_, ?_, rfl⟩
  · simp [updateSavingsGoal, setSavingsGoals]
  · intro i g hi hne
    simp [updateSavingsGoal, setSavingsGoals, List.getElem?_map, hi, hne]
  · intro hall
    simp only [updateSavingsGoal, setSavingsGoals]
    conv_rhs => rw [← List.map_id s.savingsGoals]
    apply List.map_congr_left
    intro g hg
    simp [hall g hg]

/-- Witness of C2: updating id `1` in the sample state leaves the goal with
id `2` at position 1, and updating the absent id `7` changes nothing. -/
theorem updateSavingsGoal_frame_witness :
    (updateSavingsGoal (Val.num 1) patchTarget sampleState).savingsGoals[1]? = some storedGoal2 ∧
    (updateSavingsGoal (Val.num 7) patchTarget sampleState).savingsGoals =
      sampleState.savingsGoals :=
  ⟨(updateSavingsGoal_frame sampleState (Val.num 1) patchTarget).2.1 1 storedGoal2
      (by decide) (by decide),
    (updateSavingsGoal_frame sampleState (Val.num 7) patchTarget).2.2.1 (by decide)⟩

/-- C3: `deleteSavingsGoal(id)` yields exactly the records whose id differs
from `id`, in their original order: the result is a sub-list of the collection
that keeps every record with another id, as often as it occurred, and drops
every record with id `id`.  When no record has that id the collection is equal
to the one before, and in every case no record with that id remains. -/
theorem deleteSavingsGoal_spec (s : AppState) (id : Val) :
    List.Sublist (deleteSavingsGoal id s).savingsGoals s.savingsGoals ∧
    (∀ g : Obj, strictEq (g.get "id") id = false →
      (deleteSavingsGoal id s).savingsGoals.count g = s.savingsGoals.count g) ∧
    (∀ g ∈ (deleteSavingsGoal id s).savingsGoals, strictEq (g.get "id") id = false) ∧
    ((∀ g ∈ s.savingsGoals, strictEq (g.get "id") id = false) →
      (deleteSavingsGoal id s).savingsGoals = s.savingsGoals) ∧
    deleteSavingsGoal id s =
      { s with savingsGoals := (deleteSavingsGoal id s).savingsGoals } := by
  refine ⟨?_, ?_, ?_, ?_, rfl⟩
  · exact List.filter_sublist _
  · intro g hg
    simp only [deleteSavingsGoal, setSavingsGoals]
    rw [List.count_filter]
    simp [hg]
  · intro g hg
    simp only [deleteSavingsGoal, setSavingsGoals, List.mem_filter] at hg
    simpa using hg.2
  · intro hall
    simp only [deleteSavingsGoal, setSavingsGoals]
    rw [List.filter_eq_self]
    intro g hg
    simp [hall g hg]

/-- Witness of C3: deleting id `1` from the sample state leaves the goal with
id `2` once and no goal with id `1`; deleting the absent id `7` changes
nothing. -/
theorem deleteSavingsGoal_spec_witness :
    (deleteSavingsGoal (Val.num 1) sampleState).savingsGoals.count storedGoal2 =
      sampleState.savingsGoals.count storedGoal2 ∧
    (deleteSavingsGoal (Val.num 7) sampleState).savingsGoals = sampleState.savingsGoals :=
  ⟨(deleteSavingsGoal_spec sampleState (Val.num 1)).2.1 storedGoal2 (by decide),
    (deleteSavingsGoal_spec sampleState (Val.num 7)).2.2.2.1 (by decide)⟩

/-- C4 as stated fails: two `addSavingsGoal` calls that read the same clock
value give the second record the id of the first. -/
theorem addSavingsGoal_same_clock_collides :
    ∃ g ∈ (addSavingsGoal 1743000000000 sampleGoal initialState).savingsGoals,
      ∃ g', (addSavingsGoal 1743000000000 sampleGoal
              (addSavingsGoal 1743000000000 sampleGoal initialState)).savingsGoals =
            (addSavingsGoal 1743000000000 sampleGoal initialState).savingsGoals ++ [g'] ∧
        strictEq (g.get "id") (g'.get "id") = true := by
  refine ⟨sampleGoal.set "id" (Val.num 1743000000000), by decide,
    sampleGoal.set "id" (Val.num 1743000000000), by decide, by decide⟩

/-- C4 (amended): the id that `addSavingsGoal` assigns is the clock value read
by `Date.now()`; it differs from the id of every record already in the
collection whenever every numeric id already there is smaller than that clock
value (ids that are not numbers, like the string ids of the fixture, never
equal it). -/
theorem addSavingsGoal_fresh_id (now : Int) (goal : Obj) (s : AppState)
    (hclock : ∀ g ∈ s.savingsGoals, ∀ q : Rat, g.get "id" = Val.num q → q < (now : Rat)) :
    ∃ g' : Obj,
      (addSavingsGoal now goal s).savingsGoals = s.savingsGoals ++ [g'] ∧
      g'.get "id" = Val.num now ∧
      ∀ g ∈ s.savingsGoals, strictEq (g.get "id") (g'.get "id") = false := by
  refine ⟨goal.set "id" (Val.num now), rfl, Obj.get_set_same _ _ _, ?_⟩
  intro g hg
  rw [Obj.get_set_same]
  cases hgi : strictEq (g.get "id") (Val.num now)
  · rfl
  · have h := hclock g hg now (strictEq_eq hgi)
    exact absurd h (lt_irrefl _)

/-- Witness of C4 (amended): a goal added at clock value `1743000000000` to
the sample state, whose ids are `1` and `2`. -/
theorem addSavingsGoal_fresh_id_witness :
    ∃ g' : Obj,
      (addSavingsGoal 1743000000000 sampleGoal sampleState).savingsGoals =
        sampleState.savingsGoals ++ [g'] ∧
      g'.get "id" = Val.num (1743000000000 : Int) ∧
      ∀ g ∈ sampleState.savingsGoals, strictEq (g.get "id") (g'.get "id") = false :=
  addSavingsGoal_fresh_id 1743000000000 sampleGoal sampleState (by
    intro g hg q hq
    have hg' : g = storedGoal1 ∨ g = storedGoal2 := by
      simpa [sampleState, setSavingsGoals] using hg
    rcases hg' with rfl | rfl
    · have h1 : storedGoal1.get "id" = Val.num 1 := by decide
      rw [h1] at hq
      injection hq with hq
      rw [← hq]
      norm_num
    · have h2 : storedGoal2.get "id" = Val.num 2 := by decide
      rw [h2] at hq
      injection hq with hq
      rw [← hq]
      norm_num)

/-- C5: `addSavingsGoal(goal)` yields the prior collection, unchanged and in
the same order, followed by exactly one new record; every property of the new
record other than `id` is present exactly when `goal` has it and has the value
it has in `goal`; the length grows by one and no other state cell changes. -/
theorem addSavingsGoal_appends (now : Int) (goal : Obj) (s : AppState) :
    ∃ g' : Obj,
      (addSavingsGoal now goal s).savingsGoals = s.savingsGoals ++ [g'] ∧
      (∀ k : String, k ≠ "id" → g'.get k = goal.get k ∧ g'.has k = goal.has k) ∧
      (addSavingsGoal now goal s).savingsGoals.length = s.savingsGoals.length + 1 ∧
      addSavingsGoal now goal s =
        { s with savingsGoals := (addSavingsGoal now goal s).savingsGoals } := by
  refine ⟨goal.set "id" (Val.num now), rfl, ?_, ?_, rfl⟩
  · intro k hk
    exact ⟨Obj.get_set_ne _ _ _ _ hk, Obj.has_set_ne _ _ _ _ hk⟩
  · simp [addSavingsGoal, setSavingsGoals]

/-- Witness of C5: the record appended for the sample goal carries its
`name`. -/
theorem addSavingsGoal_appends_witness :
    ∃ g' : Obj,
      (addSavingsGoal 1743000000000 sampleGoal sampleState).savingsGoals =
        sampleState.savingsGoals ++ [g'] ∧
      g'.get "name" = sampleGoal.get "name" := by
  obtain ⟨g', h1, h2, _⟩ := addSavingsGoal_appends 1743000000000 sampleGoal sampleState
  exact ⟨g', h1, (h2 "name" (by decide)).1⟩

/-- C6 as stated fails: merging the patch `{ id: 2 }` into the goal with id `1`
of a collection with ids `1` and `2` leaves two records with id `2`. -/
theorem updateSavingsGoal_rename_duplicates_id :
    DistinctIds sampleState.savingsGoals ∧
      ¬ DistinctIds (updateSavingsGoal (Val.num 1) patchId sampleState).savingsGoals := by
  decide

/-- C6 (amended): when the ids of the collection are pairwise distinct they
are still pairwise distinct after `deleteSavingsGoal(id)`, for every id, and
after `updateSavingsGoal(id, patch)`, for every id and every patch that does not
rename (it has no `id` property, or its `id` is `id` itself). -/
theorem distinctIds_preserved (s : AppState) (id : Val) (updates : Obj)
    (hd : DistinctIds s.savingsGoals) :
    DistinctIds (deleteSavingsGoal id s).savingsGoals ∧
    ((updates.has "id" = false ∨ updates.get "id" = id) →
      DistinctIds (updateSavingsGoal id updates s).savingsGoals) := by
  constructor
  · exact List.Pairwise.filter _ hd
  · intro hid
    simp only [updateSavingsGoal, setSavingsGoals, DistinctIds, List.pairwise_map]
    refine List.Pairwise.imp ?_ hd
    intro a b hab
    rw [get_id_update id updates hid a, get_id_update id updates hid b]
    exact hab

/-- Witness of C6 (amended): deleting id `1` from the sample state and
patching its target amount both keep the ids distinct. -/
theorem distinctIds_preserved_witness :
    DistinctIds (deleteSavingsGoal (Val.num 1) sampleState).savingsGoals ∧
    DistinctIds (updateSavingsGoal (Val.num 1) patchTarget sampleState).savingsGoals :=
  ⟨(distinctIds_preserved sampleState (Val.num 1) patchTarget (by decide)).1,
    (distinctIds_preserved sampleState (Val.num 1) patchTarget (by decide)).2
      (Or.inl (by decide))⟩

/-! ## Session and UI flags -/

/-- C7: `logout()` sets `user` to `null` and `isAuthenticated` to `false` and
leaves balance, transactions, savings goals, investments, notifications, the
loading flag and both UI flags as they were. -/
theorem logout_spec (s : AppState) :
    (logout s).user = none ∧
    (logout s).isAuthenticated = false ∧
    (logout s).balance = s.balance ∧
    (logout s).transactions = s.transactions ∧
    (logout s).savingsGoals = s.savingsGoals ∧
    (logout s).investments = s.investments ∧
    (logout s).notifications = s.notifications ∧
    (logout s).sidebarOpen = s.sidebarOpen ∧
    (logout s).darkMode = s.darkMode ∧
    (logout s).loading = s.loading :=
  ⟨rfl, rfl, rfl, rfl, rfl, rfl, rfl, rfl, rfl, rfl⟩

/-- C8: `toggleSidebar()` negates `sidebarOpen` and `toggleDarkMode()` negates
`darkMode`, each changing no other state cell, and the same toggle applied twice
in succession gives back the original state. -/
theorem toggle_spec (s : AppState) :
    ((toggleSidebar s).sidebarOpen = !s.sidebarOpen ∧
      (toggleSidebar s).darkMode = s.darkMode ∧
      (toggleSidebar s).user = s.user ∧
      (toggleSidebar s).isAuthenticated = s.isAuthenticated ∧
      (toggleSidebar s).loading = s.loading ∧
      (toggleSidebar s).balance = s.balance ∧
      (toggleSidebar s).transactions = s.transactions ∧
      (toggleSidebar s).savingsGoals = s.savingsGoals ∧
      (toggleSidebar s).investments = s.investments ∧
      (toggleSidebar s).notifications = s.notifications) ∧
    ((toggleDarkMode s).darkMode = !s.darkMode ∧
      (toggleDarkMode s).sidebarOpen = s.sidebarOpen ∧
      (toggleDarkMode s).user = s.user ∧
      (toggleDarkMode s).isAuthenticated = s.isAuthenticated ∧
      (toggleDarkMode s).loading = s.loading ∧
      (toggleDarkMode s).balance = s.balance ∧
      (toggleDarkMode s).transactions = s.transactions ∧
      (toggleDarkMode s).savingsGoals = s.savingsGoals ∧
      (toggleDarkMode s).investments = s.investments ∧
      (toggleDarkMode s).notifications = s.notifications) ∧
    toggleSidebar (toggleSidebar s) = s ∧
    toggleDarkMode (toggleDarkMode s) = s := by
  refine ⟨⟨rfl, rfl, rfl, rfl, rfl, rfl, rfl, rfl, rfl, rfl⟩,
    ⟨rfl, rfl, rfl, rfl, rfl, rfl, rfl, rfl, rfl, rfl⟩, ?_, ?_⟩
  · cases s
    simp [toggleSidebar, setSidebarOpen]
  · cases s
    simp [toggleDarkMode, setDarkMode]

/-! ## Startup -/

/-- C9: for every outcome of the five startup fetches, `initializeApp` runs to
its end; the loading flag is `true` at mount and in every state the provider
goes through while `initializeApp` runs, and `false` in the state it ends in. -/
theorem initializeApp_loading (f : Fetches) (s : AppState) :
    initialState.loading = true ∧
    (initializeApp f s).during ≠ [] ∧
    (∀ t ∈ (initializeApp f s).during, t.loading = true) ∧
    (initializeApp f s).final.loading = false := by
  obtain ⟨u, b, t, g, i⟩ := f
  refine ⟨rfl, ?_, ?_, ?_⟩
  · cases u <;> cases b <;> cases t <;> cases g <;> cases i <;>
      simp [initializeApp, tryBody]
  · cases u <;> cases b <;> cases t <;> cases g <;> cases i <;>
      simp [initializeApp, tryBody, setLoading, setUser, setIsAuthenticated, setBalance,
        setTransactions, setSavingsGoals, setInvestments]
  · cases u <;> cases b <;> cases t <;> cases g <;> cases i <;>
      simp [initializeApp, tryBody, setLoading]

/-- Witness of C9: when the transactions fetch rejects, the state reached
after `setBalance` is one the provider goes through, and it is loading. -/
theorem initializeApp_loading_witness :
    (setBalance (some (Obj.empty.set "total" (Val.num 24850)))
      (setIsAuthenticated true
        (setUser (some (Obj.empty.set "id" (Val.str "usr_12345")))
          (setLoading true initialState)))).loading = true :=
  (initializeApp_loading sampleFetches initialState).2.2.1 _ (by decide)

/-- C10: for every outcome of the five startup fetches, after `initializeApp`
has run from the state at mount, each of user, balance, transactions, savings
goals and investments holds the fetched value when its fetch and every fetch
before it resolved, and its initial value (`null` or the empty list) otherwise;
`isAuthenticated` is `true` exactly when the user fetch resolved; the UI cells
are as at mount. -/
theorem initializeApp_fields (f : Fetches) :
    (initializeApp f initialState).final.user = resolvedValue f.fetchUserData ∧
    (initializeApp f initialState).final.isAuthenticated = resolved f.fetchUserData ∧
    (initializeApp f initialState).final.balance =
      (if resolved f.fetchUserData then resolvedValue f.fetchAccountBalance else none) ∧
    (initializeApp f initialState).final.transactions =
      (if resolved f.fetchUserData && resolved f.fetchAccountBalance
        then (resolvedValue f.fetchTransactions).getD [] else []) ∧
    (initializeApp f initialState).final.savingsGoals =
      (if resolved f.fetchUserData && resolved f.fetchAccountBalance &&
          resolved f.fetchTransactions
        then (resolvedValue f.fetchSavingsGoals).getD [] else []) ∧
    (initializeApp f initialState).final.investments =
      (if resolved f.fetchUserData && resolved f.fetchAccountBalance &&
          resolved f.fetchTransactions && resolved f.fetchSavingsGoals
        then (resolvedValue f.fetchInvestments).getD [] else []) ∧
    (initializeApp f initialState).final.sidebarOpen = initialState.sidebarOpen ∧
    (initializeApp f initialState).final.darkMode = initialState.darkMode ∧
    (initializeApp f initialState).final.notifications = initialState.notifications := by
  obtain ⟨u, b, t, g, i⟩ := f
  cases u <;> cases b <;> cases t <;> cases g <;> cases i <;>
    simp [initializeApp, tryBody, setLoading, setUser, setIsAuthenticated, setBalance,
      setTransactions, setSavingsGoals, setInvestments, initialState, resolved, resolvedValue]

/-! # Derived views

The helpers with which `Dashboard.js` and `Transactions.js` shape the provider
collections for display.

Further conventions

* The result of JavaScript arithmetic is a `Num`: a rational, or one of `NaN`,
  `+Infinity`, `-Infinity`.  The operations `add`, `mul` and `div` are exact;
  `Num.toDouble` rounds a result to the nearest Number (IEEE 754 binary64).
  `getTotalSavingsProgress`, whose result depends on how a quotient is rounded,
  rounds after every operation.  The sign of zero is not represented.
* `Array.prototype.sort(compareFn)` is `jsSort`, a stable insertion sort: an
  element moves behind another only when `compareFn` is positive on the pair.
* `Array.prototype.slice(start, end)` is `jsSlice`.
-/

/-! ## Numbers -/

/-- The result of JavaScript arithmetic. -/
inductive Num where
  | fin (q : Rat)
  | nan
  | posInf
  | negInf
  deriving DecidableEq

namespace Num

/-- Unary minus. -/
def neg : Num → Num
  | fin q => fin (-q)
  | nan => nan
  | posInf => negInf
  | negInf => posInf

/-- The sum `a + b` of two numbers. -/
def add : Num → Num → Num
  | fin a, fin b => fin (a + b)
  | nan, _ => nan
  | _, nan => nan
  | posInf, negInf => nan
  | negInf, posInf => nan
  | posInf, _ => posInf
  | _, posInf => posInf
  | negInf, _ => negInf
  | _, negInf => negInf

/-- The difference `a - b`. -/
def sub (a b : Num) : Num := a.add b.neg

/-- The sign of an infinite product or quotient: `+Infinity` when `pos`, else
`-Infinity`. -/
def infOfSign (pos : Bool) : Num := if pos then posInf else negInf

/-- The product `a * b`. -/
def mul : Num → Num → Num
  | fin a, fin b => fin (a * b)
  | nan, _ => nan
  | _, nan => nan
  | fin a, posInf => if a = 0 then nan else infOfSign (decide (0 < a))
  | fin a, negInf => if a = 0 then nan else infOfSign (decide (a < 0))
  | posInf, fin b => if b = 0 then nan else infOfSign (decide (0 < b))
  | negInf, fin b => if b = 0 then nan else infOfSign (decide (b < 0))
  | posInf, posInf => posInf
  | negInf, negInf => posInf
  | posInf, negInf => negInf
  | negInf, posInf => negInf

/-- The quotient `a / b`.  A finite number over zero is an infinity with the
sign of the numerator, and zero over zero is `NaN`. -/
def div : Num → Num → Num
  | fin a, fin b =>
    if b = 0 then (if a = 0 then nan else infOfSign (decide (0 < a))) else fin (a / b)
  | nan, _ => nan
  | _, nan => nan
  | fin _, posInf => fin 0
  | fin _, negInf => fin 0
  | posInf, fin b => infOfSign (decide (0 ≤ b))
  | negInf, fin b => infOfSign (decide (b < 0))
  | posInf, posInf => nan
  | posInf, negInf => nan
  | negInf, posInf => nan
  | negInf, negInf => nan

/-- The function `Math.round`: the nearest integer, a half going up. -/
def round : Num → Num
  | fin q => fin (Int.floor (q + 1 / 2) : Int)
  | nan => nan
  | posInf => posInf
  | negInf => negInf

/-- Whether a comparator result is positive.  `NaN` is not: `sort` reads it
as `+0`. -/
def gtZero : Num → Bool
  | fin q => decide (0 < q)
  | posInf => true
  | _ => false

end Num

/-- Rounding to the nearest integer, a tie going to the even one. -/
def roundHalfEven (q : Rat) : Int :=
  if q - Int.floor q < 1 / 2 then Int.floor q
  else if 1 / 2 < q - Int.floor q then Int.floor q + 1
  else if Int.floor q % 2 = 0 then Int.floor q else Int.floor q + 1

/-- The binary place of the last of the 53 significant digits of the double
nearest to a positive rational: 52 places below its leading digit, and never
below `2 ^ (-1074)`, the last place of the subnormal numbers. -/
def lastPlace (q : Rat) : Int := max (Int.log 2 q - 52) (-1074)

/-- The Number that holds the exact result of an operation: the nearest
multiple of `2 ^ lastPlace`, a tie going to the even significand, and an
infinity from `2 ^ 1024` on (IEEE 754 binary64, round to nearest). -/
def Num.toDouble : Num → Num
  | Num.fin q =>
    if q = 0 then Num.fin 0
    else
      let r : Rat := (roundHalfEven (|q| / 2 ^ lastPlace |q|) : Int) * 2 ^ lastPlace |q|
      if (2 : Rat) ^ (1024 : Nat) ≤ r then Num.infOfSign (decide (0 < q))
      else Num.fin (if q < 0 then -r else r)
  | x => x

/-- The abstract operation `ToNumber` on a stored value.  A string operand is
outside the model (no helper of the repository is ever handed one in a numeric
field) and reads as `NaN`. -/
def toNumber : Val → Num
  | Val.undefined => Num.nan
  | Val.null => Num.fin 0
  | Val.bool b => Num.fin (if b then 1 else 0)
  | Val.num q => Num.fin q
  | Val.nan => Num.nan
  | Val.str _ => Num.nan

/-! ## Arrays: `sort` and `slice` -/

/-- One insertion step of `sort`: `a`, which stood before every element of the
sorted list, moves behind an element `b` only when `compareFn(a, b) > 0`. -/
def sortInsert {α : Type} (compareFn : α → α → Num) (a : α) : List α → List α
  | [] => [a]
  | b :: rest =>
    if (compareFn a b).gtZero then b :: sortInsert compareFn a rest else a :: b :: rest

/-- The method `Array.prototype.sort(compareFn)`, a stable sort. -/
def jsSort {α : Type} (compareFn : α → α → Num) : List α → List α
  | [] => []
  | a :: rest => sortInsert compareFn a (jsSort compareFn rest)

/-- How `slice` reads a relative index on an array of length `len`: a negative
index counts from the end, and the result is clamped to `0 .. len`. -/
def sliceIndex (len : Nat) (i : Int) : Nat :=
  if i < 0 then (len + i).toNat else min i.toNat len

/-- The method `Array.prototype.slice(start, end)`. -/
def jsSlice {α : Type} (l : List α) (start stop : Int) : List α :=
  (l.drop (sliceIndex l.length start)).take
    (sliceIndex l.length stop - sliceIndex l.length start)

/-! ## Savings-goal views (`Dashboard.js`, lines 249-274) -/

/-- The quotient `goal.currentAmount / goal.targetAmount`. -/
def completionRatio (goal : Obj) : Num :=
  (toNumber (goal.get "currentAmount")).div (toNumber (goal.get "targetAmount"))

/-- The function `getTotalSavingsProgress`.  The guard `!savingsGoals` is never
taken: the provider always holds an array.  Every sum, the quotient and the
product are Numbers, so each is rounded with `Num.toDouble`; `Math.round` of a
Number is exact. -/
def getTotalSavingsProgress (savingsGoals : List Obj) : Num :=
  if savingsGoals.length = 0 then Num.fin 0
  else
    let totalCurrent :=
      savingsGoals.foldl
        (fun sum goal => (sum.add (toNumber (goal.get "currentAmount"))).toDouble) (Num.fin 0)
    let totalTarget :=
      savingsGoals.foldl
        (fun sum goal => (sum.add (toNumber (goal.get "targetAmount"))).toDouble) (Num.fin 0)
    Num.round (((totalCurrent.div totalTarget).toDouble.mul (Num.fin 100)).toDouble)

/-- The function `getTopSavingsGoals`: the copy `[...savingsGoals]` sorted with
the comparator `b.currentAmount / b.targetAmount - a.currentAmount / a.targetAmount`,
then `slice(0, 3)`. -/
def getTopSavingsGoals (savingsGoals : List Obj) : List Obj :=
  jsSlice (jsSort (fun a b => (completionRatio b).sub (completionRatio a)) savingsGoals) 0 3

/-- A goal `{ id, name, targetAmount, currentAmount }`. -/
def mkGoal (id name : String) (targetAmount currentAmount : Rat) : Obj :=
  (((Obj.empty.set "id" (Val.str id)).set "name" (Val.str name)).set
    "targetAmount" (Val.num targetAmount)).set "currentAmount" (Val.num currentAmount)

/-- The three goals that `fetchSavingsGoals` returns (`api.js`, lines 111-151),
with the properties the views read. -/
def fixtureGoals : List Obj :=
  [mkGoal "goal_1" "Emergency Fund" 10000 6500,
   mkGoal "goal_2" "Vacation" 3000 1200,
   mkGoal "goal_3" "New Laptop" 1500 750]

/-- A goal with target `0` and `50` saved. -/
def zeroTargetGoal : Obj := mkGoal "goal_z" "Open-ended" 0 50

/-- A goal with target `0` and nothing saved. -/
def emptyGoal : Obj := mkGoal "goal_e" "Placeholder" 0 0

/-- A goal with 23 of 40 saved, exactly 57.5 percent. -/
def halfwayGoal : Obj := mkGoal "goal_h" "Helmet" 40 23

/-- The rational stored in property `k` of a record, `0` when the property
does not hold a number.  Used to state what the views compute. -/
def amountQ (goal : Obj) (k : String) : Rat :=
  match goal.get k with
  | Val.num q => q
  | _ => 0

/-- The completion ratio of a goal as a rational, `currentAmount / targetAmount`. -/
def ratioQ (goal : Obj) : Rat := amountQ goal "currentAmount" / amountQ goal "targetAmount"

/-- The exact percentage `100 * sum(currentAmount) / sum(targetAmount)` of a
goal list. -/
def exactPercent (goals : List Obj) : Rat :=
  100 * (goals.map (fun g => amountQ g "currentAmount")).sum /
    (goals.map (fun g => amountQ g "targetAmount")).sum

/-- Rounding to the nearest integer with an exact half going away from zero,
as the specification words it. -/
def roundHalfAwayFromZero (q : Rat) : Int :=
  if 0 ≤ q then Int.floor (q + 1 / 2) else Int.ceil (q - 1 / 2)

/-- Whether the target amount of a goal is the number zero. -/
def isZeroTarget (goal : Obj) : Bool := decide (toNumber (goal.get "targetAmount") = Num.fin 0)

/-- The ratio the specification ranks a goal with: `0` for a goal whose target
amount is `0`, the quotient otherwise. -/
def specRatio (goal : Obj) : Num :=
  if isZeroTarget goal then Num.fin 0 else completionRatio goal

/-- The top goals as the specification words them: sorted by `specRatio`
descending, first three. -/
def specTopSavingsGoals (savingsGoals : List Obj) : List Obj :=
  jsSlice (jsSort (fun a b => (specRatio b).sub (specRatio a)) savingsGoals) 0 3

/-! ## Lemmas on `sort` and `slice` -/

theorem jsSlice_zero {α : Type} (l : List α) (n : Nat) : jsSlice l 0 (n : Int) = l.take n := by
  simp only [jsSlice, sliceIndex, lt_self_iff_false, if_false, Int.toNat_zero, Nat.zero_min,
    List.drop_zero, Nat.sub_zero]
  have h : ¬ ((n : Int) < 0) := by omega
  rw [if_neg h, Int.toNat_ofNat]
  rcases Nat.le_total n l.length with h1 | h1
  · rw [Nat.min_eq_left h1]
  · rw [Nat.min_eq_right h1, List.take_of_length_le h1, List.take_of_length_le (le_refl _)]

theorem sortInsert_perm {α : Type} (c : α → α → Num) (a : α) (l : List α) :
    (sortInsert c a l).Perm (a :: l) := by
  induction l with
  | nil => exact List.Perm.refl _
  | cons b rest ih =>
    unfold sortInsert
    split_ifs
    · exact ((List.Perm.cons b ih).trans (List.Perm.swap a b rest))
    · exact List.Perm.refl _

theorem jsSort_perm {α : Type} (c : α → α → Num) (l : List α) : (jsSort c l).Perm l := by
  induction l with
  | nil => exact List.Perm.refl _
  | cons a rest ih =>
    unfold jsSort
    exact (sortInsert_perm c a _).trans (List.Perm.cons a ih)

/-- On the elements of `l` the comparator sorts by `key`, descending: it is
positive on a pair exactly when the first has the smaller key. -/
def SortsDescBy {α κ : Type} [LinearOrder κ] (c : α → α → Num) (key : α → κ) (l : List α) :
    Prop :=
  ∀ a ∈ l, ∀ b ∈ l, ((c a b).gtZero = true ↔ key a < key b)

theorem sortInsert_pairwise {α κ : Type} [LinearOrder κ] (c : α → α → Num) (key : α → κ)
    (a : α) (l : List α) (hc : ∀ b ∈ l, ((c a b).gtZero = true ↔ key a < key b))
    (hl : l.Pairwise (fun x y => key y ≤ key x)) :
    (sortInsert c a l).Pairwise (fun x y => key y ≤ key x) := by
  induction l with
  | nil => simp [sortInsert]
  | cons b rest ih =>
    have hb := hc b (List.mem_cons_self _ _)
    rw [List.pairwise_cons] at hl
    unfold sortInsert
    split_ifs with h
    · have hab : key a < key b := hb.1 h
      rw [List.pairwise_cons]
      refine ⟨?_, ih (fun x hx => hc x (List.mem_cons_of_mem _ hx)) hl.2⟩
      intro x hx
      rcases List.mem_cons.1 ((sortInsert_perm c a rest).subset hx) with rfl | hx'
      · exact le_of_lt hab
      · exact hl.1 x hx'
    · have hba : key b ≤ key a := not_lt.1 (fun hlt => h (hb.2 hlt))
      rw [List.pairwise_cons]
      refine ⟨?_, List.pairwise_cons.2 hl⟩
      intro x hx
      rcases List.mem_cons.1 hx with rfl | hx'
      · exact hba
      · exact le_trans (hl.1 x hx') hba

theorem jsSort_pairwise {α κ : Type} [LinearOrder κ] (c : α → α → Num) (key : α → κ)
    (l : List α) (hc : SortsDescBy c key l) :
    (jsSort c l).Pairwise (fun x y => key y ≤ key x) := by
  induction l with
  | nil => simp [jsSort]
  | cons a rest ih =>
    unfold jsSort
    apply sortInsert_pairwise
    · intro b hb
      exact hc a (List.mem_cons_self _ _) b
        (List.mem_cons_of_mem _ ((jsSort_perm c rest).subset hb))
    · exact ih (fun x hx y hy => hc x (List.mem_cons_of_mem _ hx) y (List.mem_cons_of_mem _ hy))

theorem sortInsert_filter {α κ : Type} [LinearOrder κ] (c : α → α → Num) (key : α → κ)
    (a : α) (l : List α) (hc : ∀ b ∈ l, ((c a b).gtZero = true ↔ key a < key b)) (t : κ) :
    (sortInsert c a l).filter (fun x => decide (key x = t)) =
      (a :: l).filter (fun x => decide (key x = t)) := by
  induction l with
  | nil => simp [sortInsert]
  | cons b rest ih =>
    have hb := hc b (List.mem_cons_self _ _)
    have ih' := ih (fun x hx => hc x (List.mem_cons_of_mem _ hx))
    unfold sortInsert
    split_ifs with h
    · have hab : key a < key b := hb.1 h
      by_cases hbt : key b = t
      · have hat : key a ≠ t := by
          intro e
          rw [e, hbt] at hab
          exact lt_irrefl _ hab
        simp [List.filter_cons, hbt, hat] at ih' ⊢
        exact ih'
      · simp [List.filter_cons, hbt] at ih' ⊢
        exact ih'
    · rfl

/-- A sort whose comparator sorts by `key` is stable: the elements with any one
key keep their original relative order. -/
theorem jsSort_filter {α κ : Type} [LinearOrder κ] (c : α → α → Num) (key : α → κ)
    (l : List α) (hc : SortsDescBy c key l) (t : κ) :
    (jsSort c l).filter (fun x => decide (key x = t)) =
      l.filter (fun x => decide (key x = t)) := by
  induction l with
  | nil => simp [jsSort]
  | cons a rest ih =>
    unfold jsSort
    rw [sortInsert_filter c key a _ (fun b hb => hc a (List.mem_cons_self _ _) b
      (List.mem_cons_of_mem _ ((jsSort_perm c rest).subset hb))) t]
    have ih' := ih (fun x hx y hy => hc x (List.mem_cons_of_mem _ hx) y
      (List.mem_cons_of_mem _ hy))
    simp only [List.filter_cons, ih']

theorem sortInsert_congr {α : Type} (c c' : α → α → Num) (a : α) (l : List α)
    (h : ∀ b ∈ l, c a b = c' a b) : sortInsert c a l = sortInsert c' a l := by
  induction l with
  | nil => rfl
  | cons b rest ih =>
    unfold sortInsert
    rw [h b (List.mem_cons_self _ _), ih (fun x hx => h x (List.mem_cons_of_mem _ hx))]

theorem jsSort_congr {α : Type} (c c' : α → α → Num) (l : List α)
    (h : ∀ a ∈ l, ∀ b ∈ l, c a b = c' a b) : jsSort c l = jsSort c' l := by
  induction l with
  | nil => rfl
  | cons a rest ih =>
    unfold jsSort
    rw [← ih (fun x hx y hy => h x (List.mem_cons_of_mem _ hx) y (List.mem_cons_of_mem _ hy))]
    exact sortInsert_congr c c' a _ (fun b hb => h a (List.mem_cons_self _ _) b
      (List.mem_cons_of_mem _ ((jsSort_perm c rest).subset hb)))

theorem sortInsert_of_not_gt {α : Type} (c : α → α → Num) (a : α) (l : List α)
    (h : ∀ b ∈ l, (c a b).gtZero = false) : sortInsert c a l = a :: l := by
  cases l with
  | nil => rfl
  | cons b rest =>
    unfold sortInsert
    rw [h b (List.mem_cons_self _ _)]
    simp

theorem sortInsert_append_of_gt {α : Type} (c : α → α → Num) (a : α) (front back : List α)
    (h : ∀ b ∈ front, (c a b).gtZero = true) :
    sortInsert c a (front ++ back) = front ++ sortInsert c a back := by
  induction front with
  | nil => rfl
  | cons b rest ih =>
    show (if (c a b).gtZero then b :: sortInsert c a (rest ++ back)
      else a :: b :: (rest ++ back)) = b :: (rest ++ sortInsert c a back)
    rw [h b (List.mem_cons_self _ _), if_pos rfl,
      ih (fun x hx => h x (List.mem_cons_of_mem _ hx))]

/-! ## Lemmas on the savings-goal views -/

theorem getTopSavingsGoals_eq_take (goals : List Obj) :
    getTopSavingsGoals goals =
      (jsSort (fun a b => (completionRatio b).sub (completionRatio a)) goals).take 3 := by
  unfold getTopSavingsGoals
  exact jsSlice_zero _ 3

theorem completionRatio_of_num (g : Obj) (c t : Rat) (hc : g.get "currentAmount" = Val.num c)
    (ht : g.get "targetAmount" = Val.num t) (h0 : t ≠ 0) :
    completionRatio g = Num.fin (ratioQ g) := by
  simp [completionRatio, ratioQ, amountQ, hc, ht, toNumber, Num.div, h0]

theorem completionRatio_zero_target (g : Obj) (c : Rat)
    (hc : g.get "currentAmount" = Val.num c) (ht : g.get "targetAmount" = Val.num 0)
    (hpos : 0 < c) : completionRatio g = Num.posInf := by
  have hne : c ≠ 0 := ne_of_gt hpos
  simp [completionRatio, hc, ht, toNumber, Num.div, Num.infOfSign, hne, hpos]

theorem gtZero_sub_fin (x y : Rat) :
    ((Num.fin x).sub (Num.fin y)).gtZero = true ↔ y < x := by
  simp [Num.sub, Num.neg, Num.add, Num.gtZero]

theorem foldl_add_amounts (k : String) (goals : List Obj) (init : Rat)
    (h : ∀ g ∈ goals, ∃ q : Rat, g.get k = Val.num q) :
    goals.foldl (fun sum goal => sum.add (toNumber (goal.get k))) (Num.fin init) =
      Num.fin (init + (goals.map (fun g => amountQ g k)).sum) := by
  induction goals generalizing init with
  | nil => simp
  | cons g rest ih =>
    obtain ⟨q, hq⟩ := h g (List.mem_cons_self _ _)
    have hstep : (Num.fin init).add (toNumber (g.get k)) = Num.fin (init + q) := by
      rw [hq]
      rfl
    rw [List.foldl_cons, hstep, ih (init + q) (fun x hx => h x (List.mem_cons_of_mem _ hx))]
    simp [amountQ, hq, add_assoc]

theorem mkGoal_currentAmount (id name : String) (t c : Rat) :
    (mkGoal id name t c).get "currentAmount" = Val.num c := rfl

theorem mkGoal_targetAmount (id name : String) (t c : Rat) :
    (mkGoal id name t c).get "targetAmount" = Val.num t := rfl

theorem mkGoal_id (id name : String) (t c : Rat) :
    (mkGoal id name t c).get "id" = Val.str id := rfl

/-! ## Savings-goal views: theorems -/

/-- C12: for every list of goals with positive target amounts and non-negative
current amounts, `getTopSavingsGoals` returns at most 3 goals, each an element
of the input, ordered so that the completion ratio never increases from one
element to the next; together with the goals left out they are a rearrangement
of the input, and no goal left out has a ratio greater than a goal returned. -/
theorem getTopSavingsGoals_spec (goals : List Obj)
    (hpos : ∀ g ∈ goals, ∃ c t : Rat,
      g.get "currentAmount" = Val.num c ∧ g.get "targetAmount" = Val.num t ∧ 0 ≤ c ∧ 0 < t) :
    (getTopSavingsGoals goals).length ≤ 3 ∧
    (∀ g ∈ getTopSavingsGoals goals, g ∈ goals) ∧
    (getTopSavingsGoals goals).Pairwise (fun a b => ratioQ b ≤ ratioQ a) ∧
    ∃ leftOut : List Obj,
      (getTopSavingsGoals goals ++ leftOut).Perm goals ∧
      ∀ g ∈ getTopSavingsGoals goals, ∀ h ∈ leftOut, ratioQ h ≤ ratioQ g := by
  have hdesc : SortsDescBy (fun a b => (completionRatio b).sub (completionRatio a)) ratioQ
      goals := by
    intro a ha b hb
    obtain ⟨ca, ta, hca, hta, _, hta0⟩ := hpos a ha
    obtain ⟨cb, tb, hcb, htb, _, htb0⟩ := hpos b hb
    simp only [completionRatio_of_num a ca ta hca hta (ne_of_gt hta0),
      completionRatio_of_num b cb tb hcb htb (ne_of_gt htb0)]
    exact gtZero_sub_fin _ _
  have hperm := jsSort_perm (fun a b => (completionRatio b).sub (completionRatio a)) goals
  have hsorted := jsSort_pairwise _ ratioQ goals hdesc
  rw [getTopSavingsGoals_eq_take]
  refine ⟨?_, ?_, ?_, ?_⟩
  · rw [List.length_take]
    exact Nat.min_le_left _ _
  · intro g hg
    exact hperm.subset (List.mem_of_mem_take hg)
  · exact hsorted.sublist (List.take_sublist _ _)
  · refine ⟨(jsSort (fun a b => (completionRatio b).sub (completionRatio a)) goals).drop 3,
      ?_, ?_⟩
    · rw [List.take_append_drop]
      exact hperm
    · rw [← List.take_append_drop 3
        (jsSort (fun a b => (completionRatio b).sub (completionRatio a)) goals),
        List.pairwise_append] at hsorted
      intro g hg h hh
      exact hsorted.2.2 g hg h hh

/-- Witness of C12: the three goals of the fixture. -/
theorem getTopSavingsGoals_spec_witness :
    (getTopSavingsGoals fixtureGoals).length ≤ 3 ∧
    (∀ g ∈ getTopSavingsGoals fixtureGoals, g ∈ fixtureGoals) ∧
    (getTopSavingsGoals fixtureGoals).Pairwise (fun a b => ratioQ b ≤ ratioQ a) ∧
    ∃ leftOut : List Obj,
      (getTopSavingsGoals fixtureGoals ++ leftOut).Perm fixtureGoals ∧
      ∀ g ∈ getTopSavingsGoals fixtureGoals, ∀ h ∈ leftOut, ratioQ h ≤ ratioQ g :=
  getTopSavingsGoals_spec fixtureGoals (by
    intro g hg
    simp only [fixtureGoals, List.mem_cons, List.mem_singleton, List.not_mem_nil,
      or_false] at hg
    rcases hg with rfl | rfl | rfl
    · exact ⟨6500, 10000, rfl, rfl, by norm_num, by norm_num⟩
    · exact ⟨1200, 3000, rfl, rfl, by norm_num, by norm_num⟩
    · exact ⟨750, 1500, rfl, rfl, by norm_num, by norm_num⟩)

/-- C13 as stated fails: the comparator divides by the target amount without
a special case.  The goal with target `0` and `50` saved has ratio `+Infinity`
and is ranked first, where the ranking with ratio `0` puts it last, outside the
top three. -/
theorem getTopSavingsGoals_zero_target_first :
    completionRatio zeroTargetGoal = Num.posInf ∧
    (getTopSavingsGoals (fixtureGoals ++ [zeroTargetGoal])).map (fun g => g.get "id") =
      [Val.str "goal_z", Val.str "goal_1", Val.str "goal_3"] ∧
    (specTopSavingsGoals (fixtureGoals ++ [zeroTargetGoal])).map (fun g => g.get "id") =
      [Val.str "goal_1", Val.str "goal_3", Val.str "goal_2"] := by
  refine ⟨?_, ?_, ?_⟩
  · norm_num [completionRatio, zeroTargetGoal, mkGoal_currentAmount, mkGoal_targetAmount,
      toNumber, Num.div, Num.infOfSign]
  · rw [getTopSavingsGoals_eq_take]
    norm_num [fixtureGoals, zeroTargetGoal, jsSort, sortInsert, completionRatio,
      mkGoal_currentAmount, mkGoal_targetAmount, mkGoal_id, toNumber, Num.div, Num.sub,
      Num.add, Num.neg, Num.gtZero, Num.infOfSign]
  · have hs : ∀ l : List Obj, specTopSavingsGoals l =
        (jsSort (fun a b => (specRatio b).sub (specRatio a)) l).take 3 :=
      fun l => jsSlice_zero _ 3
    rw [hs]
    norm_num [fixtureGoals, zeroTargetGoal, jsSort, sortInsert, specRatio, isZeroTarget,
      completionRatio, mkGoal_currentAmount, mkGoal_targetAmount, mkGoal_id, toNumber,
      Num.div, Num.sub, Num.add, Num.neg, Num.gtZero, Num.infOfSign]

/-- C13 (amended): `getTopSavingsGoals` has no special case for a target
amount of `0`; the comparator divides by it.  For every goal list whose goals
have a positive target, or target `0` with a positive current amount, a
zero-target goal has ratio `+Infinity`, and the result is the first three of:
the zero-target goals in their original order, followed by the other goals
sorted by ratio.  When no goal has target `0` the result equals the one obtained
by sorting with the ratio of each zero-target goal replaced by `0`. -/
theorem getTopSavingsGoals_zero_target (goals : List Obj)
    (h : ∀ g ∈ goals, ∃ c t : Rat,
      g.get "currentAmount" = Val.num c ∧ g.get "targetAmount" = Val.num t ∧
        (0 < t ∨ (t = 0 ∧ 0 < c))) :
    (∀ g ∈ goals, isZeroTarget g = true → completionRatio g = Num.posInf) ∧
    getTopSavingsGoals goals =
      (goals.filter isZeroTarget ++
        jsSort (fun a b => (completionRatio b).sub (completionRatio a))
          (goals.filter (fun g => !isZeroTarget g))).take 3 ∧
    ((∀ g ∈ goals, isZeroTarget g = false) →
      getTopSavingsGoals goals = specTopSavingsGoals goals) := by
  have hratio : ∀ g ∈ goals,
      (isZeroTarget g = true ∧ completionRatio g = Num.posInf) ∨
      (isZeroTarget g = false ∧ completionRatio g = Num.fin (ratioQ g)) := by
    intro g hg
    obtain ⟨c, t, hc, ht, hcase⟩ := h g hg
    rcases hcase with ht0 | ⟨ht0, hc0⟩
    · right
      refine ⟨?_, completionRatio_of_num g c t hc ht (ne_of_gt ht0)⟩
      simp [isZeroTarget, ht, toNumber, ne_of_gt ht0]
    · left
      subst ht0
      refine ⟨?_, completionRatio_zero_target g c hc ht hc0⟩
      simp [isZeroTarget, ht, toNumber]
  refine ⟨?_, ?_, ?_⟩
  · intro g hg hz
    rcases hratio g hg with h1 | h1
    · exact h1.2
    · rw [h1.1] at hz
      exact absurd hz (by decide)
  · rw [getTopSavingsGoals_eq_take]
    congr 1
    clear h
    induction goals with
    | nil => rfl
    | cons a rest ih =>
      have ih' := ih (fun g hg => hratio g (List.mem_cons_of_mem _ hg))
      have hmem : ∀ b ∈ jsSort (fun a b => (completionRatio b).sub (completionRatio a)) rest,
          b ∈ a :: rest :=
        fun b hb => List.mem_cons_of_mem _ ((jsSort_perm _ rest).subset hb)
      show sortInsert _ a (jsSort _ rest) = _
      rcases hratio a (List.mem_cons_self _ _) with ⟨hza, hra⟩ | ⟨hza, hra⟩
      · rw [sortInsert_of_not_gt, ih']
        · simp [List.filter_cons, hza]
        · intro b hb
          rcases hratio b (hmem b hb) with ⟨_, hrb⟩ | ⟨_, hrb⟩ <;>
            simp [hra, hrb, Num.sub, Num.neg, Num.add, Num.gtZero]
      · rw [ih', sortInsert_append_of_gt]
        · simp [List.filter_cons, hza, jsSort]
        · intro b hb
          have hb' := List.mem_filter.1 hb
          rcases hratio b (List.mem_cons_of_mem _ hb'.1) with ⟨_, hrb⟩ | ⟨hzb, _⟩
          · simp [hra, hrb, Num.sub, Num.neg, Num.add, Num.gtZero]
          · rw [hzb] at hb'
            exact absurd hb'.2 (by decide)
  · intro hall
    unfold getTopSavingsGoals specTopSavingsGoals
    congr 1
    apply jsSort_congr
    intro a ha b hb
    simp [specRatio, hall a ha, hall b hb]

/-- Witness of C13 (amended): the fixture followed by the zero-target goal. -/
theorem getTopSavingsGoals_zero_target_witness :
    getTopSavingsGoals (fixtureGoals ++ [zeroTargetGoal]) =
      ((fixtureGoals ++ [zeroTargetGoal]).filter isZeroTarget ++
        jsSort (fun a b => (completionRatio b).sub (completionRatio a))
          ((fixtureGoals ++ [zeroTargetGoal]).filter (fun g => !isZeroTarget g))).take 3 :=
  (getTopSavingsGoals_zero_target (fixtureGoals ++ [zeroTargetGoal]) (by
    intro g hg
    simp only [fixtureGoals, zeroTargetGoal, List.cons_append, List.nil_append, List.mem_cons,
      List.mem_singleton, List.not_mem_nil, or_false] at hg
    rcases hg with rfl | rfl | rfl | rfl
    · exact ⟨6500, 10000, rfl, rfl, Or.inl (by norm_num)⟩
    · exact ⟨1200, 3000, rfl, rfl, Or.inl (by norm_num)⟩
    · exact ⟨750, 1500, rfl, rfl, Or.inl (by norm_num)⟩
    · exact ⟨50, 0, rfl, rfl, Or.inr ⟨rfl, by norm_num⟩⟩)).2.1

/-! ## Rounding to the nearest Number -/

theorem roundHalfEven_sub_le (q : Rat) : |(roundHalfEven q : Rat) - q| ≤ 1 / 2 := by
  have h1 := Int.floor_le q
  have h2 := Int.lt_floor_add_one q
  unfold roundHalfEven
  split_ifs with ha hb hc
  · rw [abs_le]; constructor <;> linarith
  · push_cast; rw [abs_le]; constructor <;> linarith
  · rw [abs_le]; constructor <;> linarith
  · push_cast; rw [abs_le]; constructor <;> linarith

theorem roundHalfEven_intCast (z : Int) : roundHalfEven (z : Rat) = z := by
  simp [roundHalfEven]

theorem roundHalfEven_of_near (q : Rat) (m : Int) (h : |q - m| < 1 / 2) :
    roundHalfEven q = m := by
  have h1 := roundHalfEven_sub_le q
  rw [abs_lt] at h
  rw [abs_le] at h1
  have h3 : ((roundHalfEven q - m : Int) : Rat) < 1 := by push_cast; linarith
  have h4 : (-1 : Rat) < ((roundHalfEven q - m : Int) : Rat) := by push_cast; linarith
  have h5 : roundHalfEven q - m < 1 := by exact_mod_cast h3
  have h6 : -1 < roundHalfEven q - m := by exact_mod_cast h4
  omega

theorem lastPlace_eq (q : Rat) (e : Int) (h1 : (2 : Rat) ^ (e + 52) ≤ q)
    (h2 : q < (2 : Rat) ^ (e + 53)) (he : -1074 ≤ e) : lastPlace q = e := by
  have hq : 0 < q := lt_of_lt_of_le (zpow_pos (by norm_num) _) h1
  have hlog : Int.log 2 q = e + 52 := by
    have ha : e + 52 ≤ Int.log 2 q :=
      (Int.zpow_le_iff_le_log (by norm_num) hq).1 (by simpa using h1)
    have hb : Int.log 2 q < e + 53 :=
      (Int.lt_zpow_iff_log_lt (by norm_num) hq).1 (by simpa using h2)
    omega
  unfold lastPlace
  rw [hlog]
  omega

/-- A positive rational whose leading digit stands 52 places above `e` goes to
the multiple of `2 ^ e` nearest to it, which is within `q / 2 ^ 53` of it. -/
theorem toDouble_of_binade (q : Rat) (e : Int) (h1 : (2 : Rat) ^ (e + 52) ≤ q)
    (h2 : q < (2 : Rat) ^ (e + 53)) (he : -1074 ≤ e) (he2 : e ≤ 970) :
    Num.toDouble (Num.fin q) = Num.fin ((roundHalfEven (q / 2 ^ e) : Int) * 2 ^ e) ∧
      |((roundHalfEven (q / 2 ^ e) : Int) : Rat) * 2 ^ e - q| ≤ q / 2 ^ (53 : Nat) := by
  have hq : 0 < q := lt_of_lt_of_le (zpow_pos (by norm_num) _) h1
  have hpe : (0 : Rat) < 2 ^ e := zpow_pos (by norm_num) _
  have habs : |q| = q := abs_of_pos hq
  have hy2 : q / 2 ^ e < 2 ^ (53 : Nat) := by
    rw [div_lt_iff₀ hpe]
    calc q < (2 : Rat) ^ (e + 53) := h2
      _ = 2 ^ (53 : Nat) * 2 ^ e := by
        rw [zpow_add₀ (by norm_num : (2 : Rat) ≠ 0), mul_comm]; norm_cast
  have hr := roundHalfEven_sub_le (q / 2 ^ e)
  rw [abs_le] at hr
  have hm : ((roundHalfEven (q / 2 ^ e) : Int) : Rat) ≤ 2 ^ (53 : Nat) := by
    have h3 : ((roundHalfEven (q / 2 ^ e) : Int) : Rat) < ((2 ^ (53 : Nat) + 1 : Int) : Rat) := by
      push_cast; linarith
    have h4 : roundHalfEven (q / 2 ^ e) < 2 ^ (53 : Nat) + 1 := by exact_mod_cast h3
    have h5 : roundHalfEven (q / 2 ^ e) ≤ 2 ^ (53 : Nat) := by omega
    exact_mod_cast h5
  have hover : ¬ ((2 : Rat) ^ (1024 : Nat) ≤ (roundHalfEven (q / 2 ^ e) : Int) * 2 ^ e) := by
    rw [not_le]
    have h970 : (2 : Rat) ^ e ≤ 2 ^ (970 : Int) := zpow_le_zpow_right₀ (by norm_num) he2
    calc ((roundHalfEven (q / 2 ^ e) : Int) : Rat) * 2 ^ e
        ≤ 2 ^ (53 : Nat) * 2 ^ (970 : Int) := mul_le_mul hm h970 (le_of_lt hpe) (by positivity)
      _ < 2 ^ (1024 : Nat) := by norm_num
  constructor
  · simp only [Num.toDouble, if_neg (ne_of_gt hq), habs, lastPlace_eq q e h1 h2 he, if_neg hover,
      if_neg (not_lt.2 (le_of_lt hq))]
  · have hsplit : ((roundHalfEven (q / 2 ^ e) : Int) : Rat) * 2 ^ e - q =
        (((roundHalfEven (q / 2 ^ e) : Int) : Rat) - q / 2 ^ e) * 2 ^ e := by
      field_simp
    rw [hsplit, abs_mul, abs_of_pos hpe]
    have h52 : (2 : Rat) ^ e * 2 ^ (52 : Nat) ≤ q := by
      calc (2 : Rat) ^ e * 2 ^ (52 : Nat) = 2 ^ (e + 52) := by
            rw [zpow_add₀ (by norm_num : (2 : Rat) ≠ 0)]; norm_cast
        _ ≤ q := h1
    have hle : |((roundHalfEven (q / 2 ^ e) : Int) : Rat) - q / 2 ^ e| ≤ 1 / 2 := abs_le.2 hr
    calc |((roundHalfEven (q / 2 ^ e) : Int) : Rat) - q / 2 ^ e| * 2 ^ e
        ≤ 1 / 2 * 2 ^ e := mul_le_mul_of_nonneg_right hle (le_of_lt hpe)
      _ = (2 ^ e * 2 ^ (52 : Nat)) / 2 ^ (53 : Nat) := by norm_num; ring
      _ ≤ q / 2 ^ (53 : Nat) := div_le_div_of_nonneg_right h52 (by positivity)

/-- The double nearest to a positive rational, from its last place `e` and the
integer `m` nearest to `q / 2 ^ e`. -/
theorem toDouble_eq (q : Rat) (e m : Int) (h1 : (2 : Rat) ^ (e + 52) ≤ q)
    (h2 : q < (2 : Rat) ^ (e + 53)) (he : -1074 ≤ e) (he2 : e ≤ 970)
    (hm : |q / 2 ^ e - m| < 1 / 2) :
    Num.toDouble (Num.fin q) = Num.fin ((m : Rat) * 2 ^ e) := by
  rw [(toDouble_of_binade q e h1 h2 he he2).1, roundHalfEven_of_near _ m hm]

/-- In the normal range the nearest double is within `q / 2 ^ 53` of `q`. -/
theorem toDouble_near (q : Rat) (hlo : (2 : Rat) ^ (-1022 : Int) ≤ q)
    (hhi : q < (2 : Rat) ^ (1023 : Int)) :
    ∃ r : Rat, Num.toDouble (Num.fin q) = Num.fin r ∧ |r - q| ≤ q / 2 ^ (53 : Nat) := by
  have hq : 0 < q := lt_of_lt_of_le (zpow_pos (by norm_num) _) hlo
  have ha : (-1022 : Int) ≤ Int.log 2 q :=
    (Int.zpow_le_iff_le_log (by norm_num) hq).1 (by simpa using hlo)
  have hb : Int.log 2 q < 1023 :=
    (Int.lt_zpow_iff_log_lt (by norm_num) hq).1 (by simpa using hhi)
  have h1 : (2 : Rat) ^ (Int.log 2 q - 52 + 52) ≤ q := by
    have := Int.zpow_log_le_self (by norm_num : 1 < 2) hq
    simpa using this
  have h2 : q < (2 : Rat) ^ (Int.log 2 q - 52 + 53) := by
    have := Int.lt_zpow_succ_log_self (by norm_num : 1 < 2) q
    have he : Int.log 2 q - 52 + 53 = Int.log 2 q + 1 := by ring
    rw [he]
    simpa using this
  obtain ⟨h3, h4⟩ := toDouble_of_binade q (Int.log 2 q - 52) h1 h2 (by omega) (by omega)
  exact ⟨_, h3, h4⟩

/-- A whole number below `2 ^ 53` is a double. -/
theorem toDouble_natCast (n : Nat) (h : n < 2 ^ 53) :
    Num.toDouble (Num.fin (n : Rat)) = Num.fin (n : Rat) := by
  rcases Nat.eq_zero_or_pos n with h0 | hpos
  · subst h0
    simp [Num.toDouble]
  · have hn0 : n ≠ 0 := Nat.pos_iff_ne_zero.1 hpos
    have hL : Nat.log 2 n < 53 := Nat.log_lt_of_lt_pow hn0 h
    have hlow : 2 ^ Nat.log 2 n ≤ n := Nat.pow_log_le_self 2 hn0
    have hupp : n < 2 ^ (Nat.log 2 n + 1) := Nat.lt_pow_succ_log_self (by norm_num) n
    have h1 : (2 : Rat) ^ ((Nat.log 2 n : Int) - 52 + 52) ≤ (n : Rat) := by
      rw [sub_add_cancel, zpow_natCast]
      exact_mod_cast hlow
    have h2 : (n : Rat) < (2 : Rat) ^ ((Nat.log 2 n : Int) - 52 + 53) := by
      have he : (Nat.log 2 n : Int) - 52 + 53 = ((Nat.log 2 n + 1 : Nat) : Int) := by
        push_cast; ring
      rw [he, zpow_natCast]
      exact_mod_cast hupp
    obtain ⟨h3, -⟩ := toDouble_of_binade (n : Rat) ((Nat.log 2 n : Int) - 52) h1 h2
      (by omega) (by omega)
    rw [h3]
    have hk : (n : Rat) / 2 ^ ((Nat.log 2 n : Int) - 52) =
        ((n * 2 ^ (52 - Nat.log 2 n) : Nat) : Int) := by
      have he : (Nat.log 2 n : Int) - 52 = -((52 - Nat.log 2 n : Nat) : Int) := by
        omega
      rw [he, zpow_neg, div_inv_eq_mul, zpow_natCast]
      push_cast
      rfl
    rw [hk, roundHalfEven_intCast]
    have he : (Nat.log 2 n : Int) - 52 = -((52 - Nat.log 2 n : Nat) : Int) := by
      omega
    rw [he, zpow_neg, zpow_natCast]
    congr 1
    push_cast
    field_simp

theorem toDouble_zero : Num.toDouble (Num.fin 0) = Num.fin 0 := by
  simp [Num.toDouble]

theorem toDouble_nan : Num.toDouble Num.nan = Num.nan := rfl

theorem toDouble_posInf : Num.toDouble Num.posInf = Num.posInf := rfl

/-- C14, the code at the failing input: `getTotalSavingsProgress` returns `0`
for the empty list, but for a list whose target amounts sum to `0` it divides
by zero and returns `NaN` (nothing saved) or `+Infinity` (something saved). -/
theorem getTotalSavingsProgress_zero_total :
    getTotalSavingsProgress [] = Num.fin 0 ∧
    getTotalSavingsProgress [emptyGoal] = Num.nan ∧
    getTotalSavingsProgress [zeroTargetGoal] = Num.posInf := by
  have h50 : Num.toDouble (Num.fin 50) = Num.fin 50 := by
    simpa using toDouble_natCast 50 (by norm_num)
  refine ⟨rfl, ?_, ?_⟩
  · norm_num [getTotalSavingsProgress, emptyGoal, mkGoal_currentAmount, mkGoal_targetAmount,
      toNumber, Num.div, Num.add, Num.mul, Num.round, toDouble_zero, toDouble_nan]
  · norm_num [getTotalSavingsProgress, zeroTargetGoal, mkGoal_currentAmount,
      mkGoal_targetAmount, toNumber, Num.div, Num.add, Num.mul, Num.round, Num.infOfSign,
      toDouble_zero, toDouble_posInf, h50]

theorem sum_amounts_natCast (k : String) (goals : List Obj)
    (h : ∀ g ∈ goals, ∃ n : Nat, g.get k = Val.num (n : Rat)) :
    ∃ N : Nat, (goals.map (fun g => amountQ g k)).sum = (N : Rat) := by
  induction goals with
  | nil => exact ⟨0, by simp⟩
  | cons g rest ih =>
    obtain ⟨n, hn⟩ := h g (List.mem_cons_self _ _)
    obtain ⟨N, hN⟩ := ih (fun g' hg' => h g' (List.mem_cons_of_mem _ hg'))
    have hg : amountQ g k = (n : Rat) := by simp [amountQ, hn]
    refine ⟨n + N, ?_⟩
    rw [List.map_cons, List.sum_cons, hg, hN]
    push_cast
    rfl

/-- The sums of `getTotalSavingsProgress` are exact for whole numbers below
`2 ^ 53`. -/
theorem foldl_add_double (k : String) (goals : List Obj) (init : Nat)
    (h : ∀ g ∈ goals, ∃ n : Nat, g.get k = Val.num (n : Rat))
    (hsum : (init : Rat) + (goals.map (fun g => amountQ g k)).sum < 2 ^ (53 : Nat)) :
    goals.foldl (fun sum goal => (sum.add (toNumber (goal.get k))).toDouble)
        (Num.fin (init : Rat)) =
      Num.fin ((init : Rat) + (goals.map (fun g => amountQ g k)).sum) := by
  induction goals generalizing init with
  | nil => simp
  | cons g rest ih =>
    obtain ⟨n, hn⟩ := h g (List.mem_cons_self _ _)
    obtain ⟨N, hN⟩ := sum_amounts_natCast k rest
      (fun g' hg' => h g' (List.mem_cons_of_mem _ hg'))
    have hg : amountQ g k = (n : Rat) := by simp [amountQ, hn]
    rw [List.map_cons, List.sum_cons, hg] at hsum
    have hlt : init + n < 2 ^ 53 := by
      have h1 : ((init + n + N : Nat) : Rat) < ((2 ^ 53 : Nat) : Rat) := by
        push_cast
        rw [hN] at hsum
        linarith
      have h2 : init + n + N < 2 ^ 53 := by exact_mod_cast h1
      omega
    have hstep : ((Num.fin (init : Rat)).add (toNumber (g.get k))).toDouble =
        Num.fin ((init + n : Nat) : Rat) := by
      rw [hn]
      show (Num.fin ((init : Rat) + (n : Rat))).toDouble = _
      rw [← Nat.cast_add]
      exact toDouble_natCast _ hlt
    rw [List.foldl_cons, hstep, ih (init + n) (fun g' hg' => h g' (List.mem_cons_of_mem _ hg'))
      (by push_cast; linarith), List.map_cons, List.sum_cons, hg]
    push_cast
    rw [add_assoc]

/-- For whole-number amounts with sums below `2 ^ 53` and a positive total
target, `getTotalSavingsProgress` is `Math.round` of a double within
`exactPercent / 2 ^ 51` of the exact percentage. -/
theorem getTotalSavingsProgress_near (goals : List Obj)
    (hnat : ∀ g ∈ goals, ∃ c t : Nat,
      g.get "currentAmount" = Val.num (c : Rat) ∧ g.get "targetAmount" = Val.num (t : Rat))
    (hcur : (goals.map (fun g => amountQ g "currentAmount")).sum < 2 ^ (53 : Nat))
    (htgt : (goals.map (fun g => amountQ g "targetAmount")).sum < 2 ^ (53 : Nat))
    (htotal : 0 < (goals.map (fun g => amountQ g "targetAmount")).sum) :
    ∃ p : Rat, getTotalSavingsProgress goals = Num.fin (Int.floor (p + 1 / 2) : Int) ∧
      |p - exactPercent goals| ≤ exactPercent goals / 2 ^ (51 : Nat) := by
  have hne : goals.length ≠ 0 := by
    intro h0
    rw [List.length_eq_zero] at h0
    subst h0
    simp at htotal
  have hc' : ∀ g ∈ goals, ∃ n : Nat, g.get "currentAmount" = Val.num (n : Rat) :=
    fun g hg => by obtain ⟨c, t, hc, _⟩ := hnat g hg; exact ⟨c, hc⟩
  have ht' : ∀ g ∈ goals, ∃ n : Nat, g.get "targetAmount" = Val.num (n : Rat) :=
    fun g hg => by obtain ⟨c, t, _, ht⟩ := hnat g hg; exact ⟨t, ht⟩
  obtain ⟨C, hC⟩ := sum_amounts_natCast "currentAmount" goals hc'
  obtain ⟨T, hT⟩ := sum_amounts_natCast "targetAmount" goals ht'
  have hfc := foldl_add_double "currentAmount" goals 0 hc' (by simpa using hcur)
  have hft := foldl_add_double "targetAmount" goals 0 ht' (by simpa using htgt)
  simp only [Nat.cast_zero, zero_add] at hfc hft
  unfold exactPercent
  rw [hC] at hfc hcur ⊢
  rw [hT] at hft htgt htotal ⊢
  have hTpos : (1 : Rat) ≤ T := by
    have h1 : 0 < T := by exact_mod_cast htotal
    exact_mod_cast h1
  have hval : getTotalSavingsProgress goals =
      Num.round ((((Num.fin (C : Rat)).div (Num.fin (T : Rat))).toDouble.mul
        (Num.fin 100)).toDouble) := by
    unfold getTotalSavingsProgress
    rw [if_neg hne]
    simp only [hfc, hft]
  have hdiv : (Num.fin (C : Rat)).div (Num.fin (T : Rat)) = Num.fin ((C : Rat) / T) := by
    simp [Num.div, ne_of_gt htotal]
  rw [hval, hdiv]
  rcases Nat.eq_zero_or_pos C with hC0 | hCpos
  · subst hC0
    refine ⟨0, ?_, ?_⟩
    · simp [toDouble_zero, Num.mul, Num.round]
    · simp
  · have hC1 : (1 : Rat) ≤ C := by exact_mod_cast hCpos
    have hx0 : (0 : Rat) < (C : Rat) / T := by positivity
    have hxlo : (1 : Rat) / 2 ^ (53 : Nat) ≤ (C : Rat) / T :=
      div_le_div₀ (by linarith) hC1 htotal (le_of_lt htgt)
    have hxhi : (C : Rat) / T < 2 ^ (53 : Nat) :=
      lt_of_le_of_lt (div_le_self (by linarith) hTpos) hcur
    have hsmall : (2 : Rat) ^ (-1022 : Int) ≤ 1 / 18014398509481984 := by norm_num
    have hlarge : (4611686018427387904 : Rat) ≤ 2 ^ (1023 : Int) := by norm_num
    norm_num at hxlo hxhi
    obtain ⟨q1, hq1, herr1⟩ := toDouble_near ((C : Rat) / T)
      (le_trans hsmall (by linarith)) (lt_of_lt_of_le (by linarith) hlarge)
    rw [abs_le] at herr1
    norm_num at herr1
    obtain ⟨p, hp, herr2⟩ := toDouble_near (q1 * 100)
      (le_trans hsmall (by linarith)) (lt_of_lt_of_le (by linarith) hlarge)
    rw [abs_le] at herr2
    norm_num at herr2
    refine ⟨p, ?_, ?_⟩
    · rw [hq1]
      show Num.round ((Num.fin (q1 * 100)).toDouble) = _
      rw [hp]
      rfl
    · have hP : 100 * (C : Rat) / T = 100 * ((C : Rat) / T) := by ring
      rw [hP, abs_le]
      norm_num
      constructor <;> linarith

/-- Where the exact percentage is clear of the half-integers by more than the
rounding error, `getTotalSavingsProgress` is the exact percentage rounded to
the nearest integer. -/
theorem getTotalSavingsProgress_of_clear (goals : List Obj)
    (hnat : ∀ g ∈ goals, ∃ c t : Nat,
      g.get "currentAmount" = Val.num (c : Rat) ∧ g.get "targetAmount" = Val.num (t : Rat))
    (hcur : (goals.map (fun g => amountQ g "currentAmount")).sum < 2 ^ (53 : Nat))
    (htgt : (goals.map (fun g => amountQ g "targetAmount")).sum < 2 ^ (53 : Nat))
    (htotal : 0 < (goals.map (fun g => amountQ g "targetAmount")).sum) (k : Int)
    (hlow : (k : Rat) - 1 / 2 ≤ exactPercent goals - exactPercent goals / 2 ^ (51 : Nat))
    (hupp : exactPercent goals + exactPercent goals / 2 ^ (51 : Nat) < (k : Rat) + 1 / 2) :
    getTotalSavingsProgress goals = Num.fin (k : Rat) ∧
      roundHalfAwayFromZero (exactPercent goals) = k := by
  obtain ⟨p, hp, herr⟩ := getTotalSavingsProgress_near goals hnat hcur htgt htotal
  rw [abs_le] at herr
  have hP0 : 0 ≤ exactPercent goals := by
    unfold exactPercent
    apply div_nonneg _ (le_of_lt htotal)
    apply mul_nonneg (by norm_num)
    apply List.sum_nonneg
    intro x hx
    obtain ⟨g, hg, rfl⟩ := List.mem_map.1 hx
    obtain ⟨c, t, hc, _⟩ := hnat g hg
    simp [amountQ, hc]
  have heps : 0 ≤ exactPercent goals / 2 ^ (51 : Nat) := div_nonneg hP0 (by positivity)
  constructor
  · rw [hp]
    have hfl : Int.floor (p + 1 / 2) = k := by
      rw [Int.floor_eq_iff]
      constructor <;> linarith
    rw [hfl]
  · unfold roundHalfAwayFromZero
    rw [if_pos hP0, Int.floor_eq_iff]
    constructor <;> linarith

theorem fixtureGoals_whole : ∀ g ∈ fixtureGoals, ∃ c t : Nat,
    g.get "currentAmount" = Val.num (c : Rat) ∧ g.get "targetAmount" = Val.num (t : Rat) := by
  intro g hg
  simp only [fixtureGoals, List.mem_cons, List.mem_singleton, List.not_mem_nil,
    or_false] at hg
  rcases hg with rfl | rfl | rfl
  · exact ⟨6500, 10000, by rw [mkGoal_currentAmount]; norm_num,
      by rw [mkGoal_targetAmount]; norm_num⟩
  · exact ⟨1200, 3000, by rw [mkGoal_currentAmount]; norm_num,
      by rw [mkGoal_targetAmount]; norm_num⟩
  · exact ⟨750, 1500, by rw [mkGoal_currentAmount]; norm_num,
      by rw [mkGoal_targetAmount]; norm_num⟩

theorem fixtureGoals_current_sum :
    (fixtureGoals.map (fun g => amountQ g "currentAmount")).sum = 8450 := by
  norm_num [fixtureGoals, amountQ, mkGoal_currentAmount]

theorem fixtureGoals_target_sum :
    (fixtureGoals.map (fun g => amountQ g "targetAmount")).sum = 14500 := by
  norm_num [fixtureGoals, amountQ, mkGoal_targetAmount]

theorem fixtureGoals_exactPercent : exactPercent fixtureGoals = 1690 / 29 := by
  rw [exactPercent, fixtureGoals_current_sum, fixtureGoals_target_sum]
  norm_num

/-- C15, a counterexample: one goal with 23 of 40 saved has non-negative
amounts and a positive total target, and its exact percentage is 57.5, which
an exact half going away from zero sends to 58; the code divides and multiplies
in doubles, gets a product just below 57.5 and returns 57. -/
theorem getTotalSavingsProgress_half_rounds_down :
    amountQ halfwayGoal "currentAmount" = 23 ∧ amountQ halfwayGoal "targetAmount" = 40 ∧
    exactPercent [halfwayGoal] = 115 / 2 ∧
    roundHalfAwayFromZero (exactPercent [halfwayGoal]) = 58 ∧
    getTotalSavingsProgress [halfwayGoal] = Num.fin 57 := by
  have hc : amountQ halfwayGoal "currentAmount" = 23 := by
    norm_num [halfwayGoal, amountQ, mkGoal_currentAmount]
  have ht : amountQ halfwayGoal "targetAmount" = 40 := by
    norm_num [halfwayGoal, amountQ, mkGoal_targetAmount]
  have hP : exactPercent [halfwayGoal] = 115 / 2 := by
    norm_num [exactPercent, hc, ht]
  have h23 : Num.toDouble (Num.fin 23) = Num.fin 23 := by
    simpa using toDouble_natCast 23 (by norm_num)
  have h40 : Num.toDouble (Num.fin 40) = Num.fin 40 := by
    simpa using toDouble_natCast 40 (by norm_num)
  have hdiv : Num.toDouble (Num.fin (23 / 40)) =
      Num.fin (((5179139571476070 : Int) : Rat) * 2 ^ (-53 : Int)) :=
    toDouble_eq (23 / 40) (-53) 5179139571476070 (by norm_num) (by norm_num) (by norm_num)
      (by norm_num) (by norm_num [abs_lt])
  have hmul : Num.toDouble (Num.fin (((5179139571476070 : Int) : Rat) * 2 ^ (-53 : Int) * 100)) =
      Num.fin (((8092405580431359 : Int) : Rat) * 2 ^ (-47 : Int)) :=
    toDouble_eq _ (-47) 8092405580431359 (by norm_num) (by norm_num) (by norm_num)
      (by norm_num) (by norm_num [abs_lt])
  refine ⟨hc, ht, hP, ?_, ?_⟩
  · rw [hP, roundHalfAwayFromZero, if_pos (by norm_num), Int.floor_eq_iff]
    norm_num
  · have hget : getTotalSavingsProgress [halfwayGoal] =
        Num.round (((((Num.fin 0).add (Num.fin 23)).toDouble.div
          ((Num.fin 0).add (Num.fin 40)).toDouble).toDouble.mul (Num.fin 100)).toDouble) := by
      simp [getTotalSavingsProgress, halfwayGoal, mkGoal_currentAmount, mkGoal_targetAmount,
        toNumber]
    have hadd23 : (Num.fin 0).add (Num.fin 23) = Num.fin 23 := by norm_num [Num.add]
    have hadd40 : (Num.fin 0).add (Num.fin 40) = Num.fin 40 := by norm_num [Num.add]
    have hquot : (Num.fin 23).div (Num.fin 40) = Num.fin (23 / 40) := by norm_num [Num.div]
    rw [hget, hadd23, hadd40, h23, h40, hquot, hdiv]
    show Num.round (Num.toDouble
      (Num.fin (((5179139571476070 : Int) : Rat) * 2 ^ (-53 : Int) * 100))) = _
    rw [hmul]
    show Num.fin ((Int.floor (((8092405580431359 : Int) : Rat) * 2 ^ (-47 : Int) + 1 / 2) : Int) :
      Rat) = Num.fin 57
    have hfl : Int.floor (((8092405580431359 : Int) : Rat) * 2 ^ (-47 : Int) + 1 / 2) = 57 := by
      rw [Int.floor_eq_iff]
      norm_num
    rw [hfl]
    norm_num

/-- C15 (amended): for every goal list whose amounts are whole numbers with
sums below `2 ^ 53` and a positive total target, `getTotalSavingsProgress` is
`Math.round` of the double `p` that the code computes for
`(sum(currentAmount) / sum(targetAmount)) * 100`, the ratio of the sums, and
`p` differs from the exact percentage by at most its `2 ^ 51`-th part; so the
result is the exact percentage rounded to the nearest integer whenever that
percentage is farther than its `2 ^ 51`-th part from every half-integer.  On
the three goals of the fixture (8450 of 14500) it is 58. -/
theorem getTotalSavingsProgress_double (goals : List Obj)
    (hnat : ∀ g ∈ goals, ∃ c t : Nat,
      g.get "currentAmount" = Val.num (c : Rat) ∧ g.get "targetAmount" = Val.num (t : Rat))
    (hcur : (goals.map (fun g => amountQ g "currentAmount")).sum < 2 ^ (53 : Nat))
    (htgt : (goals.map (fun g => amountQ g "targetAmount")).sum < 2 ^ (53 : Nat))
    (htotal : 0 < (goals.map (fun g => amountQ g "targetAmount")).sum) :
    (∃ p : Rat, getTotalSavingsProgress goals = Num.fin (Int.floor (p + 1 / 2) : Int) ∧
      |p - exactPercent goals| ≤ exactPercent goals / 2 ^ (51 : Nat)) ∧
    (∀ k : Int,
      (k : Rat) - 1 / 2 ≤ exactPercent goals - exactPercent goals / 2 ^ (51 : Nat) →
      exactPercent goals + exactPercent goals / 2 ^ (51 : Nat) < (k : Rat) + 1 / 2 →
      getTotalSavingsProgress goals = Num.fin (k : Rat) ∧
        roundHalfAwayFromZero (exactPercent goals) = k) ∧
    (fixtureGoals.map (fun g => amountQ g "currentAmount")).sum = 8450 ∧
    (fixtureGoals.map (fun g => amountQ g "targetAmount")).sum = 14500 ∧
    getTotalSavingsProgress fixtureGoals = Num.fin 58 := by
  refine ⟨getTotalSavingsProgress_near goals hnat hcur htgt htotal,
    fun k hlow hupp => getTotalSavingsProgress_of_clear goals hnat hcur htgt htotal k hlow hupp,
    fixtureGoals_current_sum, fixtureGoals_target_sum, ?_⟩
  have h := (getTotalSavingsProgress_of_clear fixtureGoals fixtureGoals_whole
    (by rw [fixtureGoals_current_sum]; norm_num) (by rw [fixtureGoals_target_sum]; norm_num)
    (by rw [fixtureGoals_target_sum]; norm_num) 58
    (by rw [fixtureGoals_exactPercent]; norm_num)
    (by rw [fixtureGoals_exactPercent]; norm_num)).1
  simpa using h

/-- Witness of C15: the three goals of the fixture, whose exact percentage
58.27... is clear of the half-integers. -/
theorem getTotalSavingsProgress_double_witness :
    getTotalSavingsProgress fixtureGoals = Num.fin ((58 : Int) : Rat) ∧
      roundHalfAwayFromZero (exactPercent fixtureGoals) = 58 :=
  (getTotalSavingsProgress_double fixtureGoals fixtureGoals_whole
    (by rw [fixtureGoals_current_sum]; norm_num) (by rw [fixtureGoals_target_sum]; norm_num)
    (by rw [fixtureGoals_target_sum]; norm_num)).2.1 58
    (by rw [fixtureGoals_exactPercent]; norm_num)
    (by rw [fixtureGoals_exactPercent]; norm_num)

/-! # Dates

Time values are integers, milliseconds since the epoch; a `Date` object is an
`Option Int`, where `none` is the invalid date (time value `NaN`).  Local time
is UTC shifted by a fixed offset `tz` in milliseconds; daylight-saving changes
are not represented.  The calendar functions follow the definitions of the
language specification (`Day`, `DayFromYear`, `MonthFromTime`, `DateFromTime`,
`MakeDay`, `MakeDate`, `TimeClip`).
-/

/-- Milliseconds in a day. -/
def msPerDay : Int := 86400000

/-- The day number of a time value. -/
def dayOf (t : Int) : Int := t / msPerDay

/-- The milliseconds since the start of the day. -/
def timeWithinDay (t : Int) : Int := t % msPerDay

/-- Whether the year `y` has 366 days. -/
def isLeapYear (y : Int) : Bool := (y % 4 = 0 && y % 100 != 0) || y % 400 = 0

/-- The day number of the first day of year `y`. -/
def dayFromYear (y : Int) : Int :=
  365 * (y - 1970) + (y - 1969) / 4 - (y - 1901) / 100 + (y - 1601) / 400

/-- The year in which day number `d` falls: the largest `y` with
`dayFromYear y ≤ d`, found from the mean year length and corrected by one. -/
def yearFromDay (d : Int) : Int :=
  let y := 1970 + (d * 400) / 146097
  if d < dayFromYear y then y - 1 else if dayFromYear (y + 1) ≤ d then y + 1 else y

/-- The number of days of a year that precede month `m` (0 is January). -/
def monthStart (leap : Bool) (m : Int) : Int :=
  let extra : Int := if leap then 1 else 0
  if m ≤ 0 then 0
  else if m = 1 then 31
  else if m = 2 then 59 + extra
  else if m = 3 then 90 + extra
  else if m = 4 then 120 + extra
  else if m = 5 then 151 + extra
  else if m = 6 then 181 + extra
  else if m = 7 then 212 + extra
  else if m = 8 then 243 + extra
  else if m = 9 then 273 + extra
  else if m = 10 then 304 + extra
  else 334 + extra

/-- The number of days in month `m` (0 is January) of a year. -/
def daysInMonth (leap : Bool) (m : Int) : Int :=
  if m = 1 then (if leap then 29 else 28)
  else if m = 3 ∨ m = 5 ∨ m = 8 ∨ m = 10 then 30
  else 31

/-- The month (0 to 11) of the day numbered `n` within a year (from 0). -/
def monthOfDayInYear (leap : Bool) (n : Int) : Int :=
  if n < monthStart leap 1 then 0
  else if n < monthStart leap 2 then 1
  else if n < monthStart leap 3 then 2
  else if n < monthStart leap 4 then 3
  else if n < monthStart leap 5 then 4
  else if n < monthStart leap 6 then 5
  else if n < monthStart leap 7 then 6
  else if n < monthStart leap 8 then 7
  else if n < monthStart leap 9 then 8
  else if n < monthStart leap 10 then 9
  else if n < monthStart leap 11 then 10
  else 11

/-- The month (0 to 11) in which day number `d` falls. -/
def monthFromDay (d : Int) : Int :=
  monthOfDayInYear (isLeapYear (yearFromDay d)) (d - dayFromYear (yearFromDay d))

/-- The day of the month (from 1) of day number `d`. -/
def dateFromDay (d : Int) : Int :=
  let y := yearFromDay d
  d - dayFromYear y - monthStart (isLeapYear y) (monthFromDay d) + 1

/-- The day of the week of day number `d` (0 is Sunday). -/
def weekDay (d : Int) : Int := (d + 4) % 7

/-- The operation `MakeDay(year, month, date)`: months outside 0..11 carry into
the year, and the date counts on from the first of the month without a bound. -/
def makeDay (year month date : Int) : Int :=
  let ym := year + month / 12
  let mn := month % 12
  dayFromYear ym + monthStart (isLeapYear ym) mn + date - 1

/-- The operation `MakeDate(day, time)`. -/
def makeDate (day time : Int) : Int := day * msPerDay + time

/-- The operation `TimeClip`: a time value beyond 100,000,000 days from the
epoch is the invalid date. -/
def timeClip (t : Int) : Option Int :=
  if -8640000000000000 ≤ t ∧ t ≤ 8640000000000000 then some t else none

/-- The method `getDate()` of a valid date, in local time. -/
def getDate (tz t : Int) : Int := dateFromDay (dayOf (t + tz))

/-- The method `getMonth()` of a valid date, in local time. -/
def getMonth (tz t : Int) : Int := monthFromDay (dayOf (t + tz))

/-- The method `getFullYear()` of a valid date, in local time. -/
def getFullYear (tz t : Int) : Int := yearFromDay (dayOf (t + tz))

/-- The method `setDate(date)` on a valid date: the new time value. -/
def setDate (tz t date : Int) : Option Int :=
  timeClip (makeDate (makeDay (getFullYear tz t) (getMonth tz t) date)
    (timeWithinDay (t + tz)) - tz)

/-- The method `setMonth(month)` on a valid date: the new time value. -/
def setMonth (tz t month : Int) : Option Int :=
  timeClip (makeDate (makeDay (getFullYear tz t) month (getDate tz t))
    (timeWithinDay (t + tz)) - tz)

/-- The value of a decimal digit. -/
def digitValue (c : Char) : Option Int :=
  if '0' ≤ c ∧ c ≤ '9' then some ((c.toNat : Int) - 48) else none

/-- The number written by a list of decimal digits. -/
def digitsValue (cs : List Char) : Option Int :=
  cs.foldl (fun acc c =>
    match acc, digitValue c with
    | some n, some d => some (10 * n + d)
    | _, _ => none) (some 0)

/-- The time value of a calendar date and a time of day in UTC, when the
fields are in range. -/
def utcTime (year month1 date hour minute second ms : Int) : Option Int :=
  if 1 ≤ month1 ∧ month1 ≤ 12 ∧ 1 ≤ date ∧
      date ≤ daysInMonth (isLeapYear year) (month1 - 1) ∧
      hour ≤ 23 ∧ minute ≤ 59 ∧ second ≤ 59 then
    timeClip (makeDate (makeDay year (month1 - 1) date)
      (hour * 3600000 + minute * 60000 + second * 1000 + ms))
  else none

/-- The function `Date.parse` on the date-time string formats that occur in the
data of the repository: `YYYY-MM-DD`, `YYYY-MM-DDTHH:mm:ssZ` and
`YYYY-MM-DDTHH:mm:ss.sssZ`, all UTC.  Any other string is the invalid date. -/
def parseDate (s : String) : Option Int :=
  let cs := s.toList
  let datePart := cs.take 10
  let rest := cs.drop 10
  if datePart.length = 10 ∧ datePart.get? 4 = some '-' ∧ datePart.get? 7 = some '-' then
    match digitsValue (datePart.take 4), digitsValue ((datePart.drop 5).take 2),
        digitsValue (datePart.drop 8) with
    | some y, some m, some d =>
      if rest = [] then utcTime y m d 0 0 0 0
      else if (rest.length = 10 ∨ rest.length = 14) ∧ rest.get? 0 = some 'T' ∧
          rest.get? 3 = some ':' ∧ rest.get? 6 = some ':' ∧ rest.getLast? = some 'Z' then
        match digitsValue ((rest.drop 1).take 2), digitsValue ((rest.drop 4).take 2),
            digitsValue ((rest.drop 7).take 2) with
        | some h, some mi, some sec =>
          if rest.length = 10 then utcTime y m d h mi sec 0
          else if rest.get? 9 = some '.' then
            match digitsValue ((rest.drop 10).take 3) with
            | some ms => utcTime y m d h mi sec ms
            | none => none
          else none
        | _, _, _ => none
      else none
    | _, _, _ => none
  else none

/-- The constructor `new Date(value)` applied to a stored value: a string is
parsed, a number is a time value. -/
def newDate : Val → Option Int
  | Val.str s => parseDate s
  | Val.num q =>
    if -8640000000000000 ≤ q ∧ q ≤ 8640000000000000 then
      some (if 0 ≤ q then Int.floor q else Int.ceil q)
    else none
  | Val.null => some 0
  | Val.bool b => some (if b then 1 else 0)
  | Val.undefined => none
  | Val.nan => none

/-- The number a `Date` object converts to in arithmetic. -/
def timeNum : Option Int → Num
  | some t => Num.fin t
  | none => Num.nan

/-! ## Recent transactions (`Dashboard.js`, lines 277-283) -/

/-- The function `getRecentTransactions`: the copy `[...transactions]` sorted
with the comparator `new Date(b.date) - new Date(a.date)`, then `slice(0, 5)`.
The guard `!transactions` is never taken: the provider always holds an array. -/
def getRecentTransactions (transactions : List Obj) : List Obj :=
  jsSlice
    (jsSort (fun a b => (timeNum (newDate (b.get "date"))).sub (timeNum (newDate (a.get "date"))))
      transactions) 0 5

/-- A transaction record `{ id, date, description, amount, category, type }`. -/
def mkTransaction (id date description : String) (amount : Rat) (category type : String) :
    Obj :=
  (((((Obj.empty.set "id" (Val.str id)).set "date" (Val.str date)).set
    "description" (Val.str description)).set "amount" (Val.num amount)).set
    "category" (Val.str category)).set "type" (Val.str type)

/-- The eight records that `fetchTransactions` returns (`api.js`, lines 40-108). -/
def fixtureTransactions : List Obj :=
  [mkTransaction "txn_123456" "2025-03-30T14:22:30Z" "Grocery Store" (-125.40) "Groceries"
     "expense",
   mkTransaction "txn_123457" "2025-03-29T09:15:00Z" "Salary Deposit" 3200.00 "Income" "income",
   mkTransaction "txn_123458" "2025-03-28T18:45:20Z" "Coffee Shop" (-4.50) "Dining" "expense",
   mkTransaction "txn_123459" "2025-03-27T12:30:45Z" "Electric Bill" (-95.20) "Utilities"
     "expense",
   mkTransaction "txn_123460" "2025-03-26T16:10:15Z" "Transfer to Savings" (-500.00) "Transfer"
     "transfer",
   mkTransaction "txn_123461" "2025-03-25T08:05:30Z" "Online Shopping" (-78.35) "Shopping"
     "expense",
   mkTransaction "txn_123462" "2025-03-24T20:45:10Z" "Ride Share" (-18.75) "Transportation"
     "expense",
   mkTransaction "txn_123463" "2025-03-23T11:20:40Z" "Dividend Payment" 25.60 "Investment"
     "income"]

/-- The time value of the `date` of a transaction, `0` when the date is
invalid.  Used to state what the views compute. -/
def timestampOf (transaction : Obj) : Int := (newDate (transaction.get "date")).getD 0

/-! ## Recent transactions: theorems -/

theorem mkTransaction_date (id date description : String) (amount : Rat)
    (category type : String) :
    (mkTransaction id date description amount category type).get "date" = Val.str date := rfl

theorem getRecentTransactions_eq_take (transactions : List Obj) :
    getRecentTransactions transactions =
      (jsSort (fun a b =>
        (timeNum (newDate (b.get "date"))).sub (timeNum (newDate (a.get "date"))))
        transactions).take 5 := by
  unfold getRecentTransactions
  exact jsSlice_zero _ 5

theorem fixture_dates :
    parseDate "2025-03-30T14:22:30Z" = some 1743344550000 ∧
    parseDate "2025-03-29T09:15:00Z" = some 1743239700000 ∧
    parseDate "2025-03-28T18:45:20Z" = some 1743187520000 ∧
    parseDate "2025-03-27T12:30:45Z" = some 1743078645000 ∧
    parseDate "2025-03-26T16:10:15Z" = some 1743005415000 ∧
    parseDate "2025-03-25T08:05:30Z" = some 1742889930000 ∧
    parseDate "2025-03-24T20:45:10Z" = some 1742849110000 ∧
    parseDate "2025-03-23T11:20:40Z" = some 1742728840000 := by
  decide

/-- C11: for every transaction list with valid timestamps,
`getRecentTransactions` returns the first 5 elements (all of them when there are
fewer) of a rearrangement of the list that is sorted by timestamp descending and
keeps transactions of equal timestamp in their original relative order.  The
sort works on the copy `[...transactions]`, so the list passed in is the same
value afterwards.  On the fixture of 8 records the result is its first five
records, the five latest, starting with the `Grocery Store` transaction of
2025-03-30. -/
theorem getRecentTransactions_spec (transactions : List Obj)
    (hvalid : ∀ t ∈ transactions, (newDate (t.get "date")).isSome = true) :
    (∃ sorted : List Obj,
      getRecentTransactions transactions = sorted.take 5 ∧
      sorted.Perm transactions ∧
      sorted.Pairwise (fun a b => timestampOf b ≤ timestampOf a) ∧
      ∀ ts : Int, sorted.filter (fun x => decide (timestampOf x = ts)) =
        transactions.filter (fun x => decide (timestampOf x = ts))) ∧
    (getRecentTransactions transactions).length = min 5 transactions.length ∧
    getRecentTransactions fixtureTransactions = fixtureTransactions.take 5 ∧
    (getRecentTransactions fixtureTransactions).head?.map
        (fun t => (t.get "date", t.get "description")) =
      some (Val.str "2025-03-30T14:22:30Z", Val.str "Grocery Store") := by
  have hdesc : SortsDescBy (fun a b =>
      (timeNum (newDate (b.get "date"))).sub (timeNum (newDate (a.get "date"))))
      timestampOf transactions := by
    intro a ha b hb
    obtain ⟨ta, hta⟩ := Option.isSome_iff_exists.1 (hvalid a ha)
    obtain ⟨tb, htb⟩ := Option.isSome_iff_exists.1 (hvalid b hb)
    simp only [timestampOf, hta, htb, timeNum, Option.getD_some]
    rw [gtZero_sub_fin]
    exact Int.cast_lt
  have hfix : getRecentTransactions fixtureTransactions = fixtureTransactions.take 5 := by
    obtain ⟨d1, d2, d3, d4, d5, d6, d7, d8⟩ := fixture_dates
    rw [getRecentTransactions_eq_take]
    norm_num [fixtureTransactions, jsSort, sortInsert, mkTransaction_date, newDate, timeNum,
      d1, d2, d3, d4, d5, d6, d7, d8, Num.sub, Num.add, Num.neg, Num.gtZero]
  refine ⟨⟨_, getRecentTransactions_eq_take transactions, jsSort_perm _ _,
    jsSort_pairwise _ timestampOf transactions hdesc,
    fun ts => jsSort_filter _ timestampOf transactions hdesc ts⟩, ?_, hfix, ?_⟩
  · rw [getRecentTransactions_eq_take, List.length_take, (jsSort_perm _ _).length_eq]
  · rw [hfix]
    rfl

/-- Witness of C11: the eight records of the fixture. -/
theorem getRecentTransactions_spec_witness :
    ∃ sorted : List Obj,
      getRecentTransactions fixtureTransactions = sorted.take 5 ∧
      sorted.Perm fixtureTransactions ∧
      sorted.Pairwise (fun a b => timestampOf b ≤ timestampOf a) ∧
      ∀ ts : Int, sorted.filter (fun x => decide (timestampOf x = ts)) =
        fixtureTransactions.filter (fun x => decide (timestampOf x = ts)) :=
  (getRecentTransactions_spec fixtureTransactions (by
    obtain ⟨d1, d2, d3, d4, d5, d6, d7, d8⟩ := fixture_dates
    intro t ht
    simp only [fixtureTransactions, List.mem_cons, List.mem_singleton, List.not_mem_nil,
      or_false] at ht
    rcases ht with rfl | rfl | rfl | rfl | rfl | rfl | rfl | rfl <;>
      simp [mkTransaction_date, newDate, d1, d2, d3, d4, d5, d6, d7, d8])).1

/-! # The Transactions page (`Transactions.js`, lines 47-212)

The page keeps four filter values and a page number in `useState` cells and
derives the filtered list and the slice to display from the provider
transactions.  `new Date()` reads the clock; the three reads made for one
transaction are taken to return the same instant `now`.
-/

/-- The method `String.prototype.toLowerCase`, on ASCII letters; other
characters stay as they are. -/
def toLowerCase (s : String) : String := String.mk (s.toList.map Char.toLower)

/-- Whether the character list starts with the given characters. -/
def startsWithChars : List Char → List Char → Bool
  | _, [] => true
  | [], _ :: _ => false
  | c :: cs, p :: ps => c == p && startsWithChars cs ps

/-- Whether the given characters occur somewhere in the character list, in a
row. -/
def includesChars : List Char → List Char → Bool
  | [], sub => sub.isEmpty
  | c :: cs, sub => startsWithChars (c :: cs) sub || includesChars cs sub

/-- The method `String.prototype.includes(searchString)`. -/
def includes (s searchString : String) : Bool := includesChars s.toList searchString.toList

/-- The receiver of a string method call such as `transaction.description.toLowerCase()`:
the call succeeds on a string and throws a `TypeError` (`none`) on anything
else. -/
def stringReceiver : Val → Option String
  | Val.str s => some s
  | _ => none

/-- The filter cells of the page: `searchTerm`, `categoryFilter`, `typeFilter`,
`dateFilter`. -/
structure Filters where
  searchTerm : String
  categoryFilter : String
  typeFilter : String
  dateFilter : String
  deriving DecidableEq

/-- The clock and the time zone of the browser: the instant that `new Date()`
reads and the offset of local time from UTC, both in milliseconds. -/
structure Clock where
  now : Int
  tz : Int

/-- The comparison `a >= b` of two `Date` objects: false when either is
invalid. -/
def dateGe : Option Int → Option Int → Bool
  | some a, some b => decide (b ≤ a)
  | _, _ => false

/-- The name of a day of the week (0 is Sunday). -/
def dayName (w : Int) : String :=
  if w = 0 then "Sun" else if w = 1 then "Mon" else if w = 2 then "Tue"
  else if w = 3 then "Wed" else if w = 4 then "Thu" else if w = 5 then "Fri" else "Sat"

/-- The name of a month (0 is January). -/
def monthName (m : Int) : String :=
  if m = 0 then "Jan" else if m = 1 then "Feb" else if m = 2 then "Mar"
  else if m = 3 then "Apr" else if m = 4 then "May" else if m = 5 then "Jun"
  else if m = 6 then "Jul" else if m = 7 then "Aug" else if m = 8 then "Sep"
  else if m = 9 then "Oct" else if m = 10 then "Nov" else "Dec"

/-- A natural number in decimal, padded with zeros on the left to `width`
digits. -/
def zeroPadded (width n : Nat) : String :=
  String.mk (List.replicate (width - (Nat.repr n).length) '0') ++ Nat.repr n

/-- The method `toDateString()`, in local time: for example `Sun Mar 30 2025`. -/
def toDateString (tz : Int) : Option Int → String
  | none => "Invalid Date"
  | some t =>
    let d := dayOf (t + tz)
    let y := yearFromDay d
    dayName (weekDay d) ++ " " ++ monthName (monthFromDay d) ++ " " ++
      zeroPadded 2 (dateFromDay d).toNat ++ " " ++
      (if y < 0 then "-" else "") ++ zeroPadded 4 y.natAbs

/-- The value of `matchesDate` in the filter callback (lines 173-189). -/
def matchesDate (clock : Clock) (dateFilter : String) (transaction : Obj) : Bool :=
  if dateFilter = "" then true
  else
    let transactionDate := newDate (transaction.get "date")
    let today := clock.now
    let lastWeek := setDate clock.tz clock.now (getDate clock.tz today - 7)
    let lastMonth := setMonth clock.tz clock.now (getMonth clock.tz today - 1)
    if dateFilter = "today" then
      decide (toDateString clock.tz transactionDate = toDateString clock.tz (some today))
    else if dateFilter = "week" then dateGe transactionDate lastWeek
    else if dateFilter = "month" then dateGe transactionDate lastMonth
    else true

/-- The value of `matchesSearch` (lines 164-165); `none` when the call throws. -/
def matchesSearch (searchTerm : String) (transaction : Obj) : Option Bool :=
  if searchTerm = "" then some true
  else
    match stringReceiver (transaction.get "description") with
    | some description => some (includes (toLowerCase description) (toLowerCase searchTerm))
    | none => none

/-- The value of `matchesCategory` (lines 167-168); `none` when the call throws. -/
def matchesCategory (categoryFilter : String) (transaction : Obj) : Option Bool :=
  if categoryFilter = "" then some true
  else
    match stringReceiver (transaction.get "category") with
    | some category => some (decide (toLowerCase category = toLowerCase categoryFilter))
    | none => none

/-- The value of `matchesType` (lines 170-171); `none` when the call throws. -/
def matchesType (typeFilter : String) (transaction : Obj) : Option Bool :=
  if typeFilter = "" then some true
  else
    match stringReceiver (transaction.get "type") with
    | some type => some (decide (toLowerCase type = toLowerCase typeFilter))
    | none => none

/-- The callback handed to `transactions.filter` (lines 163-192): the four
conditions are computed in order, then combined with `&&`. -/
def filterCallback (clock : Clock) (f : Filters) (transaction : Obj) : Option Bool :=
  match matchesSearch f.searchTerm transaction with
  | none => none
  | some ms =>
    match matchesCategory f.categoryFilter transaction with
    | none => none
    | some mc =>
      match matchesType f.typeFilter transaction with
      | none => none
      | some mt => some (ms && mc && mt && matchesDate clock f.dateFilter transaction)

/-- The method `Array.prototype.filter` with a callback that may throw: the
elements the callback accepts, in order, or the exception (`none`). -/
def jsFilter {α : Type} (callback : α → Option Bool) : List α → Option (List α)
  | [] => some []
  | x :: rest =>
    match callback x with
    | none => none
    | some keep =>
      match jsFilter callback rest with
      | none => none
      | some kept => some (if keep then x :: kept else kept)

/-- The value `filteredTransactions`, or `none` when rendering throws.  The
provider always holds an array, so neither `?.` nor `|| []` takes effect. -/
def filteredTransactions (clock : Clock) (f : Filters) (transactions : List Obj) :
    Option (List Obj) :=
  jsFilter (filterCallback clock f) transactions

/-- The constant `rowsPerPage`. -/
def rowsPerPage : Int := 10

/-- The value `paginatedTransactions`:
`filteredTransactions.slice((page - 1) * rowsPerPage, page * rowsPerPage)`. -/
def paginatedTransactions {α : Type} (filtered : List α) (page : Int) : List α :=
  jsSlice filtered ((page - 1) * rowsPerPage) (page * rowsPerPage)

/-- The `count` handed to the `Pagination` control:
`Math.ceil(filteredTransactions.length / rowsPerPage)`. -/
def pageCount {α : Type} (filtered : List α) : Int :=
  Int.ceil ((filtered.length : Rat) / (rowsPerPage : Rat))

/-- The string stored in property `k` of a record, empty when the property
does not hold a string.  Used to state what the filter computes. -/
def textOf (record : Obj) (k : String) : String :=
  match record.get k with
  | Val.str s => s
  | _ => ""

/-- A transaction record as the data model has it: description, category and
type are strings. -/
def IsTransaction (record : Obj) : Prop :=
  (∃ s, record.get "description" = Val.str s) ∧ (∃ s, record.get "category" = Val.str s) ∧
    ∃ s, record.get "type" = Val.str s

/-- The condition the specification states for a transaction to be listed
when no date filter is selected: the description contains the search term, the
category equals the category filter and the type equals the type filter, each
ignoring case, and an empty filter value imposes no condition. -/
def specMatches (searchTerm categoryFilter typeFilter : String) (transaction : Obj) : Bool :=
  (decide (searchTerm = "") ||
    includes (toLowerCase (textOf transaction "description")) (toLowerCase searchTerm)) &&
  (decide (categoryFilter = "") ||
    decide (toLowerCase (textOf transaction "category") = toLowerCase categoryFilter)) &&
  (decide (typeFilter = "") ||
    decide (toLowerCase (textOf transaction "type") = toLowerCase typeFilter))

/-- Noon UTC on 2025-03-31, as a clock reading in a UTC browser. -/
def noonMarch31 : Clock := ⟨1743422400000, 0⟩

/-- A transaction dated two days after `noonMarch31`. -/
def futureTransaction : Obj :=
  mkTransaction "txn_f" "2025-04-02T09:00:00Z" "Scheduled Rent" (-900) "Housing" "expense"

/-- A transaction dated 29 days before `noonMarch31`. -/
def earlyMarchTransaction : Obj :=
  mkTransaction "txn_m" "2025-03-02T12:00:00Z" "Book Shop" (-20) "Shopping" "expense"

/-! ## Lemmas on `filter` and on the calendar -/

theorem jsFilter_of_total {α : Type} (callback : α → Option Bool) (p : α → Bool) (l : List α)
    (h : ∀ x ∈ l, callback x = some (p x)) : jsFilter callback l = some (l.filter p) := by
  induction l with
  | nil => rfl
  | cons x rest ih =>
    unfold jsFilter
    rw [h x (List.mem_cons_self _ _), ih (fun y hy => h y (List.mem_cons_of_mem _ hy))]
    cases hp : p x <;> simp [List.filter_cons, hp]

theorem jsFilter_some_inv {α : Type} (callback : α → Option Bool) (l r : List α)
    (h : jsFilter callback l = some r) :
    (∀ x ∈ l, callback x = some ((callback x).getD false)) ∧
      r = l.filter (fun x => (callback x).getD false) := by
  induction l generalizing r with
  | nil =>
    simp only [jsFilter, Option.some.injEq] at h
    subst h
    simp
  | cons x rest ih =>
    unfold jsFilter at h
    cases hx : callback x with
    | none => simp [hx] at h
    | some keep =>
      cases hrest : jsFilter callback rest with
      | none => simp [hx, hrest] at h
      | some kept =>
        simp only [hx, hrest, Option.some.injEq] at h
        obtain ⟨h1, h2⟩ := ih kept hrest
        constructor
        · intro y hy
          rcases List.mem_cons.1 hy with rfl | hy'
          · simp [hx]
          · exact h1 y hy'
        · subst h
          cases keep <;> simp [List.filter_cons, hx, ← h2]

theorem filterCallback_of_transaction (clock : Clock) (f : Filters) (t : Obj)
    (ht : IsTransaction t) :
    filterCallback clock f t =
      some (specMatches f.searchTerm f.categoryFilter f.typeFilter t &&
        matchesDate clock f.dateFilter t) := by
  obtain ⟨⟨d, hd⟩, ⟨c, hc⟩, ⟨ty, hty⟩⟩ := ht
  unfold filterCallback matchesSearch matchesCategory matchesType specMatches textOf
  rw [hd, hc, hty]
  by_cases h1 : f.searchTerm = "" <;> by_cases h2 : f.categoryFilter = "" <;>
    by_cases h3 : f.typeFilter = "" <;> simp [h1, h2, h3, stringReceiver]

theorem ite_month_range {c : Prop} [Decidable c] {a b : Int} (ha : 0 ≤ a ∧ a ≤ 11)
    (hb : 0 ≤ b ∧ b ≤ 11) : 0 ≤ (if c then a else b) ∧ (if c then a else b) ≤ 11 := by
  split <;> assumption

theorem monthOfDayInYear_range (leap : Bool) (n : Int) :
    0 ≤ monthOfDayInYear leap n ∧ monthOfDayInYear leap n ≤ 11 := by
  unfold monthOfDayInYear
  repeat' apply ite_month_range
  all_goals constructor <;> omega

theorem monthFromDay_range (d : Int) : 0 ≤ monthFromDay d ∧ monthFromDay d ≤ 11 :=
  monthOfDayInYear_range _ _

theorem makeDay_same_month (d k : Int) :
    makeDay (yearFromDay d) (monthFromDay d) (dateFromDay d - k) = d - k := by
  have h := monthFromDay_range d
  have h1 : monthFromDay d / 12 = 0 := by omega
  have h2 : monthFromDay d % 12 = monthFromDay d := by omega
  unfold makeDay dateFromDay
  simp only [h1, h2, add_zero]
  ring

/-- Setting the day of the month `k` days back with `setDate` moves the time
value back by exactly `k` days, whatever month that lands in. -/
theorem setDate_days_back (tz now k : Int) :
    setDate tz now (getDate tz now - k) = timeClip (now - k * msPerDay) := by
  unfold setDate getDate getFullYear getMonth
  rw [makeDay_same_month]
  unfold makeDate dayOf timeWithinDay msPerDay
  congr 1
  omega

theorem monthStart_le_next (leap : Bool) (m : Int) (h1 : 1 ≤ m) (h2 : m ≤ 11) :
    monthStart leap (m - 1) ≤ monthStart leap m := by
  have hm : m = 1 ∨ m = 2 ∨ m = 3 ∨ m = 4 ∨ m = 5 ∨ m = 6 ∨ m = 7 ∨ m = 8 ∨ m = 9 ∨
      m = 10 ∨ m = 11 := by omega
  rcases hm with rfl | rfl | rfl | rfl | rfl | rfl | rfl | rfl | rfl | rfl | rfl <;>
    cases leap <;> decide

theorem monthStart_december_le (leap : Bool) : monthStart leap 11 ≤ 335 := by
  cases leap <;> decide

/-- The day that `setMonth(getMonth() - 1)` lands on is not after today. -/
theorem makeDay_previous_month_le (d : Int) :
    makeDay (yearFromDay d) (monthFromDay d - 1) (dateFromDay d) ≤ d := by
  have h := monthFromDay_range d
  unfold makeDay dateFromDay
  by_cases h0 : monthFromDay d = 0
  · have h1 : (monthFromDay d - 1) / 12 = -1 := by omega
    have h2 : (monthFromDay d - 1) % 12 = 11 := by omega
    have h3 := monthStart_december_le (isLeapYear (yearFromDay d + -1))
    have h4 : monthStart (isLeapYear (yearFromDay d)) (monthFromDay d) = 0 := by
      rw [h0]
      cases isLeapYear (yearFromDay d) <;> decide
    simp only [h1, h2, h4]
    have h5 : dayFromYear (yearFromDay d + -1) + 365 ≤ dayFromYear (yearFromDay d) := by
      unfold dayFromYear
      omega
    omega
  · have h1 : (monthFromDay d - 1) / 12 = 0 := by omega
    have h2 : (monthFromDay d - 1) % 12 = monthFromDay d - 1 := by omega
    have h3 := monthStart_le_next (isLeapYear (yearFromDay d)) (monthFromDay d) (by omega) h.2
    simp only [h1, h2, add_zero]
    omega

theorem timeClip_eq_some {t c : Int} (h : timeClip t = some c) : c = t := by
  unfold timeClip at h
  split_ifs at h
  simpa using h.symm

/-- The cutoff that `lastMonth` holds, when it is a valid date, is not later
than the current time. -/
theorem lastMonth_le_now (tz now cutoff : Int)
    (h : setMonth tz now (getMonth tz now - 1) = some cutoff) : cutoff ≤ now := by
  unfold setMonth getDate getFullYear getMonth at h
  have hc := timeClip_eq_some h
  have hd := makeDay_previous_month_le (dayOf (now + tz))
  rw [hc]
  unfold makeDate
  unfold dayOf at hd ⊢
  unfold timeWithinDay msPerDay at *
  have hmul : makeDay (yearFromDay ((now + tz) / 86400000))
      (monthFromDay ((now + tz) / 86400000) - 1) (dateFromDay ((now + tz) / 86400000)) *
      86400000 ≤ (now + tz) / 86400000 * 86400000 :=
    Int.mul_le_mul_of_nonneg_right hd (by norm_num)
  omega

theorem dateGe_iff (a b : Option Int) :
    dateGe a b = true ↔ ∃ x y : Int, a = some x ∧ b = some y ∧ y ≤ x := by
  cases a <;> cases b <;> simp [dateGe]

/-- What the month filter does on 2025-03-31 at noon UTC: `lastMonth` is
`setMonth(1)` on the 31st, which overflows February and lands on 2025-03-03, so
a transaction dated 29 days earlier does not pass. -/
theorem lastMonth_on_march_31 :
    setMonth noonMarch31.tz noonMarch31.now (getMonth noonMarch31.tz noonMarch31.now - 1) =
      parseDate "2025-03-03T12:00:00Z" ∧
    matchesDate noonMarch31 "month" earlyMarchTransaction = false ∧
    noonMarch31.now - 29 * msPerDay = timestampOf earlyMarchTransaction := by
  decide

/-! ## The Transactions page: theorems -/

/-- C16: with no date filter selected, for every list of transaction records,
search term, category filter and type filter, the filtered list is exactly the
sub-list, in original order, of the transactions whose description contains the
search term, whose category equals the category filter and whose type equals
the type filter, each ignoring case, an empty filter value imposing no
condition; with all filters empty every list is returned unchanged. -/
theorem filteredTransactions_no_date (clock : Clock) (searchTerm categoryFilter typeFilter : String)
    (transactions : List Obj) :
    ((∀ t ∈ transactions, IsTransaction t) →
      filteredTransactions clock ⟨searchTerm, categoryFilter, typeFilter, ""⟩ transactions =
        some (transactions.filter (specMatches searchTerm categoryFilter typeFilter))) ∧
    List.Sublist (transactions.filter (specMatches searchTerm categoryFilter typeFilter))
      transactions ∧
    filteredTransactions clock ⟨"", "", "", ""⟩ transactions = some transactions := by
  refine ⟨?_, List.filter_sublist _, ?_⟩
  · intro hwf
    unfold filteredTransactions
    apply jsFilter_of_total
    intro t ht
    rw [filterCallback_of_transaction clock _ t (hwf t ht)]
    simp [matchesDate]
  · unfold filteredTransactions
    rw [jsFilter_of_total _ (fun _ => true) transactions]
    · simp
    · intro t _
      rfl

/-- Witness of C16: the fixture filtered with search term `SHOP` and type
`expense`. -/
theorem filteredTransactions_no_date_witness :
    filteredTransactions noonMarch31 ⟨"SHOP", "", "expense", ""⟩ fixtureTransactions =
      some (fixtureTransactions.filter (specMatches "SHOP" "" "expense")) :=
  (filteredTransactions_no_date noonMarch31 "SHOP" "" "expense" fixtureTransactions).1 (by
    intro t ht
    simp only [fixtureTransactions, List.mem_cons, List.mem_singleton, List.not_mem_nil,
      or_false] at ht
    rcases ht with rfl | rfl | rfl | rfl | rfl | rfl | rfl | rfl <;>
      exact ⟨⟨_, rfl⟩, ⟨_, rfl⟩, ⟨_, rfl⟩⟩)

/-- C17: transaction filtering is idempotent.  For every transaction list,
every filter setting and a fixed clock, when filtering yields a list, filtering
that list again yields the same list; and filtering does yield a list whenever
the records are transactions (description, category and type are strings). -/
theorem filteredTransactions_idempotent (clock : Clock) (f : Filters)
    (transactions : List Obj) :
    (∀ once : List Obj, filteredTransactions clock f transactions = some once →
      filteredTransactions clock f once = some once) ∧
    ((∀ t ∈ transactions, IsTransaction t) →
      ∃ once : List Obj, filteredTransactions clock f transactions = some once) := by
  constructor
  · intro once h
    unfold filteredTransactions at h ⊢
    obtain ⟨h1, h2⟩ := jsFilter_some_inv _ _ _ h
    rw [jsFilter_of_total _ (fun x => (filterCallback clock f x).getD false) once]
    · rw [h2, List.filter_filter]
      simp
    · intro x hx
      rw [h2] at hx
      exact h1 x (List.mem_filter.1 hx).1
  · intro hwf
    refine ⟨_, jsFilter_of_total _ _ transactions
      (fun t ht => filterCallback_of_transaction clock f t (hwf t ht))⟩

/-- Witness of C17: the fixture filtered by search term, type and the week
window, then filtered again. -/
theorem filteredTransactions_idempotent_witness :
    filteredTransactions noonMarch31 ⟨"SHOP", "", "expense", "week"⟩
        [mkTransaction "txn_123458" "2025-03-28T18:45:20Z" "Coffee Shop" (-4.50) "Dining"
          "expense",
         mkTransaction "txn_123461" "2025-03-25T08:05:30Z" "Online Shopping" (-78.35) "Shopping"
          "expense"] =
      some
        [mkTransaction "txn_123458" "2025-03-28T18:45:20Z" "Coffee Shop" (-4.50) "Dining"
          "expense",
         mkTransaction "txn_123461" "2025-03-25T08:05:30Z" "Online Shopping" (-78.35) "Shopping"
          "expense"] :=
  (filteredTransactions_idempotent noonMarch31 ⟨"SHOP", "", "expense", "week"⟩
    fixtureTransactions).1 _ (by
      unfold filteredTransactions
      rw [jsFilter_of_total _
        (fun t => specMatches "SHOP" "" "expense" t && matchesDate noonMarch31 "week" t)]
      · congr 1
      · intro t ht
        simp only [fixtureTransactions, List.mem_cons, List.mem_singleton, List.not_mem_nil,
          or_false] at ht
        rcases ht with rfl | rfl | rfl | rfl | rfl | rfl | rfl | rfl <;>
          exact filterCallback_of_transaction _ _ _ ⟨⟨_, rfl⟩, ⟨_, rfl⟩, ⟨_, rfl⟩⟩)

/-- C18 as stated fails: with the date filter `month` a transaction dated two
days after the current time passes the date predicate. -/
theorem month_filter_passes_future :
    matchesDate noonMarch31 "month" futureTransaction = true ∧
      noonMarch31.now < timestampOf futureTransaction := by
  decide

/-- C18 (amended): with the date filter `month`, for every clock and every
transaction, the transaction passes the date predicate exactly when its
timestamp is valid and at or after the cutoff that `lastMonth` holds; the cutoff
depends on the clock only and is not later than the current time, and there is
no upper bound: once a transaction passes, every transaction with a later valid
timestamp passes, one dated after the current time included. -/
theorem month_filter_lower_bound_only (clock : Clock) (transaction : Obj) :
    (matchesDate clock "month" transaction = true ↔
      ∃ t cutoff : Int, newDate (transaction.get "date") = some t ∧
        setMonth clock.tz clock.now (getMonth clock.tz clock.now - 1) = some cutoff ∧
        cutoff ≤ t) ∧
    (∀ cutoff : Int,
      setMonth clock.tz clock.now (getMonth clock.tz clock.now - 1) = some cutoff →
        cutoff ≤ clock.now) ∧
    (∀ later : Obj, matchesDate clock "month" transaction = true →
      (newDate (later.get "date")).isSome = true → timestampOf transaction ≤ timestampOf later →
        matchesDate clock "month" later = true) := by
  have hpred : ∀ x : Obj, matchesDate clock "month" x =
      dateGe (newDate (x.get "date"))
        (setMonth clock.tz clock.now (getMonth clock.tz clock.now - 1)) := by
    intro x
    have h1 : ¬ ("month" = "") := by decide
    have h2 : ¬ ("month" = "today") := by decide
    have h3 : ¬ ("month" = "week") := by decide
    simp only [matchesDate, h1, h2, h3, if_false, if_true]
  refine ⟨?_, fun cutoff h => lastMonth_le_now _ _ _ h, ?_⟩
  · rw [hpred, dateGe_iff]
  · intro later hpass hvalid hle
    rw [hpred, dateGe_iff] at hpass ⊢
    obtain ⟨t, c, ht, hc, hct⟩ := hpass
    obtain ⟨t', ht'⟩ := Option.isSome_iff_exists.1 hvalid
    simp only [timestampOf, ht, ht', Option.getD_some] at hle
    exact ⟨t', c, ht', hc, le_trans hct hle⟩

/-- Witness of C18 (amended): on 2025-03-31 the transaction of 2025-03-30
passes the month filter, hence so does the one dated 2025-04-02. -/
theorem month_filter_lower_bound_only_witness :
    matchesDate noonMarch31 "month" futureTransaction = true :=
  (month_filter_lower_bound_only noonMarch31
    (mkTransaction "txn_123456" "2025-03-30T14:22:30Z" "Grocery Store" (-125.40) "Groceries"
      "expense")).2.2 futureTransaction (by decide) (by decide) (by decide)

/-- C19 as stated fails: with the date filter `week` a transaction dated two
days after the current time passes the date predicate. -/
theorem week_filter_passes_future :
    matchesDate noonMarch31 "week" futureTransaction = true ∧
      noonMarch31.now < timestampOf futureTransaction := by
  decide

/-- C19 (amended): with the date filter `week`, for every current time from
which 7 days back is still within the range of `Date`, every fixed offset of
local time and every transaction, the transaction passes the date predicate
exactly when its timestamp is valid and at or after `now - 7 days`; there is no
upper bound, so a transaction dated after the current time passes. -/
theorem week_filter_lower_bound_only (clock : Clock)
    (hlow : -8640000000000000 ≤ clock.now - 7 * msPerDay)
    (hhigh : clock.now ≤ 8640000000000000) (transaction : Obj) :
    (matchesDate clock "week" transaction = true ↔
      ∃ t : Int, newDate (transaction.get "date") = some t ∧ clock.now - 7 * msPerDay ≤ t) ∧
    ((∃ t : Int, newDate (transaction.get "date") = some t ∧ clock.now < t) →
      matchesDate clock "week" transaction = true) := by
  have hcut : setDate clock.tz clock.now (getDate clock.tz clock.now - 7) =
      some (clock.now - 7 * msPerDay) := by
    rw [setDate_days_back]
    unfold timeClip
    rw [if_pos]
    refine ⟨hlow, ?_⟩
    unfold msPerDay at *
    omega
  have hpred : matchesDate clock "week" transaction =
      dateGe (newDate (transaction.get "date")) (some (clock.now - 7 * msPerDay)) := by
    have h1 : ¬ ("week" = "") := by decide
    have h2 : ¬ ("week" = "today") := by decide
    simp only [matchesDate, h1, h2, if_false, if_true, hcut]
  have hiff : matchesDate clock "week" transaction = true ↔
      ∃ t : Int, newDate (transaction.get "date") = some t ∧ clock.now - 7 * msPerDay ≤ t := by
    rw [hpred, dateGe_iff]
    constructor
    · rintro ⟨x, y, hx, hy, hxy⟩
      simp only [Option.some.injEq] at hy
      exact ⟨x, hx, hy ▸ hxy⟩
    · rintro ⟨t, ht, hle⟩
      exact ⟨t, _, ht, rfl, hle⟩
  refine ⟨hiff, ?_⟩
  rintro ⟨t, ht, hlt⟩
  refine hiff.2 ⟨t, ht, ?_⟩
  unfold msPerDay
  omega

/-- Witness of C19 (amended): at noon on 2025-03-31 the transaction dated
2025-04-02 is after the current time and passes the week filter. -/
theorem week_filter_lower_bound_only_witness :
    matchesDate noonMarch31 "week" futureTransaction = true :=
  (week_filter_lower_bound_only noonMarch31 (by decide) (by decide) futureTransaction).2
    ⟨1743584400000, by decide, by decide⟩

/-! ## Pagination: theorems -/

theorem paginatedTransactions_eq {α : Type} (items : List α) (n : Nat) :
    paginatedTransactions items ((n : Int) + 1) = (items.drop (10 * n)).take 10 := by
  unfold paginatedTransactions jsSlice sliceIndex rowsPerPage
  have h1 : ¬ (((n : Int) + 1 - 1) * 10 < 0) := by omega
  have h2 : ¬ (((n : Int) + 1) * 10 < 0) := by omega
  have h3 : (((n : Int) + 1 - 1) * 10).toNat = 10 * n := by omega
  have h4 : (((n : Int) + 1) * 10).toNat = 10 * n + 10 := by omega
  rw [if_neg h1, if_neg h2, h3, h4]
  rcases Nat.lt_or_ge (10 * n) items.length with hlt | hge
  · rw [Nat.min_eq_left (le_of_lt hlt)]
    rcases Nat.le_total (10 * n + 10) items.length with h5 | h5
    · rw [Nat.min_eq_left h5]
      congr 1
      omega
    · rw [Nat.min_eq_right h5, List.take_of_length_le, List.take_of_length_le]
      · rw [List.length_drop]
        omega
      · rw [List.length_drop]
  · rw [Nat.min_eq_right hge, List.drop_of_length_le (le_refl _), List.drop_of_length_le hge]
    simp

theorem pages_flatten {α : Type} (items : List α) (n : Nat) :
    ((List.range n).map (fun i : Nat => paginatedTransactions items ((i : Int) + 1))).flatten =
      items.take (10 * n) := by
  induction n with
  | zero => simp
  | succ n ih =>
    rw [List.range_succ, List.map_append, List.flatten_append, ih]
    simp only [List.map_cons, List.map_nil, List.flatten_cons, List.flatten_nil,
      List.append_nil]
    rw [paginatedTransactions_eq, Nat.mul_succ, List.take_add]

/-- C20: for every item list, concatenating the slices that pagination
produces for pages 1, 2, ..., `Math.ceil(length / 10)`, the page count handed to
the `Pagination` control, yields the original list exactly; and the slice of
any page has at most 10 items. -/
theorem pagination_covers {α : Type} (items : List α) :
    ((List.range (pageCount items).toNat).map
        (fun i : Nat => paginatedTransactions items ((i : Int) + 1))).flatten = items ∧
    ∀ page : Int, (paginatedTransactions items page).length ≤ 10 := by
  constructor
  · rw [pages_flatten]
    apply List.take_of_length_le
    have h := Int.le_ceil ((items.length : Rat) / (rowsPerPage : Rat))
    have hpos : (0 : Int) ≤ pageCount items := by
      unfold pageCount
      apply Int.ceil_nonneg
      unfold rowsPerPage
      positivity
    have hcast : (items.length : Rat) ≤ ((10 * (pageCount items).toNat : Nat) : Rat) := by
      have h10 : (items.length : Rat) ≤ 10 * ((pageCount items : Int) : Rat) := by
        unfold pageCount
        unfold rowsPerPage at h ⊢
        have h' := (div_le_iff₀ (by norm_num : (0 : Rat) < ((10 : Int) : Rat))).1 h
        push_cast at h' ⊢
        linarith
      have hnat : ((pageCount items).toNat : Int) = pageCount items := Int.toNat_of_nonneg hpos
      have hq : (((pageCount items).toNat : Nat) : Rat) = ((pageCount items : Int) : Rat) := by
        rw [← Int.cast_natCast, hnat]
      push_cast
      rw [hq]
      exact h10
    exact_mod_cast hcast
  · intro page
    unfold paginatedTransactions jsSlice
    rw [List.length_take]
    apply le_trans (Nat.min_le_left _ _)
    unfold sliceIndex rowsPerPage
    split_ifs <;> omega

/-! # Pages out of range and totals (`Transactions.js`, lines 197-212) -/

/-- The absolute value `Math.abs(x)`. -/
def Num.abs : Num → Num
  | Num.fin q => Num.fin |q|
  | Num.nan => Num.nan
  | Num.posInf => Num.posInf
  | Num.negInf => Num.posInf

/-- The test `t.type === 'income'`. -/
def isIncome (t : Obj) : Bool := strictEq (t.get "type") (Val.str "income")

/-- The test `t.type === 'expense'`. -/
def isExpense (t : Obj) : Bool := strictEq (t.get "type") (Val.str "expense")

/-- The value `totalIncome`:
`filteredTransactions.filter(t => t.type === 'income').reduce((sum, t) => sum + t.amount, 0)`. -/
def totalIncome (filtered : List Obj) : Num :=
  (filtered.filter isIncome).foldl (fun sum t => sum.add (toNumber (t.get "amount")))
    (Num.fin 0)

/-- The value `totalExpense`:
`filteredTransactions.filter(t => t.type === 'expense').reduce((sum, t) => sum + Math.abs(t.amount), 0)`. -/
def totalExpense (filtered : List Obj) : Num :=
  (filtered.filter isExpense).foldl (fun sum t => sum.add (Num.abs (toNumber (t.get "amount"))))
    (Num.fin 0)

/-- The value `netCashflow`: `totalIncome - totalExpense`. -/
def netCashflow (filtered : List Obj) : Num := (totalIncome filtered).sub (totalExpense filtered)

/-- An income record with a negative amount: a salary correction of `-200`. -/
def salaryCorrection : Obj :=
  mkTransaction "txn_r" "2025-03-20T10:00:00Z" "Salary Correction" (-200) "Income" "income"

/-- An expense record with the same amount `-200`. -/
def repairBill : Obj :=
  mkTransaction "txn_q" "2025-03-21T10:00:00Z" "Repair Bill" (-200) "Housing" "expense"

/-! ## Pages out of range: theorems -/

theorem length_le_ten_pageCount {α : Type} (items : List α) :
    (items.length : Int) ≤ 10 * pageCount items := by
  have h := Int.le_ceil ((items.length : Rat) / (rowsPerPage : Rat))
  unfold pageCount
  unfold rowsPerPage at h ⊢
  have h' := (div_le_iff₀ (by norm_num : (0 : Rat) < ((10 : Int) : Rat))).1 h
  have h'' : ((items.length : Int) : Rat) ≤
      ((10 * ⌈(items.length : Rat) / ((10 : Int) : Rat)⌉ : Int) : Rat) := by
    push_cast at h' ⊢
    linarith
  exact_mod_cast h''

theorem paginatedTransactions_length {α : Type} (items : List α) (page : Int) :
    (paginatedTransactions items page).length =
      min (sliceIndex items.length (page * 10) - sliceIndex items.length ((page - 1) * 10))
        (items.length - sliceIndex items.length ((page - 1) * 10)) := by
  unfold paginatedTransactions jsSlice rowsPerPage
  rw [List.length_take, List.length_drop]

/-- C21 as stated fails: on a list of 15 items the slice for page `-1` is
`slice(-20, -10)`, which counts from the end and holds the first 5 items. -/
theorem paginatedTransactions_negative_page :
    paginatedTransactions (List.range 15) (-1) = [0, 1, 2, 3, 4] ∧
      (-1 : Int) < 1 := by
  decide

/-- C21 (amended): for every item list, the slice for a page above
`Math.ceil(length / 10)` and the slice for page `0` are empty; for a negative
page `slice` counts from the end, and the slice is empty exactly when
`length ≤ -10 * page`.  No call raises an error.  On the fixture of 8 items
page 1 returns all 8 items and page 2 returns the empty list. -/
theorem paginatedTransactions_out_of_range {α : Type} (items : List α) (page : Int) :
    (pageCount items < page → paginatedTransactions items page = []) ∧
    (page = 0 → paginatedTransactions items page = []) ∧
    (page < 0 →
      (paginatedTransactions items page = [] ↔ (items.length : Int) ≤ -10 * page)) ∧
    paginatedTransactions fixtureTransactions 1 = fixtureTransactions ∧
    paginatedTransactions fixtureTransactions 2 = [] := by
  have hlen := paginatedTransactions_length items page
  have hcount := length_le_ten_pageCount items
  refine ⟨?_, ?_, ?_, rfl, rfl⟩
  · intro h
    apply List.eq_nil_of_length_eq_zero
    rw [hlen]
    unfold sliceIndex
    split_ifs <;> omega
  · intro h
    apply List.eq_nil_of_length_eq_zero
    rw [hlen]
    unfold sliceIndex
    split_ifs <;> omega
  · intro h
    rw [← List.length_eq_zero, hlen]
    unfold sliceIndex
    split_ifs <;> omega

/-- Witness of C21 (amended): page 4 of a list of 15 items, which has 2 pages,
and page `-2` of the same list, where `15 ≤ 20`. -/
theorem paginatedTransactions_out_of_range_witness :
    paginatedTransactions (List.range 15) 4 = [] ∧
    paginatedTransactions (List.range 15) 0 = [] ∧
    paginatedTransactions (List.range 15) (-2) = [] :=
  ⟨(paginatedTransactions_out_of_range (List.range 15) 4).1 (by
      have h : pageCount (List.range 15) ≤ 2 := by
        unfold pageCount rowsPerPage
        rw [Int.ceil_le]
        norm_num
      omega),
    (paginatedTransactions_out_of_range (List.range 15) 0).2.1 rfl,
    ((paginatedTransactions_out_of_range (List.range 15) (-2)).2.2.1 (by decide)).2
      (by decide)⟩

/-! ## Totals: theorems -/

theorem mkTransaction_amount (id date description : String) (amount : Rat)
    (category type : String) :
    (mkTransaction id date description amount category type).get "amount" = Val.num amount :=
  rfl

theorem foldl_add_abs_amounts (txs : List Obj) (init : Rat)
    (h : ∀ t ∈ txs, ∃ q : Rat, t.get "amount" = Val.num q) :
    txs.foldl (fun sum t => sum.add (Num.abs (toNumber (t.get "amount")))) (Num.fin init) =
      Num.fin (init + (txs.map (fun t => |amountQ t "amount"|)).sum) := by
  induction txs generalizing init with
  | nil => simp
  | cons t rest ih =>
    obtain ⟨q, hq⟩ := h t (List.mem_cons_self _ _)
    have hstep : (Num.fin init).add (Num.abs (toNumber (t.get "amount"))) =
        Num.fin (init + |q|) := by
      rw [hq]
      rfl
    rw [List.foldl_cons, hstep, ih (init + |q|) (fun x hx => h x (List.mem_cons_of_mem _ hx))]
    simp [amountQ, hq, add_assoc]

/-- C22, the code at the failing input: the income total adds the amounts as
stored, without `Math.abs`, so an income record with amount `-200` gives the
income total `-200`, where the sum of absolute amounts is `200`; the expense
total does take `Math.abs`, and an expense record with the same amount gives
`200`. -/
theorem totalIncome_keeps_sign :
    isIncome salaryCorrection = true ∧
    totalIncome [salaryCorrection] = Num.fin (-200) ∧
    ([salaryCorrection].map (fun t => |amountQ t "amount"|)).sum = 200 ∧
    isExpense repairBill = true ∧
    totalExpense [repairBill] = Num.fin 200 := by
  refine ⟨rfl, ?_, ?_, rfl, ?_⟩
  · have h : [salaryCorrection].filter isIncome = [salaryCorrection] := rfl
    unfold totalIncome
    rw [h]
    norm_num [salaryCorrection, mkTransaction_amount, toNumber, Num.add]
  · norm_num [salaryCorrection, amountQ, mkTransaction_amount]
  · have h : [repairBill].filter isExpense = [repairBill] := rfl
    unfold totalExpense
    rw [h]
    norm_num [repairBill, mkTransaction_amount, toNumber, Num.add, Num.abs]

/-- What the three totals compute, for every transaction list with numeric
amounts: the income total is the sum of the amounts, as stored, of the
transactions of type income (the sum of their absolute amounts when no income
amount is negative), the expense total is the sum of the absolute amounts of
the transactions of type expense, transactions of any other type contribute to
neither, and net cashflow is income minus expense. -/
theorem totals_spec (txs : List Obj)
    (hnum : ∀ t ∈ txs, ∃ q : Rat, t.get "amount" = Val.num q) :
    totalIncome txs = Num.fin ((txs.filter isIncome).map (fun t => amountQ t "amount")).sum ∧
    totalExpense txs =
      Num.fin ((txs.filter isExpense).map (fun t => |amountQ t "amount"|)).sum ∧
    netCashflow txs =
      Num.fin (((txs.filter isIncome).map (fun t => amountQ t "amount")).sum -
        ((txs.filter isExpense).map (fun t => |amountQ t "amount"|)).sum) ∧
    ((∀ t ∈ txs, isIncome t = true → 0 ≤ amountQ t "amount") →
      totalIncome txs =
        Num.fin ((txs.filter isIncome).map (fun t => |amountQ t "amount"|)).sum) ∧
    totalIncome (txs.filter (fun t => isIncome t || isExpense t)) = totalIncome txs ∧
    totalExpense (txs.filter (fun t => isIncome t || isExpense t)) = totalExpense txs := by
  have hin : totalIncome txs =
      Num.fin ((txs.filter isIncome).map (fun t => amountQ t "amount")).sum := by
    unfold totalIncome
    rw [foldl_add_amounts "amount" _ 0 (fun t ht => hnum t (List.mem_filter.1 ht).1), zero_add]
  have hex : totalExpense txs =
      Num.fin ((txs.filter isExpense).map (fun t => |amountQ t "amount"|)).sum := by
    unfold totalExpense
    rw [foldl_add_abs_amounts _ 0 (fun t ht => hnum t (List.mem_filter.1 ht).1), zero_add]
  refine ⟨hin, hex, ?_, ?_, ?_, ?_⟩
  · unfold netCashflow
    rw [hin, hex]
    simp [Num.sub, Num.neg, Num.add, sub_eq_add_neg]
  · intro hpos
    rw [hin]
    congr 2
    apply List.map_congr_left
    intro t ht
    have h := List.mem_filter.1 ht
    exact (abs_of_nonneg (hpos t h.1 h.2)).symm
  · unfold totalIncome
    rw [List.filter_filter]
    congr 2
    funext t
    cases isIncome t <;> simp
  · unfold totalExpense
    rw [List.filter_filter]
    congr 2
    funext t
    cases isExpense t <;> simp

/-- The totals on the eight records of the fixture. -/
theorem totals_spec_witness :
    totalIncome fixtureTransactions =
      Num.fin ((fixtureTransactions.filter isIncome).map (fun t => amountQ t "amount")).sum :=
  (totals_spec fixtureTransactions (by
    intro t ht
    simp only [fixtureTransactions, List.mem_cons, List.mem_singleton, List.not_mem_nil,
      or_false] at ht
    rcases ht with rfl | rfl | rfl | rfl | rfl | rfl | rfl | rfl <;> exact ⟨_, rfl⟩)).1

/-- C23: the fixture holds 8 records, 5 of type expense, 2 of type income and 1
transfer; with no filter active the filtered list is the fixture, and its
totals in exact decimal arithmetic are income 3225.60, expense 322.20 and net
2903.40. -/
theorem fixture_totals :
    fixtureTransactions.length = 8 ∧
    (fixtureTransactions.filter isExpense).length = 5 ∧
    (fixtureTransactions.filter isIncome).length = 2 ∧
    (fixtureTransactions.filter
      (fun t => strictEq (t.get "type") (Val.str "transfer"))).length = 1 ∧
    filteredTransactions noonMarch31 ⟨"", "", "", ""⟩ fixtureTransactions =
      some fixtureTransactions ∧
    totalIncome fixtureTransactions = Num.fin 3225.60 ∧
    totalExpense fixtureTransactions = Num.fin 322.20 ∧
    netCashflow fixtureTransactions = Num.fin 2903.40 := by
  have hi : fixtureTransactions.filter isIncome =
      [mkTransaction "txn_123457" "2025-03-29T09:15:00Z" "Salary Deposit" 3200.00 "Income"
        "income",
       mkTransaction "txn_123463" "2025-03-23T11:20:40Z" "Dividend Payment" 25.60 "Investment"
        "income"] := rfl
  have he : fixtureTransactions.filter isExpense =
      [mkTransaction "txn_123456" "2025-03-30T14:22:30Z" "Grocery Store" (-125.40) "Groceries"
        "expense",
       mkTransaction "txn_123458" "2025-03-28T18:45:20Z" "Coffee Shop" (-4.50) "Dining"
        "expense",
       mkTransaction "txn_123459" "2025-03-27T12:30:45Z" "Electric Bill" (-95.20) "Utilities"
        "expense",
       mkTransaction "txn_123461" "2025-03-25T08:05:30Z" "Online Shopping" (-78.35) "Shopping"
        "expense",
       mkTransaction "txn_123462" "2025-03-24T20:45:10Z" "Ride Share" (-18.75) "Transportation"
        "expense"] := rfl
  have hti : totalIncome fixtureTransactions = Num.fin 3225.60 := by
    unfold totalIncome
    rw [hi]
    norm_num [mkTransaction_amount, toNumber, Num.add]
  have hte : totalExpense fixtureTransactions = Num.fin 322.20 := by
    unfold totalExpense
    rw [he]
    norm_num [mkTransaction_amount, toNumber, Num.add, Num.abs, abs_of_neg]
  refine ⟨rfl, ?_, ?_, rfl, ?_, hti, hte, ?_⟩
  · rw [he]
    rfl
  · rw [hi]
    rfl
  · rfl
  · unfold netCashflow
    rw [hti, hte]
    norm_num [Num.sub, Num.neg, Num.add]

/-! # Charts, progress bars, the route guard and the performance series

`Dashboard.js` (lines 204-223, 709-741), `SavingsGoals.js` (lines 217-295),
`App.js` (lines 21-34) and `api.js` (lines 208-250).
-/

/-- A record `{ category, amount, percentage }` of the spending breakdown. -/
def mkSpending (category : String) (amount percentage : Rat) : Obj :=
  ((Obj.empty.set "category" (Val.str category)).set "amount" (Val.num amount)).set
    "percentage" (Val.num percentage)

/-- The eight records that `fetchSpendingByCategory` returns (`api.js`, lines
237-250). -/
def fixtureSpending : List Obj :=
  [mkSpending "Housing" 1200.00 35, mkSpending "Food" 450.00 13,
   mkSpending "Transportation" 350.00 10, mkSpending "Entertainment" 250.00 7,
   mkSpending "Shopping" 300.00 9, mkSpending "Utilities" 200.00 6,
   mkSpending "Healthcare" 150.00 4, mkSpending "Other" 550.00 16]

/-- The two arrays of `spendingChartData`: `labels` and `datasets[0].data`. -/
structure ChartData where
  labels : List Val
  data : List Val
  deriving DecidableEq

/-- The object `spendingChartData` (lines 204-223), colours left out:
`labels: spendingByCategory.map((category) => category.name)` and
`data: spendingByCategory.map((category) => category.amount)`. -/
def spendingChartData (spendingByCategory : List Obj) : ChartData where
  labels := spendingByCategory.map (fun category => category.get "name")
  data := spendingByCategory.map (fun category => category.get "amount")

/-- The comparison `a > b` of two numbers; false when either is `NaN`. -/
def Num.gt : Num → Num → Bool
  | Num.fin a, Num.fin b => decide (b < a)
  | Num.nan, _ => false
  | _, Num.nan => false
  | Num.posInf, Num.posInf => false
  | Num.posInf, _ => true
  | Num.negInf, _ => false
  | Num.fin _, Num.posInf => false
  | Num.fin _, Num.negInf => true

/-- The `value` handed to `LinearProgress` on the Savings Goals page
(`SavingsGoals.js`, lines 218 and 283): `progress > 100 ? 100 : progress` with
`progress = (goal.currentAmount / goal.targetAmount) * 100`. -/
def savingsPageBarValue (goal : Obj) : Num :=
  let progress := (completionRatio goal).mul (Num.fin 100)
  if progress.gt (Num.fin 100) then Num.fin 100 else progress

/-- The `value` handed to `LinearProgress` in the savings-goals card of the
Dashboard (`Dashboard.js`, lines 710-712 and 732): `progress` with
`progress = Math.round((goal.currentAmount / goal.targetAmount) * 100)`. -/
def dashboardBarValue (goal : Obj) : Num :=
  Num.round ((completionRatio goal).mul (Num.fin 100))

/-- A goal with `1500` saved towards a target of `1000`. -/
def exceededGoal : Obj := mkGoal "goal_o" "Bike" 1000 1500

/-- What `ProtectedRoute` returns. -/
inductive Rendered where
  | loadingAnimation (message : String)
  | navigate (target : String)
  | children
  deriving DecidableEq

/-- The component `ProtectedRoute` (`App.js`, lines 22-34), reading `loading`
and `isAuthenticated` from the provider. -/
def protectedRoute (s : AppState) : Rendered :=
  if s.loading then Rendered.loadingAnimation "Loading your financial dashboard..."
  else if !s.isAuthenticated then Rendered.navigate "/login"
  else Rendered.children

/-- The part before `T` of `toISOString()`: the UTC calendar date as
`YYYY-MM-DD`, with a signed six-digit year outside 0..9999. -/
def isoDateString (t : Int) : String :=
  let d := dayOf t
  let y := yearFromDay d
  (if 0 ≤ y ∧ y ≤ 9999 then zeroPadded 4 y.toNat
    else (if y < 0 then "-" else "+") ++ zeroPadded 6 y.natAbs) ++ "-" ++
    zeroPadded 2 (monthFromDay d + 1).toNat ++ "-" ++ zeroPadded 2 (dateFromDay d).toNat

/-- The values the loop variable of `for (let i = n; i >= 0; i--)` takes, in
order. -/
def countdown : Nat → List Nat
  | 0 => [0]
  | n + 1 => (n + 1) :: countdown n

/-- The `value` of one record of the performance series (`api.js`, lines
218-230), for loop variable `i` and the number `r` that `Math.random()`
returned. -/
def performanceValue (i : Nat) (r : Rat) : Rat :=
  let baseValue : Rat := 10000
  let randomFactor : Rat := 0.02
  let trendFactor : Rat := 0.005
  let dayFactor := 1 + (r * 2 - 1) * randomFactor + trendFactor * (30 - i)
  let value := baseValue * (1 + (dayFactor - 1) * (30 - i) / 30)
  (Int.floor (value * 100 + 1 / 2) : Int) / 100

/-- One pass of the loop body: the record pushed for loop variable `i`, or
`none` when `toISOString()` throws because the date is invalid. -/
def performanceRecord (clock : Clock) (random : Nat → Rat) (i : Nat) : Option Obj :=
  match setDate clock.tz clock.now (getDate clock.tz clock.now - i) with
  | none => none
  | some date =>
    some ((Obj.empty.set "date" (Val.str (isoDateString date))).set "value"
      (Val.num (performanceValue i (random i))))

/-- All results when every step succeeded, `none` as soon as one threw. -/
def collectAll {α : Type} : List (Option α) → Option (List α)
  | [] => some []
  | none :: _ => none
  | some x :: rest =>
    match collectAll rest with
    | none => none
    | some xs => some (x :: xs)

/-- The function `fetchInvestmentPerformance` (`api.js`, lines 208-235):
`today` is the clock reading, `random i` is what `Math.random()` returns in the
pass with loop variable `i`, and the loop is `for (let i = 30; i >= 0; i--)`. -/
def fetchInvestmentPerformance (clock : Clock) (random : Nat → Rat) : Option (List Obj) :=
  collectAll ((countdown 30).map (performanceRecord clock random))

/-! ## Charts, progress bars, the route guard, the series: theorems -/

/-- C24, the code at the failing input: the chart reads `category.name`, a
property the records of `fetchSpendingByCategory` do not have (they carry
`category`), so every label is `undefined`; the values are the amounts in source
order and both arrays have the length of the source. -/
theorem spendingChartData_labels_undefined :
    (spendingChartData fixtureSpending).labels = List.replicate 8 Val.undefined ∧
    fixtureSpending.map (fun r => r.get "category") =
      [Val.str "Housing", Val.str "Food", Val.str "Transportation", Val.str "Entertainment",
       Val.str "Shopping", Val.str "Utilities", Val.str "Healthcare", Val.str "Other"] ∧
    (spendingChartData fixtureSpending).data =
      fixtureSpending.map (fun r => r.get "amount") ∧
    (spendingChartData fixtureSpending).labels.length = fixtureSpending.length ∧
    (spendingChartData fixtureSpending).data.length = fixtureSpending.length :=
  ⟨rfl, rfl, rfl, rfl, rfl⟩

/-- C25, the code at the failing input: for a goal with `1500` saved towards
`1000` the Savings Goals page hands the progress bar `100`, while the
savings-goals card of the Dashboard hands it `150`. -/
theorem dashboardBarValue_not_clamped :
    savingsPageBarValue exceededGoal = Num.fin 100 ∧
    dashboardBarValue exceededGoal = Num.fin 150 := by
  constructor
  · norm_num [savingsPageBarValue, completionRatio, exceededGoal, mkGoal_currentAmount,
      mkGoal_targetAmount, toNumber, Num.div, Num.mul, Num.gt]
  · norm_num [dashboardBarValue, completionRatio, exceededGoal, mkGoal_currentAmount,
      mkGoal_targetAmount, toNumber, Num.div, Num.mul, Num.round]

/-- C28: `ProtectedRoute` renders its children exactly when `loading` is false
and `isAuthenticated` is true; when `loading` is true it renders the loading
screen whatever `isAuthenticated` is; when `loading` is false and
`isAuthenticated` is false it redirects to `/login`; so the children are never
rendered for an unauthenticated state. -/
theorem protectedRoute_spec (s : AppState) :
    (protectedRoute s = Rendered.children ↔ s.loading = false ∧ s.isAuthenticated = true) ∧
    (s.loading = true →
      protectedRoute s = Rendered.loadingAnimation "Loading your financial dashboard...") ∧
    (s.loading = false → s.isAuthenticated = false →
      protectedRoute s = Rendered.navigate "/login") ∧
    (s.isAuthenticated = false → protectedRoute s ≠ Rendered.children) := by
  unfold protectedRoute
  cases hl : s.loading <;> cases ha : s.isAuthenticated <;> simp

/-- Witness of C28: the state at mount shows the loading screen, and the state
after `logout` at the end of a startup redirects to `/login`. -/
theorem protectedRoute_spec_witness :
    protectedRoute initialState =
        Rendered.loadingAnimation "Loading your financial dashboard..." ∧
    protectedRoute (logout (setLoading false initialState)) = Rendered.navigate "/login" :=
  ⟨(protectedRoute_spec initialState).2.1 rfl,
    (protectedRoute_spec (logout (setLoading false initialState))).2.2.1 rfl rfl⟩

theorem collectAll_map {α β : Type} (f : α → Option β) (g : α → β) (l : List α)
    (h : ∀ x ∈ l, f x = some (g x)) : collectAll (l.map f) = some (l.map g) := by
  induction l with
  | nil => rfl
  | cons x rest ih =>
    rw [List.map_cons, h x (List.mem_cons_self _ _)]
    unfold collectAll
    rw [ih (fun y hy => h y (List.mem_cons_of_mem _ hy))]
    rfl

theorem mem_countdown (n i : Nat) (h : i ∈ countdown n) : i ≤ n := by
  induction n with
  | zero =>
    simp only [countdown, List.mem_singleton] at h
    omega
  | succ n ih =>
    simp only [countdown, List.mem_cons] at h
    rcases h with h | h
    · omega
    · have := ih h
      omega

theorem length_countdown (n : Nat) : (countdown n).length = n + 1 := by
  induction n with
  | zero => rfl
  | succ n ih => simp [countdown, ih]

/-- C27, what the code does: for every clock reading from which 30 days back is
still within the range of `Date`, and whatever `Math.random()` returns,
`fetchInvestmentPerformance` returns 31 records, not 30: one for each of the
days `today - 30`, ..., `today - 1`, `today`. -/
theorem fetchInvestmentPerformance_count (clock : Clock) (random : Nat → Rat)
    (hlow : -8640000000000000 ≤ clock.now - 30 * msPerDay)
    (hhigh : clock.now ≤ 8640000000000000) :
    ∃ data : List Obj,
      fetchInvestmentPerformance clock random = some data ∧
      data.length = 31 ∧
      data.map (fun r => r.get "date") =
        (countdown 30).map
          (fun i : Nat => Val.str (isoDateString (clock.now - (i : Int) * msPerDay))) := by
  have hrec : ∀ i ∈ countdown 30, performanceRecord clock random i =
      some ((Obj.empty.set "date"
        (Val.str (isoDateString (clock.now - (i : Int) * msPerDay)))).set "value"
        (Val.num (performanceValue i (random i)))) := by
    intro i hi
    have hi30 := mem_countdown 30 i hi
    unfold performanceRecord
    rw [setDate_days_back]
    have hclip : timeClip (clock.now - (i : Int) * msPerDay) =
        some (clock.now - (i : Int) * msPerDay) := by
      unfold timeClip
      rw [if_pos]
      unfold msPerDay at *
      constructor <;> omega
    rw [hclip]
  refine ⟨_, collectAll_map _ _ _ hrec, ?_, ?_⟩
  · rw [List.length_map, length_countdown]
  · rw [List.map_map]
    apply List.map_congr_left
    intro i _
    rfl

/-- Witness of C27: at noon UTC on 2025-03-31 the series has 31 records. -/
theorem fetchInvestmentPerformance_count_witness :
    ∃ data : List Obj,
      fetchInvestmentPerformance noonMarch31 (fun _ => 1 / 2) = some data ∧
      data.length = 31 := by
  obtain ⟨data, h1, h2, _⟩ :=
    fetchInvestmentPerformance_count noonMarch31 (fun _ => 1 / 2) (by decide) (by decide)
  exact ⟨data, h1, h2⟩

/-- The first and the last date of the series produced at noon UTC on
2025-03-31. -/
theorem performance_dates_march_31 :
    isoDateString (noonMarch31.now - 30 * msPerDay) = "2025-03-01" ∧
    isoDateString (noonMarch31.now - 0 * msPerDay) = "2025-03-31" := by
  decide

/-! # The goal form (`SavingsGoals.js`, lines 48-186 and 516-525)

The dialog keeps the field texts in `formData`; `handleSubmit` converts the
amount texts with `parseFloat` and hands the goal to the provider.  The
`categoryColors` table takes some of its entries from the theme, which is not
part of the sources, so it is an argument.
-/

/-- Whether a character is white space that `parseFloat` skips: space, tab,
line feed, vertical tab, form feed, carriage return, no-break space. -/
def isStrWhiteSpace (c : Char) : Bool :=
  c.toNat = 32 || c.toNat = 9 || c.toNat = 10 || c.toNat = 11 || c.toNat = 12 ||
    c.toNat = 13 || c.toNat = 160

/-- The natural number written by a list of decimal digits. -/
def digitsNat (cs : List Char) : Nat :=
  cs.foldl (fun n c => 10 * n + (c.toNat - 48)) 0

/-- The decimal numeral that `parseFloat` finds at the start of a string: the
sign, the digits of the integer and fraction parts read as one natural number,
the number of fraction digits, and the exponent. -/
structure FloatParts where
  negative : Bool
  digits : Nat
  fractionLength : Nat
  exponent : Int
  deriving DecidableEq

/-- The exponent part at the start of `cs`: `e` or `E`, an optional sign and at
least one digit; `0` when there is none. -/
def exponentPart (cs : List Char) : Int :=
  match cs with
  | [] => 0
  | e :: r =>
    if e = 'e' ∨ e = 'E' then
      match r with
      | [] => 0
      | c :: ds =>
        if c = '-' then
          (if ds.takeWhile Char.isDigit = [] then 0
            else -(digitsNat (ds.takeWhile Char.isDigit) : Int))
        else if c = '+' then (digitsNat (ds.takeWhile Char.isDigit) : Int)
        else (digitsNat ((c :: ds).takeWhile Char.isDigit) : Int)
    else 0

/-- The longest unsigned decimal literal at the start of `cs`: digits, an
optional point with digits, an optional exponent, with a digit on at least one
side of the point. -/
def unsignedParts (negative : Bool) (cs : List Char) : Option FloatParts :=
  let ip := cs.takeWhile Char.isDigit
  match cs.dropWhile Char.isDigit with
  | [] => if ip = [] then none else some ⟨negative, digitsNat ip, 0, 0⟩
  | c :: r =>
    if c = '.' then
      let fp := r.takeWhile Char.isDigit
      if ip = [] ∧ fp = [] then none
      else some ⟨negative, digitsNat (ip ++ fp), fp.length, exponentPart (r.dropWhile Char.isDigit)⟩
    else if ip = [] then none
    else some ⟨negative, digitsNat ip, 0, exponentPart (c :: r)⟩

/-- The numeral that `parseFloat(s)` reads: leading white space is skipped,
then an optional sign and the longest decimal literal; whatever follows is
ignored.  The literal `Infinity`, which no stored value can hold, is not
recognised. -/
def floatParts (s : String) : Option FloatParts :=
  match s.toList.dropWhile isStrWhiteSpace with
  | [] => none
  | c :: r =>
    if c = '-' then unsignedParts true r
    else if c = '+' then unsignedParts false r
    else unsignedParts false (c :: r)

/-- The number a numeral denotes. -/
def FloatParts.value (p : FloatParts) : Rat :=
  (if p.negative then -1 else 1) * (p.digits : Rat) / (10 : Rat) ^ p.fractionLength *
    (10 : Rat) ^ p.exponent

/-- The function `parseFloat`: the number read, or `NaN` when the string does
not start with a numeral. -/
def parseFloat (s : String) : Val :=
  match floatParts s with
  | none => Val.nan
  | some p => Val.num p.value

/-- The cell `formData`.  The deadline is `null` (`none`), or a `Date` object,
valid or not. -/
structure FormData where
  name : String
  targetAmount : String
  currentAmount : String
  deadline : Option (Option Int)
  category : String
  autoContribution : String
  frequency : String

/-- The `disabled` condition of the submit button (line 522):
`!formData.name || !formData.targetAmount || !formData.deadline`.  A string is
falsy when empty, the deadline when `null`. -/
def submitDisabled (formData : FormData) : Bool :=
  decide (formData.name = "") || decide (formData.targetAmount = "") ||
    formData.deadline.isNone

/-- The object `goalData` that `handleSubmit` builds (lines 166-176), or `none`
when `formData.deadline.toISOString()` throws: on `null` and on an invalid
date. -/
def goalData (categoryColors : String → Val) (formData : FormData) : Option Obj :=
  match formData.deadline with
  | some (some t) =>
    some (((((((((Obj.empty.set "name" (Val.str formData.name)).set
      "targetAmount" (parseFloat formData.targetAmount)).set
      "currentAmount" (parseFloat formData.currentAmount)).set
      "deadline" (Val.str (isoDateString t))).set
      "category" (Val.str formData.category)).set
      "icon" (Val.str (toLowerCase formData.category))).set
      "color" (categoryColors formData.category)).set
      "autoContribution" (parseFloat formData.autoContribution)).set
      "frequency" (Val.str formData.frequency))
  | _ => none

/-- The handler `handleSubmit` (lines 165-186) on the provider state: with a
goal being edited it calls `updateSavingsGoal(editingGoal.id, goalData)`,
otherwise `addSavingsGoal(goalData)`; `none` when building `goalData` throws.
Closing the dialog does not touch the provider. -/
def handleSubmit (categoryColors : String → Val) (formData : FormData)
    (editingGoal : Option Obj) (now : Int) (s : AppState) : Option AppState :=
  match goalData categoryColors formData with
  | none => none
  | some g =>
    match editingGoal with
    | some editing => some (updateSavingsGoal (editing.get "id") g s)
    | none => some (addSavingsGoal now g s)

/-- The form as the Add dialog opens it, with only the fields that the submit
button asks for filled in: name, target amount and deadline. -/
def minimalForm : FormData where
  name := "Car"
  targetAmount := "9000"
  currentAmount := ""
  deadline := some (some 1767139200000)
  category := "Emergency"
  autoContribution := ""
  frequency := "monthly"

/-- A form whose target amount carries a minus sign. -/
def negativeForm : FormData where
  name := "Car"
  targetAmount := "-5"
  currentAmount := "0"
  deadline := some (some 1767139200000)
  category := "Emergency"
  autoContribution := "10"
  frequency := "monthly"

/-- A stand-in for the `categoryColors` table: the entries written out in the
source, and the name of the theme colour for those taken from the theme. -/
def sampleColors (category : String) : Val :=
  if category = "Celebration" then Val.str "#9c27b0"
  else if category = "Shopping" then Val.str "#ff9800"
  else if category = "Medical" then Val.str "#f44336"
  else if category = "Electronics" then Val.str "#2196f3"
  else if category = "Emergency" then Val.str "theme.palette.success.main"
  else if category = "Travel" then Val.str "theme.palette.info.main"
  else if category = "Housing" then Val.str "theme.palette.warning.main"
  else if category = "Transportation" then Val.str "theme.palette.error.main"
  else if category = "Education" then Val.str "theme.palette.secondary.main"
  else Val.undefined

/-! ## The goal form: theorems -/

theorem not_white_of_digit (c : Char) (hd : c.isDigit = true) : isStrWhiteSpace c = false := by
  cases hw : isStrWhiteSpace c with
  | false => rfl
  | true =>
    exfalso
    simp only [isStrWhiteSpace, Bool.or_eq_true, decide_eq_true_eq] at hw
    have key : ∀ k : Nat, c.toNat = k → (Char.ofNat k).isDigit = true := by
      intro k hk
      rw [← hk, Char.ofNat_toNat]
      exact hd
    rcases hw with (((((h | h) | h) | h) | h) | h) | h
    all_goals exact absurd (key _ h) (by decide)

theorem unsignedParts_of_digit (c : Char) (rest : List Char) (hd : c.isDigit = true) :
    ∃ p : FloatParts, unsignedParts false (c :: rest) = some p ∧ p.negative = false := by
  have hip : (c :: rest).takeWhile Char.isDigit ≠ [] := by
    rw [List.takeWhile_cons_of_pos hd]
    exact List.cons_ne_nil _ _
  have hmap : (unsignedParts false (c :: rest)).map FloatParts.negative = some false := by
    unfold unsignedParts
    cases (c :: rest).dropWhile Char.isDigit with
    | nil => simp only [hip, if_false, Option.map_some']
    | cons d r =>
      by_cases hdot : d = '.'
      · simp only [hdot, hip, false_and, if_false, if_true, Option.map_some']
      · simp only [hdot, hip, if_false, Option.map_some']
  cases hp : unsignedParts false (c :: rest) with
  | none => simp [hp] at hmap
  | some p =>
    rw [hp] at hmap
    simp only [Option.map_some', Option.some.injEq] at hmap
    exact ⟨p, rfl, hmap⟩

theorem value_nonneg (p : FloatParts) (h : p.negative = false) : 0 ≤ p.value := by
  unfold FloatParts.value
  rw [h]
  simp only [Bool.false_eq_true, if_false, one_mul]
  positivity

/-- A text that begins with a decimal digit is read by `parseFloat` as a
non-negative number. -/
theorem parseFloat_of_digit (text : String) (c : Char) (rest : List Char)
    (htext : text.toList = c :: rest) (hd : c.isDigit = true) :
    ∃ q : Rat, 0 ≤ q ∧ parseFloat text = Val.num q := by
  have hminus : ¬ c = '-' := by
    intro h
    rw [h] at hd
    exact absurd hd (by decide)
  have hplus : ¬ c = '+' := by
    intro h
    rw [h] at hd
    exact absurd hd (by decide)
  have hw : ¬ (isStrWhiteSpace c = true) := by
    rw [not_white_of_digit c hd]
    decide
  obtain ⟨p, hp, hneg⟩ := unsignedParts_of_digit c rest hd
  have hparts : floatParts text = some p := by
    unfold floatParts
    rw [htext, List.dropWhile_cons_of_neg hw]
    simp only [hminus, hplus, if_false]
    exact hp
  refine ⟨p.value, value_nonneg p hneg, ?_⟩
  unfold parseFloat
  rw [hparts]

theorem goalData_amounts (categoryColors : String → Val) (formData : FormData) (g : Obj)
    (h : goalData categoryColors formData = some g) :
    g.get "targetAmount" = parseFloat formData.targetAmount ∧
    g.get "currentAmount" = parseFloat formData.currentAmount ∧
    g.get "autoContribution" = parseFloat formData.autoContribution := by
  unfold goalData at h
  cases hdl : formData.deadline with
  | none => simp [hdl] at h
  | some d =>
    cases d with
    | none => simp [hdl] at h
    | some t =>
      simp only [hdl, Option.some.injEq] at h
      subst h
      exact ⟨rfl, rfl, rfl⟩

/-- C26 as stated fails: with only name, target amount and deadline filled in
the submit button is enabled, and the goal that `handleSubmit` hands to
`addSavingsGoal` has the current amount and the auto-contribution `NaN`; a
target amount of `-5` is handed on as `-5`. -/
theorem handleSubmit_passes_nan :
    submitDisabled minimalForm = false ∧
    (handleSubmit sampleColors minimalForm none 1743422400000 initialState).map
        (fun s => s.savingsGoals.map
          (fun g => (g.get "currentAmount", g.get "autoContribution"))) =
      some [(Val.nan, Val.nan)] ∧
    submitDisabled negativeForm = false ∧
    (goalData sampleColors negativeForm).map (fun g => g.get "targetAmount") =
      some (Val.num (-5)) := by
  refine ⟨by decide, by decide, by decide, ?_⟩
  have h : floatParts "-5" = some ⟨true, 5, 0, 0⟩ := by decide
  have hv : parseFloat "-5" = Val.num (-5) := by
    simp [parseFloat, h, FloatParts.value]
  have hg : (goalData sampleColors negativeForm).map (fun g => g.get "targetAmount") =
      some (parseFloat "-5") := rfl
  rw [hg, hv]

/-- C26 (amended): the caller gates the goal mutations on name, target amount
and deadline being non-empty and converts the amount texts with `parseFloat`,
without further validation.  For every form state in which the submit button
is enabled, the goal that `handleSubmit` passes to `addSavingsGoal` or
`updateSavingsGoal` has as `targetAmount`, `currentAmount` and
`autoContribution` the results of `parseFloat` on the three field texts; such
an amount is a number (not `NaN`) and non-negative whenever its text begins
with a decimal digit, and the empty text gives `NaN`. -/
theorem handleSubmit_amounts (categoryColors : String → Val) (formData : FormData)
    (henabled : submitDisabled formData = false) :
    (formData.name ≠ "" ∧ formData.targetAmount ≠ "" ∧ formData.deadline ≠ none) ∧
    (∀ g : Obj, goalData categoryColors formData = some g →
      (∀ (now : Int) (s : AppState),
        handleSubmit categoryColors formData none now s = some (addSavingsGoal now g s)) ∧
      (∀ (editing : Obj) (now : Int) (s : AppState),
        handleSubmit categoryColors formData (some editing) now s =
          some (updateSavingsGoal (editing.get "id") g s)) ∧
      g.get "targetAmount" = parseFloat formData.targetAmount ∧
      g.get "currentAmount" = parseFloat formData.currentAmount ∧
      g.get "autoContribution" = parseFloat formData.autoContribution) ∧
    (∀ (text : String) (c : Char) (rest : List Char), text.toList = c :: rest →
      c.isDigit = true → ∃ q : Rat, 0 ≤ q ∧ parseFloat text = Val.num q) ∧
    parseFloat "" = Val.nan := by
  refine ⟨?_, ?_, parseFloat_of_digit, by decide⟩
  · unfold submitDisabled at henabled
    simp only [Bool.or_eq_false_iff, decide_eq_false_iff_not] at henabled
    refine ⟨henabled.1.1, henabled.1.2, ?_⟩
    intro h
    rw [h] at henabled
    exact absurd henabled.2 (by decide)
  · intro g hg
    obtain ⟨h1, h2, h3⟩ := goalData_amounts categoryColors formData g hg
    refine ⟨?_, ?_, h1, h2, h3⟩
    · intro now s
      unfold handleSubmit
      rw [hg]
    · intro editing now s
      unfold handleSubmit
      rw [hg]

/-- Witness of C26 (amended): the form with target amount `9000`. -/
theorem handleSubmit_amounts_witness :
    minimalForm.targetAmount ≠ "" ∧
    ∃ q : Rat, 0 ≤ q ∧ parseFloat minimalForm.targetAmount = Val.num q :=
  ⟨(handleSubmit_amounts sampleColors minimalForm (by decide)).1.2.1,
    (handleSubmit_amounts sampleColors minimalForm (by decide)).2.2.1 "9000" '9'
      ['0', '0', '0'] rfl (by decide)⟩

/-! # The Investments page (`Investments.js`, lines 82-93 and 361-374) -/

/-- The value of `x || 0` for a number `x`: `0` and `NaN` are falsy. -/
def Num.orZero : Num → Num
  | Num.fin q => if q = 0 then Num.fin 0 else Num.fin q
  | Num.nan => Num.fin 0
  | Num.posInf => Num.posInf
  | Num.negInf => Num.negInf

/-- The value `totalInvestmentValue`:
`investments?.reduce((total, inv) => total + inv.value, 0) || 0`.  The provider
always holds an array. -/
def totalInvestmentValue (investments : List Obj) : Num :=
  Num.orZero
    (investments.foldl (fun total inv => total.add (toNumber (inv.get "value"))) (Num.fin 0))

/-- The value `totalInvestmentChange`:
`investments?.reduce((total, inv) => total + (inv.currentPrice - inv.buyPrice) * inv.shares, 0) || 0`. -/
def totalInvestmentChange (investments : List Obj) : Num :=
  Num.orZero
    (investments.foldl
      (fun total inv =>
        total.add
          (((toNumber (inv.get "currentPrice")).sub (toNumber (inv.get "buyPrice"))).mul
            (toNumber (inv.get "shares"))))
      (Num.fin 0))

/-- The denominator of `totalInvestmentChangePercent`:
`totalInvestmentValue - totalInvestmentChange`. -/
def changePercentDenominator (investments : List Obj) : Num :=
  (totalInvestmentValue investments).sub (totalInvestmentChange investments)

/-- The value `totalInvestmentChangePercent`:
`(totalInvestmentChange / (totalInvestmentValue - totalInvestmentChange)) * 100`. -/
def totalInvestmentChangePercent (investments : List Obj) : Num :=
  ((totalInvestmentChange investments).div (changePercentDenominator investments)).mul
    (Num.fin 100)

/-- The cost of a holding as a rational, `shares * buyPrice`. -/
def costQ (inv : Obj) : Rat := amountQ inv "shares" * amountQ inv "buyPrice"

/-- The gain of a holding as a rational, `(currentPrice - buyPrice) * shares`. -/
def changeQ (inv : Obj) : Rat :=
  (amountQ inv "currentPrice" - amountQ inv "buyPrice") * amountQ inv "shares"

/-- An investment record `{ id, shares, buyPrice, currentPrice, value, type }`. -/
def mkInvestment (id : String) (shares buyPrice currentPrice value : Rat) (type : String) :
    Obj :=
  (((((Obj.empty.set "id" (Val.str id)).set "shares" (Val.num shares)).set
    "buyPrice" (Val.num buyPrice)).set "currentPrice" (Val.num currentPrice)).set
    "value" (Val.num value)).set "type" (Val.str type)

/-- The four holdings that `fetchInvestments` returns (`api.js`, lines
154-205), with the properties the page computes with. -/
def fixtureInvestments : List Obj :=
  [mkInvestment "inv_1" 10.5 95.20 105.75 1110.38 "ETF",
   mkInvestment "inv_2" 25.0 42.30 48.15 1203.75 "Mutual Fund",
   mkInvestment "inv_3" 15.75 150.00 153.25 2413.69 "Index Fund",
   mkInvestment "inv_4" 20.0 65.40 68.75 1375.00 "ETF"]

/-- Two holdings whose `value` is exactly `shares * currentPrice`. -/
def exactInvestments : List Obj :=
  [mkInvestment "inv_2" 25 42.30 48.15 (25 * 48.15) "Mutual Fund",
   mkInvestment "inv_4" 20 65.40 68.75 (20 * 68.75) "ETF"]

/-! ## The Investments page: change percent -/

theorem orZero_fin (q : Rat) : Num.orZero (Num.fin q) = Num.fin q := by
  show (if q = 0 then Num.fin 0 else Num.fin q) = Num.fin q
  split_ifs with h
  · rw [h]
  · rfl

theorem foldl_add_change (invs : List Obj) (init : Rat)
    (h : ∀ inv ∈ invs, ∃ sh bp cp : Rat, inv.get "shares" = Val.num sh ∧
      inv.get "buyPrice" = Val.num bp ∧ inv.get "currentPrice" = Val.num cp) :
    invs.foldl
      (fun total inv =>
        total.add
          (((toNumber (inv.get "currentPrice")).sub (toNumber (inv.get "buyPrice"))).mul
            (toNumber (inv.get "shares"))))
      (Num.fin init) = Num.fin (init + (invs.map changeQ).sum) := by
  induction invs generalizing init with
  | nil => simp
  | cons inv rest ih =>
    obtain ⟨sh, bp, cp, hsh, hbp, hcp⟩ := h inv (List.mem_cons_self _ _)
    have hstep : (Num.fin init).add
        (((toNumber (inv.get "currentPrice")).sub (toNumber (inv.get "buyPrice"))).mul
          (toNumber (inv.get "shares"))) = Num.fin (init + changeQ inv) := by
      rw [hsh, hbp, hcp]
      simp [toNumber, Num.sub, Num.neg, Num.add, Num.mul, changeQ, amountQ, hsh, hbp, hcp,
        sub_eq_add_neg]
    rw [List.foldl_cons, hstep,
      ih (init + changeQ inv) (fun x hx => h x (List.mem_cons_of_mem _ hx))]
    simp [add_assoc]

theorem sum_map_sub_eq (l : List Obj) (f g k : Obj → Rat)
    (h : ∀ x ∈ l, f x - g x = k x) : (l.map f).sum - (l.map g).sum = (l.map k).sum := by
  induction l with
  | nil => simp
  | cons x rest ih =>
    have hx := h x (List.mem_cons_self _ _)
    have ih' := ih (fun y hy => h y (List.mem_cons_of_mem _ hy))
    simp only [List.map_cons, List.sum_cons]
    linarith

theorem sum_map_pos (l : List Obj) (f : Obj → Rat) (hne : l ≠ [])
    (h : ∀ x ∈ l, 0 < f x) : 0 < (l.map f).sum := by
  induction l with
  | nil => exact absurd rfl hne
  | cons x rest ih =>
    have hx := h x (List.mem_cons_self _ _)
    simp only [List.map_cons, List.sum_cons]
    by_cases hr : rest = []
    · subst hr
      simpa using hx
    · have := ih hr (fun y hy => h y (List.mem_cons_of_mem _ hy))
      linarith

/-- C30: for every non-empty investment list in which each record has
`value = shares * currentPrice` and positive `shares` and `buyPrice`, the
denominator `totalInvestmentValue - totalInvestmentChange` of
`totalInvestmentChangePercent` is the cost basis `sum(shares * buyPrice)` and is
positive, and the result is the gain over the cost basis, in percent; for the
empty list the denominator is `0`. -/
theorem changePercentDenominator_spec (investments : List Obj) (hne : investments ≠ [])
    (h : ∀ inv ∈ investments, ∃ sh bp cp : Rat, inv.get "shares" = Val.num sh ∧
      inv.get "buyPrice" = Val.num bp ∧ inv.get "currentPrice" = Val.num cp ∧
      inv.get "value" = Val.num (sh * cp) ∧ 0 < sh ∧ 0 < bp) :
    changePercentDenominator investments = Num.fin (investments.map costQ).sum ∧
    0 < (investments.map costQ).sum ∧
    totalInvestmentChangePercent investments =
      Num.fin ((investments.map changeQ).sum / (investments.map costQ).sum * 100) ∧
    changePercentDenominator [] = Num.fin 0 := by
  have hval : totalInvestmentValue investments =
      Num.fin ((investments.map (fun inv => amountQ inv "value")).sum) := by
    unfold totalInvestmentValue
    rw [foldl_add_amounts "value" investments 0
      (fun inv hinv => by
        obtain ⟨sh, bp, cp, _, _, _, hv, _, _⟩ := h inv hinv
        exact ⟨_, hv⟩), zero_add, orZero_fin]
  have hchg : totalInvestmentChange investments = Num.fin ((investments.map changeQ).sum) := by
    unfold totalInvestmentChange
    rw [foldl_add_change investments 0
      (fun inv hinv => by
        obtain ⟨sh, bp, cp, h1, h2, h3, _, _, _⟩ := h inv hinv
        exact ⟨sh, bp, cp, h1, h2, h3⟩), zero_add, orZero_fin]
  have hcost : (investments.map (fun inv => amountQ inv "value")).sum -
      (investments.map changeQ).sum = (investments.map costQ).sum := by
    apply sum_map_sub_eq
    intro inv hinv
    obtain ⟨sh, bp, cp, h1, h2, h3, hv, _, _⟩ := h inv hinv
    simp only [changeQ, costQ, amountQ, h1, h2, h3, hv]
    ring
  have hpos : 0 < (investments.map costQ).sum := by
    apply sum_map_pos _ _ hne
    intro inv hinv
    obtain ⟨sh, bp, cp, h1, h2, h3, hv, hsh, hbp⟩ := h inv hinv
    simp only [costQ, amountQ, h1, h2]
    exact mul_pos hsh hbp
  have hden : changePercentDenominator investments = Num.fin (investments.map costQ).sum := by
    unfold changePercentDenominator
    rw [hval, hchg, ← hcost]
    simp [Num.sub, Num.neg, Num.add, sub_eq_add_neg]
  refine ⟨hden, hpos, ?_, ?_⟩
  · unfold totalInvestmentChangePercent
    rw [hden, hchg]
    simp [Num.div, Num.mul, ne_of_gt hpos]
  · simp [changePercentDenominator, totalInvestmentValue, totalInvestmentChange, Num.orZero,
      Num.sub, Num.neg, Num.add]

/-- Witness of C30: two holdings whose value is `shares * currentPrice`. -/
theorem changePercentDenominator_spec_witness :
    changePercentDenominator exactInvestments = Num.fin (exactInvestments.map costQ).sum ∧
    0 < (exactInvestments.map costQ).sum :=
  ⟨(changePercentDenominator_spec exactInvestments (by decide) (by
      intro inv hinv
      simp only [exactInvestments, List.mem_cons, List.mem_singleton, List.not_mem_nil,
        or_false] at hinv
      rcases hinv with rfl | rfl
      · exact ⟨25, 42.30, 48.15, rfl, rfl, rfl, rfl, by norm_num, by norm_num⟩
      · exact ⟨20, 65.40, 68.75, rfl, rfl, rfl, rfl, by norm_num, by norm_num⟩)).1,
    (changePercentDenominator_spec exactInvestments (by decide) (by
      intro inv hinv
      simp only [exactInvestments, List.mem_cons, List.mem_singleton, List.not_mem_nil,
        or_false] at hinv
      rcases hinv with rfl | rfl
      · exact ⟨25, 42.30, 48.15, rfl, rfl, rfl, rfl, by norm_num, by norm_num⟩
      · exact ⟨20, 65.40, 68.75, rfl, rfl, rfl, rfl, by norm_num, by norm_num⟩)).2.1⟩

/-! ## The Investments page: allocation by type

The accumulator of the `reduce` is a plain object.  Reading `acc[inv.type]`
finds an own property or, for a name such as `constructor` or `toString`, a
member inherited from `Object.prototype`; no stored value can hold such a
member, and a type that is not a string would first be converted to one.  Both
cases are outside the model: the embedding returns `none` for them.
-/

/-- Whether a value is truthy. -/
def truthy : Val → Bool
  | Val.undefined => false
  | Val.null => false
  | Val.bool b => b
  | Val.num q => decide (q ≠ 0)
  | Val.nan => false
  | Val.str s => decide (s ≠ "")

/-- The names every plain object inherits from `Object.prototype`. -/
def objectPrototypeNames : List String :=
  ["constructor", "__proto__", "hasOwnProperty", "isPrototypeOf", "propertyIsEnumerable",
   "toLocaleString", "toString", "valueOf", "__defineGetter__", "__defineSetter__",
   "__lookupGetter__", "__lookupSetter__"]

/-- The property name that `acc[inv.type]` addresses, when the model covers
it: a string that is not an inherited name. -/
def bucketKey : Val → Option String
  | Val.str s => if s ∈ objectPrototypeNames then none else some s
  | _ => none

/-- The sum `a + b` of two stored values read as numbers: a stored number is
finite or `NaN`, and so is the sum. -/
def addVals (a b : Val) : Val :=
  match toNumber a, toNumber b with
  | Num.fin x, Num.fin y => Val.num (x + y)
  | _, _ => Val.nan

/-- One pass of the reducer:
`acc[inv.type] = (acc[inv.type] || 0) + inv.value; return acc`. -/
def allocationStep (acc inv : Obj) : Option Obj :=
  match bucketKey (inv.get "type") with
  | none => none
  | some k =>
    some (acc.set k
      (addVals (if truthy (acc.get k) then acc.get k else Val.num 0) (inv.get "value")))

/-- The reducer run over the investments from a given accumulator. -/
def investmentsByTypeFrom (acc : Obj) : List Obj → Option Obj
  | [] => some acc
  | inv :: rest =>
    match allocationStep acc inv with
    | none => none
    | some next => investmentsByTypeFrom next rest

/-- The value `investmentsByType` (lines 90-93): the reducer run from `{}`. -/
def investmentsByType (investments : List Obj) : Option Obj :=
  investmentsByTypeFrom Obj.empty investments

/-- The percentage shown for a bucket in the Allocation card (line 364):
`(value / totalInvestmentValue) * 100`. -/
def allocationPercentage (value : Val) (total : Num) : Num :=
  ((toNumber value).div total).mul (Num.fin 100)

/-- The rational a stored value holds, `0` when it is not a number.  Used to
state what the page computes. -/
def valueQ : Val → Rat
  | Val.num q => q
  | _ => 0

/-- Whether the type of an investment is the string `ty`. -/
def typeIs (ty : String) (inv : Obj) : Bool := decide (inv.get "type" = Val.str ty)

/-- The sum of the bucket values of an accumulator. -/
def bucketSum (entries : List (String × Val)) : Rat := (entries.map (fun e => valueQ e.2)).sum

/-- Every bucket of the accumulator holds a number. -/
def NumericObj (acc : Obj) : Prop := ∀ e ∈ acc.entries, ∃ q : Rat, e.2 = Val.num q

/-- An investment record as the data model has it, as far as the allocation
reads it: the type is a string other than an inherited name, and the value is a
number. -/
def IsInvestment (inv : Obj) : Prop :=
  ∃ (ty : String) (q : Rat), inv.get "type" = Val.str ty ∧ ty ∉ objectPrototypeNames ∧
    inv.get "value" = Val.num q

theorem getRaw_mem_or_undefined (k : String) (l : List (String × Val)) :
    (hasRaw k l = false ∧ getRaw k l = Val.undefined) ∨
      (hasRaw k l = true ∧ (k, getRaw k l) ∈ l) := by
  induction l with
  | nil => exact Or.inl ⟨rfl, rfl⟩
  | cons hd tl ih =>
    obtain ⟨k', v'⟩ := hd
    by_cases h : k' = k
    · subst h
      right
      simp [hasRaw, getRaw]
    · rcases ih with ⟨h1, h2⟩ | ⟨h1, h2⟩
      · left
        simp [hasRaw, getRaw, h, h1, h2]
      · right
        simp [hasRaw, getRaw, h, h1, h2]

theorem hasRaw_setRaw_same (k : String) (v : Val) (l : List (String × Val)) :
    hasRaw k (setRaw k v l) = true := by
  induction l with
  | nil => simp [setRaw, hasRaw]
  | cons hd tl ih =>
    obtain ⟨k', v'⟩ := hd
    by_cases h : k' = k
    · simp [setRaw, hasRaw, h]
    · simp [setRaw, hasRaw, h, ih]

theorem mem_setRaw (k : String) (v : Val) (l : List (String × Val)) (e : String × Val)
    (he : e ∈ setRaw k v l) : e ∈ l ∨ e = (k, v) := by
  induction l with
  | nil =>
    simp only [setRaw, List.mem_singleton] at he
    exact Or.inr he
  | cons hd tl ih =>
    obtain ⟨k', v'⟩ := hd
    by_cases h : k' = k
    · simp only [setRaw, h, if_true, List.mem_cons] at he
      rcases he with he | he
      · exact Or.inr he
      · exact Or.inl (List.mem_cons_of_mem _ he)
    · simp only [setRaw, h, if_false, List.mem_cons] at he
      rcases he with he | he
      · exact Or.inl (he ▸ List.mem_cons_self _ _)
      · rcases ih he with h1 | h1
        · exact Or.inl (List.mem_cons_of_mem _ h1)
        · exact Or.inr h1

theorem bucketSum_setRaw (k : String) (v : Val) (l : List (String × Val)) :
    bucketSum (setRaw k v l) = bucketSum l - valueQ (getRaw k l) + valueQ v := by
  induction l with
  | nil => simp [setRaw, getRaw, bucketSum, valueQ]
  | cons hd tl ih =>
    obtain ⟨k', v'⟩ := hd
    by_cases h : k' = k
    · simp [setRaw, getRaw, bucketSum, h]
      ring
    · unfold bucketSum at ih ⊢
      simp only [setRaw, getRaw, h, if_false, List.map_cons, List.sum_cons, ih]
      ring

theorem allocationStep_eq (acc inv : Obj) (ty : String) (q : Rat) (hacc : NumericObj acc)
    (hty : inv.get "type" = Val.str ty) (hname : ty ∉ objectPrototypeNames)
    (hq : inv.get "value" = Val.num q) :
    allocationStep acc inv = some (acc.set ty (Val.num (valueQ (acc.get ty) + q))) := by
  unfold allocationStep
  rw [hty, hq]
  simp only [bucketKey, hname, if_false]
  congr 2
  rcases getRaw_mem_or_undefined ty acc.entries with ⟨_, h2⟩ | ⟨_, h2⟩
  · have hget : acc.get ty = Val.undefined := h2
    rw [hget]
    simp [truthy, addVals, toNumber, valueQ]
  · obtain ⟨x, hx⟩ := hacc _ h2
    have hget : acc.get ty = Val.num x := hx
    rw [hget]
    by_cases h0 : x = 0
    · simp [truthy, addVals, toNumber, valueQ, h0]
    · simp [truthy, addVals, toNumber, valueQ, h0]

theorem numericObj_set (acc : Obj) (k : String) (q : Rat) (hacc : NumericObj acc) :
    NumericObj (acc.set k (Val.num q)) := by
  intro e he
  rcases mem_setRaw k (Val.num q) acc.entries e he with h | h
  · exact hacc e h
  · exact ⟨q, by rw [h]⟩

theorem Obj.has_set (o : Obj) (k t : String) (v : Val) :
    (o.set k v).has t = true ↔ (t = k ∨ o.has t = true) := by
  by_cases h : t = k
  · subst h
    simp [Obj.has, Obj.set, hasRaw_setRaw_same]
  · rw [Obj.has_set_ne o k t v h]
    simp [h]

/-- The reducer run from a numeric accumulator over investment records: it
returns an accumulator, each type has a bucket exactly when it had one or occurs
in the list, each bucket grows by the values of the records of its type, and
the bucket sum grows by the sum of all values. -/
theorem investmentsByTypeFrom_spec (invs : List Obj) (acc : Obj) (hacc : NumericObj acc)
    (hwf : ∀ inv ∈ invs, IsInvestment inv) :
    ∃ result : Obj,
      investmentsByTypeFrom acc invs = some result ∧ NumericObj result ∧
      (∀ ty : String, result.has ty = true ↔
        (acc.has ty = true ∨ ∃ inv ∈ invs, inv.get "type" = Val.str ty)) ∧
      (∀ ty : String, valueQ (result.get ty) =
        valueQ (acc.get ty) +
          ((invs.filter (typeIs ty)).map (fun inv => amountQ inv "value")).sum) ∧
      bucketSum result.entries =
        bucketSum acc.entries + (invs.map (fun inv => amountQ inv "value")).sum := by
  induction invs generalizing acc with
  | nil => exact ⟨acc, rfl, hacc, by simp, by simp, by simp⟩
  | cons inv rest ih =>
    obtain ⟨ty, q, hty, hname, hq⟩ := hwf inv (List.mem_cons_self _ _)
    have hstep := allocationStep_eq acc inv ty q hacc hty hname hq
    obtain ⟨result, hres, hnum, hhas, hval, hsum⟩ :=
      ih (acc.set ty (Val.num (valueQ (acc.get ty) + q)))
        (numericObj_set acc ty _ hacc) (fun x hx => hwf x (List.mem_cons_of_mem _ hx))
    refine ⟨result, ?_, hnum, ?_, ?_, ?_⟩
    · unfold investmentsByTypeFrom
      rw [hstep]
      exact hres
    · intro t
      rw [hhas t, Obj.has_set]
      constructor
      · rintro ((h | h) | ⟨x, hx, hxt⟩)
        · exact Or.inr ⟨inv, List.mem_cons_self _ _, by rw [hty, h]⟩
        · exact Or.inl h
        · exact Or.inr ⟨x, List.mem_cons_of_mem _ hx, hxt⟩
      · rintro (h | ⟨x, hx, hxt⟩)
        · exact Or.inl (Or.inr h)
        · rcases List.mem_cons.1 hx with rfl | hx'
          · rw [hty] at hxt
            injection hxt with hxt
            exact Or.inl (Or.inl hxt.symm)
          · exact Or.inr ⟨x, hx', hxt⟩
    · intro t
      rw [hval t]
      by_cases h : t = ty
      · subst h
        have hti : typeIs t inv = true := by simp [typeIs, hty]
        rw [Obj.get_set_same, List.filter_cons_of_pos hti]
        simp only [valueQ, List.map_cons, List.sum_cons, amountQ, hq]
        ring
      · have hti : ¬ (typeIs t inv = true) := by
          simp only [typeIs, hty, decide_eq_true_eq, Val.str.injEq]
          exact fun e => h e.symm
        rw [Obj.get_set_ne _ _ _ _ h, List.filter_cons_of_neg hti]
    · rw [hsum]
      have hb : bucketSum (acc.set ty (Val.num (valueQ (acc.get ty) + q))).entries =
          bucketSum acc.entries - valueQ (acc.get ty) + (valueQ (acc.get ty) + q) := by
        have := bucketSum_setRaw ty (Val.num (valueQ (acc.get ty) + q)) acc.entries
        simpa [Obj.set, Obj.get, valueQ] using this
      rw [hb]
      simp only [List.map_cons, List.sum_cons, amountQ, hq]
      ring

theorem sum_map_percent (l : List (String × Val)) (total : Rat) :
    (l.map (fun e => valueQ e.2 / total * 100)).sum = bucketSum l / total * 100 := by
  induction l with
  | nil => simp [bucketSum]
  | cons e rest ih =>
    unfold bucketSum at ih ⊢
    simp only [List.map_cons, List.sum_cons, ih]
    ring

/-- C29: for every list of investment records, the allocation map built on
the Investments page partitions the portfolio: a type has a bucket exactly when
a record has that type, the bucket holds the sum of the values of the records
of its type, the number of buckets is the number of distinct types, and the sum
of all buckets is `totalInvestmentValue`; when that total is not zero the
allocation percentages sum to 100. -/
theorem investmentsByType_partition (investments : List Obj)
    (hwf : ∀ inv ∈ investments, IsInvestment inv) :
    ∃ buckets : Obj,
      investmentsByType investments = some buckets ∧
      (∀ ty : String, buckets.has ty = true ↔
        ∃ inv ∈ investments, inv.get "type" = Val.str ty) ∧
      (∀ ty : String, buckets.has ty = true →
        buckets.get ty =
          Val.num ((investments.filter (typeIs ty)).map (fun inv => amountQ inv "value")).sum) ∧
      buckets.entries.length =
        ((investments.map (fun inv => textOf inv "type")).dedup).length ∧
      totalInvestmentValue investments = Num.fin (bucketSum buckets.entries) ∧
      (bucketSum buckets.entries ≠ 0 →
        (∀ e ∈ buckets.entries,
          allocationPercentage e.2 (totalInvestmentValue investments) =
            Num.fin (valueQ e.2 / bucketSum buckets.entries * 100)) ∧
        (buckets.entries.map
          (fun e => valueQ e.2 / bucketSum buckets.entries * 100)).sum = 100) := by
  have hempty : NumericObj Obj.empty := by
    intro e he
    simp [Obj.empty] at he
  obtain ⟨buckets, hres, hnum, hhas, hval, hsum⟩ :=
    investmentsByTypeFrom_spec investments Obj.empty hempty hwf
  have hhas' : ∀ ty : String, buckets.has ty = true ↔
      ∃ inv ∈ investments, inv.get "type" = Val.str ty := by
    intro ty
    rw [hhas ty]
    simp [Obj.has, Obj.empty, hasRaw]
  have htotal : totalInvestmentValue investments = Num.fin (bucketSum buckets.entries) := by
    unfold totalInvestmentValue
    rw [foldl_add_amounts "value" investments 0
      (fun inv hinv => by
        obtain ⟨ty, q, _, _, hq⟩ := hwf inv hinv
        exact ⟨q, hq⟩), orZero_fin, hsum]
    simp [bucketSum, Obj.empty]
  refine ⟨buckets, hres, hhas', ?_, ?_, htotal, ?_⟩
  · intro ty hty
    have hv := hval ty
    rcases getRaw_mem_or_undefined ty buckets.entries with ⟨h1, _⟩ | ⟨_, h2⟩
    · have : buckets.has ty = false := h1
      rw [this] at hty
      exact absurd hty (by decide)
    · obtain ⟨x, hx⟩ := hnum _ h2
      have hget : buckets.get ty = Val.num x := hx
      rw [hget] at hv ⊢
      have hundef : valueQ (Obj.empty.get ty) = 0 := rfl
      rw [hundef, zero_add] at hv
      simp only [valueQ] at hv
      rw [hv]
  · rw [← List.length_map buckets.entries Prod.fst]
    apply List.Perm.length_eq
    rw [List.perm_ext_iff_of_nodup buckets.nodup (List.nodup_dedup _)]
    intro k
    rw [List.mem_dedup, ← hasRaw_iff_mem]
    have hk := hhas' k
    unfold Obj.has at hk
    rw [hk, List.mem_map]
    constructor
    · rintro ⟨inv, hinv, hty⟩
      exact ⟨inv, hinv, by simp [textOf, hty]⟩
    · rintro ⟨inv, hinv, hty⟩
      obtain ⟨ty, q, htype, _, _⟩ := hwf inv hinv
      refine ⟨inv, hinv, ?_⟩
      simp only [textOf, htype] at hty
      rw [htype, hty]
  · intro hne
    constructor
    · intro e he
      obtain ⟨x, hx⟩ := hnum e he
      rw [htotal, hx]
      simp [allocationPercentage, toNumber, Num.div, Num.mul, hne, valueQ]
    · rw [sum_map_percent, div_self hne]
      norm_num

/-- Witness of C29: the four holdings of the fixture. -/
theorem investmentsByType_partition_witness :
    ∃ buckets : Obj,
      investmentsByType fixtureInvestments = some buckets ∧
      buckets.entries.length =
        ((fixtureInvestments.map (fun inv => textOf inv "type")).dedup).length ∧
      totalInvestmentValue fixtureInvestments = Num.fin (bucketSum buckets.entries) := by
  obtain ⟨buckets, h1, _, _, h4, h5, _⟩ := investmentsByType_partition fixtureInvestments (by
    intro inv hinv
    simp only [fixtureInvestments, List.mem_cons, List.mem_singleton, List.not_mem_nil,
      or_false] at hinv
    rcases hinv with rfl | rfl | rfl | rfl
    · exact ⟨"ETF", _, rfl, by decide, rfl⟩
    · exact ⟨"Mutual Fund", _, rfl, by decide, rfl⟩
    · exact ⟨"Index Fund", _, rfl, by decide, rfl⟩
    · exact ⟨"ETF", _, rfl, by decide, rfl⟩)
  exact ⟨buckets, h1, h4, h5⟩

/-- The buckets of the fixture: three types for four holdings, in order of
first occurrence. -/
theorem fixture_buckets :
    (investmentsByType fixtureInvestments).map (fun b => b.entries.map Prod.fst) =
      some ["ETF", "Mutual Fund", "Index Fund"] := by
  decide

end Fintech
